import Mathlib

/-!
# Memory-mapped file benchmark: statistics, transfer loops and rate computation

A shallow embedding of the measurement core of `mapfile.c` and of the read loop of
`debug_samples/2018_BlockBench/blockbench.c`.

* `double` samples are modelled by exact rationals (`ℚ`), as the properties below are
  about exact, totally ordered numbers.
* A C array is a `List ℚ`; `rd a i` is the read `a[i]` and `List.set` the write.
  Reads outside the list are undefined behaviour in C; the model returns `0` there and
  every theorem about an array carries the bound that rules them out.
* The `while` loops carry a fuel argument; `none` means that the fuel ran out.
-/

namespace MapFile

/-! ## `calculateStatistics` (mapfile.c, lines 326-370) -/

/-- The four values written through the output pointers of `calculateStatistics`. -/
structure Statistics where
  statMedian : ℚ
  statAverage : ℚ
  statMin : ℚ
  statMax : ℚ
deriving DecidableEq

/-- The array read `statArray[i]`. -/
def rd (a : List ℚ) (i : Nat) : ℚ := a.getD i 0

/-- The locals updated by the first `for` loop: `*statMin`, `*statMax`, `statSum`. -/
structure Scan where
  statMin : ℚ
  statMax : ℚ
  statSum : ℚ
deriving DecidableEq

/-- The body of the first `for` loop at index `i` (lines 339-341). -/
def scanStep (a : List ℚ) (s : Scan) (i : Nat) : Scan :=
  let mn := if s.statMin > rd a i then rd a i else s.statMin
  let mx := if s.statMax < rd a i then rd a i else s.statMax
  ⟨mn, mx, s.statSum + rd a i⟩

/-- Lines 335-342: `*statMin = *statMax = statArray[0]`, then
`for ( i=0; i<statCount; i++ )`. -/
def scanLoop (a : List ℚ) (statCount : Nat) : Scan :=
  (List.range statCount).foldl (scanStep a) ⟨rd a 0, rd a 0, 0⟩

/-- The exchange of `statArray[i]` and `statArray[i+1]` through `statTemp`
(lines 353-355). -/
def exchange (a : List ℚ) (i : Nat) : List ℚ :=
  let statTemp := rd a i
  let a1 := a.set i (rd a (i + 1))
  a1.set (i + 1) statTemp

/-- The inner loop `for ( i=0; i<(statCount-1); i++ )` (lines 349-358), started at
index `i` with `k` iterations left; returns the array and `flag`. -/
def orderingPassFrom (a : List ℚ) (flag : Bool) (i : Nat) : Nat → List ℚ × Bool
  | 0 => (a, flag)
  | k + 1 =>
    if rd a i > rd a (i + 1) then orderingPassFrom (exchange a i) true (i + 1) k
    else orderingPassFrom a flag (i + 1) k

/-- One pass of the `while` body: `flag = 0;` followed by the inner loop. -/
def orderingPass (statCount : Nat) (a : List ℚ) : List ℚ × Bool :=
  orderingPassFrom a false 0 (statCount - 1)

/-- The loop `flag = 1; while ( flag == 1 ) ...` (lines 345-359); one unit of fuel per
pass, `none` when the fuel runs out. -/
def orderingLoop (statCount : Nat) : Nat → List ℚ → Option (List ℚ)
  | 0, _ => none
  | fuel + 1, a =>
    let p := orderingPass statCount a
    if p.2 then orderingLoop statCount fuel p.1 else some p.1

/-- Lines 360-369: the median read from the ordered array. For `statCount = 0` the C
code reads `statArray[-1]`; the model's index `0 - 1 = 0` is not meant to describe it. -/
def medianOf (a : List ℚ) (statCount : Nat) : ℚ :=
  if statCount % 2 = 0 then
    let i := statCount / 2
    (rd a (i - 1) + rd a i) / 2
  else
    let i := statCount / 2
    rd a i

/-- The function `calculateStatistics( statArray, statCount, ... )`: returns the array as
the function leaves it together with the four results, or `none` when the ordering loop
runs out of fuel. For `statCount = 0` the C division `statSum / statCount` is `0.0 / 0`;
the rational quotient of the model has no meaning there. -/
def calculateStatistics (fuel : Nat) (statArray : List ℚ) (statCount : Nat) :
    Option (List ℚ × Statistics) :=
  let s := scanLoop statArray statCount
  let statAverage := s.statSum / (statCount : ℚ)
  match orderingLoop statCount fuel statArray with
  | none => none
  | some a => some (a, ⟨medianOf a statCount, statAverage, s.statMin, s.statMax⟩)

/-! ## The sample logs: `handlerProgress` and the summary of `main` -/

/-- The constant `REPEATS_MAX`, the size of `writeLog` and `readLog`. -/
def REPEATS_MAX : Nat := 100

/-- The function `handlerProgress( stepName, stepNumber, statArray )` (lines 653-668):
runs `calculateStatistics( statArray, stepNumber + 1, ... )` on the log itself and prints
the results; returns the log as left by the call and the new values of the four
`result*` globals. -/
def handlerProgress (fuel : Nat) (stepNumber : Nat) (statArray : List ℚ) :
    Option (List ℚ × Statistics) :=
  calculateStatistics fuel statArray (stepNumber + 1)

/-- The log part of the repeat loop `for ( rep=0; rep<repeats; rep++ )` of one phase
(lines 743-890 and 895-1032), all system calls succeeding: repeat `rep` stores its rate
with `log[rep] = mbps` and calls `handlerProgress( name, rep, log )`. `mbps rep` is the
rate measured in repeat `rep`; the third argument is the number of repeats run. -/
def phaseLoop (fuel : Nat) (mbps : Nat → ℚ) :
    Nat → List ℚ × Statistics → Option (List ℚ × Statistics)
  | 0, st => some st
  | rep + 1, st =>
    match phaseLoop fuel mbps rep st with
    | none => none
    | some (log, _) => handlerProgress fuel rep (log.set rep (mbps rep))

/-- The statistics path of `main` for a run in which every system call succeeds: both logs
are blanked (lines 730-734), the write cycle and the read cycle fill them, and the two
final calls of `calculateStatistics` (lines 1041 and 1048) give the write summary and the
read summary. -/
def mainStatistics (fuel : Nat) (writeMbps readMbps : Nat → ℚ) (repeats : Nat) :
    Option (Statistics × Statistics) :=
  let blank : List ℚ := List.replicate REPEATS_MAX 0
  match phaseLoop fuel writeMbps repeats (blank, ⟨0, 0, 0, 0⟩) with
  | none => none
  | some (writeLog, r1) =>
    match phaseLoop fuel readMbps repeats (blank, r1) with
    | none => none
    | some (readLog, _) =>
      match calculateStatistics fuel writeLog repeats with
      | none => none
      | some (_, w) =>
        match calculateStatistics fuel readLog repeats with
        | none => none
        | some (_, r) => some (w, r)

/-! ## The file-fill write loop of `main` (lines 764-788) -/

/-- The constant `BUFFER_SIZE`, `1024*1024`. -/
def BUFFER_SIZE : Nat := 1024 * 1024

/-- How the file-fill loop ends. -/
inductive WriteOutcome
  | completed   -- the loop condition `addSize < fileSize` became false
  | zeroWrite   -- branch "Unexpected zero size write error", `return 3`
  | writeError  -- branch "File write error", `return 3`
  | outOfFuel   -- the model ran out of fuel
deriving DecidableEq

/-- The value `main` returns from inside the loop, if it returns there. -/
def WriteOutcome.exitCode : WriteOutcome → Option Nat
  | .completed => none
  | .zeroWrite => some 3
  | .writeError => some 3
  | .outOfFuel => none

/-- One call `write( fileHandle, diskData, count )`: the value of `addSize` when it is
made, the count requested and the value returned. -/
structure WriteCall where
  addSize : Nat
  count : Nat
  outSize : Int
deriving DecidableEq

/-- The result of the loop: how it ended, the final `addSize`, and the calls made. -/
structure WriteRun where
  outcome : WriteOutcome
  addSize : Nat
  calls : List WriteCall
deriving DecidableEq

/-- The loop `while ( addSize < fileSize )` of lines 767-788 from a state
`addSize`, `count` with the calls made so far. `write k c` is the value the `k`-th call
of `write` (counted from 0) returns when asked for `c` bytes. Sizes are natural numbers:
`addSize` only grows by positive returns and, for returns not above the request, stays
at most `fileSize`, which validation keeps below 2^31. -/
def writeLoop (fileSize bufSize : Nat) (write : Nat → Nat → Int) :
    Nat → Nat → Nat → List WriteCall → WriteRun
  | 0, addSize, _, calls => ⟨.outOfFuel, addSize, calls⟩
  | fuel + 1, addSize, count, calls =>
    if addSize < fileSize then
      let count := if fileSize - addSize < bufSize then fileSize - addSize else count
      let outSize := write calls.length count
      let calls := calls ++ [⟨addSize, count, outSize⟩]
      if outSize > 0 then
        writeLoop fileSize bufSize write fuel (addSize + outSize.toNat) count calls
      else if outSize = 0 then ⟨.zeroWrite, addSize, calls⟩
      else ⟨.writeError, addSize, calls⟩
    else ⟨.completed, addSize, calls⟩

/-- Lines 764-788: `addSize = 0; count = bufSize;` and the loop, with
`bufSize = BUFFER_SIZE`. -/
def fileFill (fileSize : Nat) (write : Nat → Nat → Int) (fuel : Nat) : WriteRun :=
  writeLoop fileSize BUFFER_SIZE write fuel 0 BUFFER_SIZE []

/-! ## The rate of one repeat (lines 857-866) -/

/-- A `struct timespec`. -/
structure Timespec where
  tv_sec : Int
  tv_nsec : Int
deriving DecidableEq

/-- The constant `TIME_TO_SECONDS`, `0.000000001`. -/
def TIME_TO_SECONDS : ℚ := 1 / 1000000000

/-- Lines 858-862: `sec = ts2.tv_sec - ts1.tv_sec; ns = ts2.tv_nsec - ts1.tv_nsec;
seconds = ns; seconds *= TIME_TO_SECONDS; seconds += sec;`. -/
def elapsedSeconds (ts1 ts2 : Timespec) : ℚ :=
  let sec : Int := ts2.tv_sec - ts1.tv_sec
  let ns : Int := ts2.tv_nsec - ts1.tv_nsec
  let seconds : ℚ := (ns : ℚ)
  let seconds := seconds * TIME_TO_SECONDS
  seconds + (sec : ℚ)

/-- Lines 863-865: `megabytes = fileSize; megabytes /= 1048576.0;
mbps = megabytes / seconds;`, the value then stored in the log. The result `none` stands
for the non-finite `double` that the division by a zero `seconds` produces. -/
def measuredMbps (fileSize : Nat) (ts1 ts2 : Timespec) : Option ℚ :=
  let seconds := elapsedSeconds ts1 ts2
  let megabytes : ℚ := (fileSize : ℚ)
  let megabytes := megabytes / 1048576
  if seconds = 0 then none else some (megabytes / seconds)

end MapFile

namespace BlockBench

/-! ## The read loop of `blockbench.c` (lines 877-916) -/

/-- The constant `OPERATION_PER_LINE`, `1048576*100`. -/
def OPERATION_PER_LINE : Nat := 1048576 * 100

/-- The number of values of `size_t` (64-bit build). -/
def SIZE_MODULUS : Nat := 2 ^ 64

/-- The conversion of the `ssize_t` value returned by `read` to the `size_t` variable
`status` (line 851: `size_t status = 0;`). -/
def toSizeT (r : Int) : Nat := (r % (SIZE_MODULUS : Int)).toNat

/-- Lines 890-892: `varSize = OPERATION_PER_LINE; status = stop - varOffset;
if ( varSize > status ) { varSize = status; }`, for `varOffset < stop`. -/
def lineSize (stop varOffset : Nat) : Nat :=
  let varSize := OPERATION_PER_LINE
  let status := stop - varOffset
  if varSize > status then status else varSize

/-- How the read loop of one report line ends. -/
inductive ReadOutcome
  | finished              -- the loop condition `accum < varSize` became false
  | blockReadError        -- branch "BLOCK READ ERROR", `exit(1)`
  | unexpectedZeroLength  -- branch "UNEXPECTED ZERO LENGTH", `exit(1)`
  | outOfFuel             -- the model ran out of fuel
deriving DecidableEq

/-- The result of the loop: how it ended, the final `accum`, the number of `read` calls. -/
structure ReadRun where
  outcome : ReadOutcome
  accum : Nat
  calls : Nat
deriving DecidableEq

/-- The loop `while ( accum < varSize )` of lines 902-916. `read k c` is the `ssize_t`
value returned by the `k`-th call of `read` (counted from 0) when asked for `c` bytes;
`status` and `accum` are `size_t`, so the stored status is `toSizeT` of the return and
the sum wraps. -/
def readLoop (varSize block : Nat) (read : Nat → Nat → Int) : Nat → Nat → Nat → ReadRun
  | 0, accum, calls => ⟨.outOfFuel, accum, calls⟩
  | fuel + 1, accum, calls =>
    if accum < varSize then
      let status : Nat := toSizeT (read calls block)
      if status < 0 then ⟨.blockReadError, accum, calls + 1⟩
      else if status = 0 then ⟨.unexpectedZeroLength, accum, calls + 1⟩
      else readLoop varSize block read fuel ((accum + status) % SIZE_MODULUS) (calls + 1)
    else ⟨.finished, accum, calls⟩

/-- Lines 901-916 for one report line: `accum = 0;` and the loop. -/
def readLine (varSize block : Nat) (read : Nat → Nat → Int) (fuel : Nat) : ReadRun :=
  readLoop varSize block read fuel 0 0

end BlockBench

namespace MapFile

/-! ## Reference notions used to state and prove the properties -/

/-- One pass of adjacent exchanges over the list `c :: t`, the element `c` being the one
currently compared (list view of `orderingPassFrom`, used in the proofs). -/
def bubbleAux (c : ℚ) : List ℚ → List ℚ × Bool
  | [] => ([c], false)
  | y :: t =>
    if c > y then (y :: (bubbleAux c t).1, true)
    else (c :: (bubbleAux y t).1, (bubbleAux y t).2)

/-- The number of inversions of a list: pairs of positions `i < j` with `l[j] < l[i]`. -/
def inversions : List ℚ → Nat
  | [] => 0
  | x :: t => t.countP (fun y => decide (y < x)) + inversions t

/-- The reference median of a sample list: order it ascending; odd length gives the
central element, even length the mean of the two central elements. -/
def referenceMedian (s : List ℚ) : ℚ :=
  let sorted := s.insertionSort (· ≤ ·)
  if s.length % 2 = 1 then rd sorted (s.length / 2)
  else (rd sorted (s.length / 2 - 1) + rd sorted (s.length / 2)) / 2

end MapFile

namespace MapFile

/-! ## Division of doubles and the stored rate -/

/-- The quotient `a / b` of two `double` values; `none` stands for the non-finite result
(infinity or NaN) of a division by zero. -/
def doubleDiv (a b : ℚ) : Option ℚ :=
  if b = 0 then none else some (a / b)

/-- Lines 857-866 (write phase) and 999-1008 (read phase) of one repeat: the rate is
computed and stored with `writeLog[rep] = mbps` (`readLog[rep] = mbps`). The log is an
array of `double`; an entry `none` is a non-finite value. The code has no other outcome
here: the next statement is the call of `handlerProgress`. -/
def storeRate (log : List (Option ℚ)) (rep : Nat) (fileSize : Nat) (ts1 ts2 : Timespec) :
    List (Option ℚ) :=
  log.set rep (measuredMbps fileSize ts1 ts2)

/-! ## The control flow of `main` (mapfile.c, lines 672-1061) -/

/-- The option variables of lines 89-93 as `handlerInput` leaves them. -/
structure Config where
  fileSize : Nat
  wsyncMode : Int
  writeDelay : Int
  readDelay : Int
  repeats : Int
deriving DecidableEq

/-- The defaults of lines 55-60. -/
def defaultConfig : Config := ⟨1024 * 1024 * 1024, 1, 100, 100, 5⟩

/-- The constant `FILE_SIZE_MIN`. -/
def FILE_SIZE_MIN : Nat := 4096

/-- The constant `FILE_SIZE_MAX`, `1536*1024*1024`. -/
def FILE_SIZE_MAX : Nat := 1536 * 1024 * 1024

/-- The constant `WSYNC_NO`. -/
def WSYNC_NO : Int := 0

/-- The constant `WSYNC_YES`. -/
def WSYNC_YES : Int := 1

/-- The constant `DELAY_MIN`. -/
def DELAY_MIN : Int := 0

/-- The constant `DELAY_MAX`. -/
def DELAY_MAX : Int := 100000

/-- The constant `REPEATS_MIN`. -/
def REPEATS_MIN : Int := 0

/-- The "BAD PARAMETER" branches of lines 687-715. -/
inductive BadParameter
  | fileSize
  | wsyncMode
  | writeDelay
  | readDelay
  | repeats
deriving DecidableEq

/-- Lines 687-715: the five checks in order; `none` when all pass. The C operators `|`
and `&` act on the 0/1 results of the comparisons. -/
def checkParameters (c : Config) : Option BadParameter :=
  if decide (c.fileSize < FILE_SIZE_MIN) || decide (c.fileSize > FILE_SIZE_MAX) then
    some .fileSize
  else if decide (c.wsyncMode ≠ WSYNC_NO) && decide (c.wsyncMode ≠ WSYNC_YES) then
    some .wsyncMode
  else if decide (c.writeDelay < DELAY_MIN) || decide (c.writeDelay > DELAY_MAX) then
    some .writeDelay
  else if decide (c.readDelay < DELAY_MIN) || decide (c.readDelay > DELAY_MAX) then
    some .readDelay
  else if decide (c.repeats < REPEATS_MIN) || decide (c.repeats > (REPEATS_MAX : Int)) then
    some .repeats
  else none

/-- The two measurement cycles of `main`. -/
inductive Phase
  | write
  | read
deriving DecidableEq

/-- The steps of one repeat, in program order (line numbers of the write cycle; the read
cycle of lines 895-1032 has the same steps without `fsync`). -/
inductive Step
  | memalign     -- lines 746-752, failure: `return 3`
  | create       -- lines 757-762, failure: `return 3`
  | fill         -- lines 764-788, the write loop, failure: `return 3`
  | closeFilled  -- lines 790-795, failure: `return 3`
  | openFile     -- lines 800-805, failure: `return 3`
  | mmap         -- lines 807-814, failure: `return 3`
  | usleep       -- lines 816-821, failure: `return 3`
  | clockStart   -- lines 823-828, failure: `return 3`
  | pageWalk     -- lines 830-839, no failure branch
  | fsync        -- lines 841-849, failure: `return 3`
  | clockStop    -- lines 851-856, failure: `return 3`
  | record       -- lines 858-867, rate, log entry and `handlerProgress`, no failure branch
  | munmap       -- lines 869-874, failure: `return 1`
  | close        -- lines 876-881, failure: `return 3`
  | remove       -- lines 884-889, failure: `return 3`
deriving DecidableEq

/-- The value returned by `main` in the failure branch of a step; `none` for a step
without such a branch. -/
def Step.returns : Step → Option Nat
  | .pageWalk => none
  | .record => none
  | .munmap => some 1
  | _ => some 3

/-- The steps of one repeat: `fsync` is called only in the write cycle and only when
`wsyncMode == 1` (line 841). -/
def repeatSteps (phase : Phase) (wsyncMode : Int) : List Step :=
  [.memalign, .create, .fill, .closeFilled, .openFile, .mmap, .usleep, .clockStart,
    .pageWalk] ++
  (if phase = .write ∧ wsyncMode = 1 then [.fsync] else []) ++
  [.clockStop, .record, .munmap, .close, .remove]

/-- What `main` does, as far as the properties below need it. -/
inductive Action
  | prompt                                        -- lines 718-726, "Start? (Y/N)"
  | step (phase : Phase) (rep : Nat) (s : Step)   -- a step of repeat `rep`
  | summary (phase : Phase) (statCount : Int)     -- lines 1041 and 1048
  | resourceStatistics                            -- line 1055
deriving DecidableEq

/-- The environment of a run: the value returned by `handlerInput`, the value returned
by `getchar`, for each step of each repeat whether its failure branch is taken, and
whether `getrusage` fails. -/
structure Env where
  parseStatus : Int
  key : Int
  fails : Phase → Nat → Step → Bool
  rusageFails : Bool

/-- The steps of one repeat run in order up to the first failure: the actions performed
and the value returned by `main`, if it returns here. -/
def runSteps (env : Env) (phase : Phase) (rep : Nat) : List Step → List Action × Option Nat
  | [] => ([], none)
  | s :: rest =>
    match s.returns with
    | some code =>
      if env.fails phase rep s then ([.step phase rep s], some code)
      else ((.step phase rep s) :: (runSteps env phase rep rest).1,
        (runSteps env phase rep rest).2)
    | none => ((.step phase rep s) :: (runSteps env phase rep rest).1,
        (runSteps env phase rep rest).2)

/-- The loop `for ( rep=0; rep<repeats; rep++ )` from repeat `rep` with `count` repeats
left. -/
def runPhase (env : Env) (wsyncMode : Int) (phase : Phase) :
    Nat → Nat → List Action × Option Nat
  | _, 0 => ([], none)
  | rep, count + 1 =>
    let r := runSteps env phase rep (repeatSteps phase wsyncMode)
    match r.2 with
    | some code => (r.1, some code)
    | none =>
      ((r.1 ++ (runPhase env wsyncMode phase (rep + 1) count).1),
        (runPhase env wsyncMode phase (rep + 1) count).2)

/-- The C function `tolower` on the value returned by `getchar`. -/
def tolower (key : Int) : Int :=
  if 65 ≤ key ∧ key ≤ 90 then key + 32 else key

/-- A run of `main`: the actions performed and the exit code. -/
structure Run where
  trace : List Action
  exitCode : Nat
deriving DecidableEq

/-- The function `main`: parse (line 678), validation (lines 687-715), prompt (lines
718-726), write cycle, read cycle, the two summaries and the resource statistics
(`exit(2)` when `getrusage` fails, line 222), `return 0`. -/
def main (c : Config) (env : Env) : Run :=
  if env.parseStatus ≠ 0 then ⟨[], 1⟩
  else
    match checkParameters c with
    | some _ => ⟨[], 1⟩
    | none =>
      if tolower env.key ≠ 121 then ⟨[.prompt], 3⟩
      else
        let w := runPhase env c.wsyncMode .write 0 c.repeats.toNat
        match w.2 with
        | some code => ⟨.prompt :: w.1, code⟩
        | none =>
          let r := runPhase env c.wsyncMode .read 0 c.repeats.toNat
          match r.2 with
          | some code => ⟨.prompt :: (w.1 ++ r.1), code⟩
          | none =>
            ⟨.prompt :: (w.1 ++ r.1 ++
                [.summary .write c.repeats, .summary .read c.repeats, .resourceStatistics]),
              if env.rusageFails then 2 else 0⟩

/-- The `statCount` argument of the call of `calculateStatistics` an action makes:
`handlerProgress( name, rep, log )` passes `rep + 1` (line 656), the summaries pass
`repeats`. -/
def Action.statCount : Action → Option Int
  | .step _ rep .record => some ((rep : Int) + 1)
  | .summary _ n => some n
  | _ => none

/-- The environment in which the user answers `y` and nothing fails. -/
def quietEnv : Env := ⟨0, 121, fun _ _ _ => false, false⟩

end MapFile


namespace Timers

/-! ## The four clocks (blockbench.c lines 286-355, filebench.cpp lines 277-293 and
520-563) -/

open MapFile (Timespec doubleDiv)

/-- The constant `TCNT`, the number of clocks in `clk_ids`. -/
def TCNT : Nat := 4

/-- What a call of `clock_getres` or `clock_gettime` does: the status it returns and the
value it leaves in the `struct timespec` it is given. -/
structure ClockResult where
  status : Int
  value : Timespec

/-- The body of the probe loop at index `i`: `clock_getres( clk_ids[i], &ts[i] )`, and
on a non-zero status `ts[i].tv_sec = -1; ts[i].tv_nsec = -1;`. -/
def probeStep (getres : Nat → ClockResult) (ts : Nat → Timespec) (i : Nat) :
    Nat → Timespec :=
  let clockStatus := (getres i).status
  let ts := Function.update ts i (getres i).value
  if clockStatus = 0 then ts else Function.update ts i ⟨-1, -1⟩

/-- The probe loop `for ( i=0; i<TCNT; i++ )`; `getres i` is the result of the call
for clock `i`. -/
def probeLoop (getres : Nat → ClockResult) (ts : Nat → Timespec) : Nat → Timespec :=
  (List.range TCNT).foldl (probeStep getres) ts

/-- An array of samples together with the clocks for which `clock_gettime` was called,
in call order. -/
structure Samples where
  samples : Nat → Timespec
  calls : List Nat

/-- The body of the sampling loop at index `i`, reading the array `guard` and writing
the array `st.samples`: `if ( guard[i].tv_sec >= 0 )` the clock is read with
`clock_gettime( clk_ids[i], &samples[i] )`, else the status is set to -1; a non-zero
status forces `samples[i].tv_sec = -1; samples[i].tv_nsec = -1;`. -/
def sampleStep (gettime : Nat → ClockResult) (guard : Nat → Timespec) (st : Samples)
    (i : Nat) : Samples :=
  let called : Bool := decide ((guard i).tv_sec ≥ 0)
  let timerStatus : Int := if called then (gettime i).status else -1
  let samples := if called then Function.update st.samples i (gettime i).value else st.samples
  let calls := if called then st.calls ++ [i] else st.calls
  let samples := if timerStatus ≠ 0 then Function.update samples i ⟨-1, -1⟩ else samples
  ⟨samples, calls⟩

/-- The sampling loop `for ( i=0; i<TCNT; i++ )`; `gettime i` is the result of the call
for clock `i` in this run of the loop, if it is made. -/
def sampleLoop (gettime : Nat → ClockResult) (guard samples : Nat → Timespec) : Samples :=
  (List.range TCNT).foldl (sampleStep gettime guard) ⟨samples, []⟩

/-- The elapsed seconds of clock `i`: `fsec = ts2[i].tv_sec - ts1[i].tv_sec;
fns = ts2[i].tv_nsec - ts1[i].tv_nsec; fsec += fns / 1000000000.0;`. -/
def clockSeconds (ts1 ts2 : Nat → Timespec) (i : Nat) : ℚ :=
  let fsec : ℚ := (((ts2 i).tv_sec - (ts1 i).tv_sec : Int) : ℚ)
  let fns : ℚ := (((ts2 i).tv_nsec - (ts1 i).tv_nsec : Int) : ℚ)
  fsec + fns / 1000000000

end Timers

namespace BlockBench

open MapFile (Timespec doubleDiv)
open Timers

/-- The function `detectAndPrintTimers` (lines 286-309), acting on the global `ts`. -/
def detectAndPrintTimers (getres : Nat → ClockResult) (ts : Nat → Timespec) :
    Nat → Timespec :=
  probeLoop getres ts

/-- The function `startTimeDelta` (lines 312-332): reads `ts`, writes `ts1`. -/
def startTimeDelta (gettime : Nat → ClockResult) (ts ts1 : Nat → Timespec) : Samples :=
  sampleLoop gettime ts ts1

/-- The function `stopTimeDelta` (lines 335-355): reads `ts1`, writes `ts2`. -/
def stopTimeDelta (gettime : Nat → ClockResult) (ts1 ts2 : Nat → Timespec) : Samples :=
  sampleLoop gettime ts1 ts2

/-- The values computed for one report line (lines 920-933). -/
structure LineRates where
  mbps : Option ℚ
  timeTotal : ℚ
  timeUtilized : ℚ
  utilization : Option ℚ
deriving DecidableEq

/-- Lines 920-933: the rate from clock 0 and `varSize`, the utilization from clocks 2
and 0. -/
def lineRates (varSize : Nat) (ts1 ts2 : Nat → Timespec) : LineRates :=
  let seconds := clockSeconds ts1 ts2 0
  let megabytes : ℚ := (varSize : ℚ)
  let megabytes := megabytes / 1048576
  let mbps := doubleDiv megabytes seconds
  let timeTotal := seconds
  let seconds := clockSeconds ts1 ts2 2
  let timeUtilized := seconds
  let utilization := doubleDiv timeUtilized timeTotal
  ⟨mbps, timeTotal, timeUtilized, utilization⟩

/-- The start parameters of blockbench.c (lines 96-107) as they are when validation
starts; `start`, `stop`, `block` and `sector` are `size_t`. -/
structure Params where
  operation : Int
  addressing : Int
  data : Int
  threads : Int
  start : Nat
  stop : Nat
  block : Nat
  sector : Nat
  direct : Int
  wsync : Int
  precision : Int
  machinereadable : Int
deriving DecidableEq

/-- Line 790: `long long limitmax = 1024*1024*1024*10LL;`. -/
def limitmax : Nat := 1024 * 1024 * 1024 * 10

/-- Line 791: `long long limitmin = 0;`. -/
def limitmin : Nat := 0

/-- Line 792: `long long limblk = 4096;`. -/
def limblk : Nat := 4096

/-- Lines 764-828: the checks of the start parameters; `true` when none of the
`exit(1)` branches is taken. The `size_t` values are compared as unsigned numbers. -/
def checkParams (p : Params) : Bool :=
  if p.operation ≠ 0 then false
  else if p.addressing ≠ 0 then false
  else if p.data ≠ 0 then false
  else if p.threads ≠ 1 then false
  else if decide (p.start > limitmax) || decide (p.stop > limitmax) ||
      decide (p.block > limitmax) || decide (p.start < limitmin) ||
      decide (p.stop < limitmin) || decide (p.block < limblk) then false
  else if p.sector ≠ 512 then false
  else if p.direct ≠ 1 then false
  else if p.wsync ≠ 1 then false
  else if p.precision ≠ 0 then false
  else if p.machinereadable ≠ 0 then false
  else true

end BlockBench

namespace FileBench

open MapFile (Timespec doubleDiv)
open Timers

/-- The probe loop of `main` (filebench.cpp lines 277-293). -/
def probeTimers (getres : Nat → ClockResult) (ts : Nat → Timespec) : Nat → Timespec :=
  probeLoop getres ts

/-- The function `timerStart( ts, ts1 )` (lines 520-540). -/
def timerStart (gettime : Nat → ClockResult) (ts ts1 : Nat → Timespec) : Samples :=
  sampleLoop gettime ts ts1

/-- The function `timerStop( ts1, ts2 )` (lines 543-563). -/
def timerStop (gettime : Nat → ClockResult) (ts1 ts2 : Nat → Timespec) : Samples :=
  sampleLoop gettime ts1 ts2

/-- The reference parameters of `benchmarksCalculation`. -/
structure Results where
  megabytes : ℚ
  mbps : Option ℚ
  timeTotal : ℚ
  timeUtilized : ℚ
  timeRatio : Option ℚ
deriving DecidableEq

/-- The body of the loop of `benchmarksCalculation` at index `i` (lines 580-592). -/
def calculationStep (ts1 ts2 : Nat → Timespec) (r : Results) (i : Nat) : Results :=
  let fsec := clockSeconds ts1 ts2 i
  let r := if i = 0 then { r with timeTotal := fsec, mbps := doubleDiv r.megabytes fsec }
    else r
  if i = 2 then { r with timeUtilized := fsec } else r

/-- The function `benchmarksCalculation` (lines 566-595): `megabytes = x;
megabytes /= 1000000;`, the loop over the clocks, and
`timeRatio = timeUtilized / timeTotal;`. The argument `r` holds the values of the
reference parameters at the call. -/
def benchmarksCalculation (x : Nat) (r : Results) (ts1 ts2 : Nat → Timespec) : Results :=
  let megabytes : ℚ := (x : ℚ)
  let megabytes := megabytes / 1000000
  let r := (List.range TCNT).foldl (calculationStep ts1 ts2) { r with megabytes := megabytes }
  { r with timeRatio := doubleDiv r.timeUtilized r.timeTotal }

end FileBench

namespace BlockBenchAlt

open MapFile (Timespec doubleDiv)
open Timers

/-- The constant `SECTOR` of blockbench.cpp. -/
def SECTOR : Nat := 512

/-- The results calculation of blockbench.cpp (lines 441-464): the same loop as
`benchmarksCalculation`, with `megabytes = reqCount * SECTOR; megabytes /= 1000000;`
(`reqCount` is `unsigned long`, so the product wraps at 2^64). -/
def resultsCalculation (reqCount : Nat) (r : FileBench.Results) (ts1 ts2 : Nat → Timespec) :
    FileBench.Results :=
  let megabytes : ℚ := ((reqCount * SECTOR % 2 ^ 64 : Nat) : ℚ)
  let megabytes := megabytes / 1000000
  let r := (List.range TCNT).foldl (FileBench.calculationStep ts1 ts2)
    { r with megabytes := megabytes }
  { r with timeRatio := doubleDiv r.timeUtilized r.timeTotal }

end BlockBenchAlt

namespace MapFile

/-! ## The page walk (lines 829-839 and 981-991) -/

/-- The constant `PAGE_WALK_STEP`. -/
def PAGE_WALK_STEP : Nat := 4096

/-- The loop `while ( walkLength < mapLength )` from a value of `walkLength`: each
iteration touches the byte at offset `walkLength` from `mapPointer` (`walkPointer` and
`walkLength` advance together by `walkStep`); returns the offsets touched, in order, or
`none` when the fuel runs out. -/
def walkLoop (mapLength walkStep : Nat) : Nat → Nat → Option (List Nat)
  | 0, _ => none
  | fuel + 1, walkLength =>
    if walkLength < mapLength then
      match walkLoop mapLength walkStep fuel (walkLength + walkStep) with
      | none => none
      | some touched => some (walkLength :: touched)
    else some []

/-- The page walk of one repeat: `walkStep = PAGE_WALK_STEP; walkLength = 0;` and the
loop. -/
def pageWalk (mapLength fuel : Nat) : Option (List Nat) :=
  walkLoop mapLength PAGE_WALK_STEP fuel 0

end MapFile

namespace BlockBench

/-! ## The zone loop of blockbench.c (lines 877-952) -/

/-- The loop `for ( varOffset = start; varOffset < stop; varOffset += varSize )` from a
value of `varOffset`, every read loop finishing without `exit`: each iteration computes
`varSize` (`lineSize`), reads the line and records one sample with
`statArray[statCount] = mbps; statCount++;`. Returns the indices written in `statArray`,
in order, and the final `statCount`; `none` when the fuel runs out. -/
def zoneLoop (stop : Nat) : Nat → Nat → Nat → Option (List Nat × Nat)
  | 0, _, _ => none
  | fuel + 1, varOffset, statCount =>
    if varOffset < stop then
      let varSize := lineSize stop varOffset
      match zoneLoop stop fuel (varOffset + varSize) (statCount + 1) with
      | none => none
      | some (written, n) => some (statCount :: written, n)
    else some ([], statCount)

/-- The zone loop of `main`: `statCount = 0` and `varOffset = start`. -/
def zones (start stop fuel : Nat) : Option (List Nat × Nat) :=
  zoneLoop stop fuel start 0

/-- The number of entries of `statArray` (line 862: `double statArray[100000];`). -/
def STAT_ARRAY_SIZE : Nat := 100000

end BlockBench

namespace MapFile

/-! ## `handlerInput` (mapfile.c, lines 379-549)

C strings are lists of characters (without the terminating NUL). The same parsing code
stands inline in `main` of blockbench.c (lines 407-560). -/

/-- The constant `SMIN`, the minimum option string length. -/
def SMIN : Nat := 3

/-- The constant `SMAX`, the maximum option string length and the size of the buffers
`cmdName` and `cmdValue`. -/
def SMAX : Nat := 81

/-- The enumeration `OPTION_TYPES` (line 155). -/
inductive OPTION_TYPES
  | NOOPT
  | INTPARM
  | MEMPARM
  | SELPARM
  | STRPARM
deriving DecidableEq

/-- The option variable an entry of the control block points to (its `data` field). -/
inductive Target
  | filePath
  | fileSize
  | wsyncMode
  | writeDelay
  | readDelay
  | repeats
deriving DecidableEq

/-- The structure `OPTION_ENTRY` (lines 156-163); `n_values` is the length of
`values`. -/
structure OPTION_ENTRY where
  name : List Char
  values : List (List Char)
  data : Target
  routine : OPTION_TYPES
deriving DecidableEq

/-- The control block `ipb_list` (lines 166-175), without its terminating entry. -/
def ipb_list : List OPTION_ENTRY :=
  [⟨['p', 'a', 't', 'h'], [], .filePath, .STRPARM⟩,
   ⟨['s', 'i', 'z', 'e'], [], .fileSize, .MEMPARM⟩,
   ⟨['w', 's', 'y', 'n', 'c'], [], .wsyncMode, .INTPARM⟩,
   ⟨['w', 'd', 'e', 'l', 'a', 'y'], [], .writeDelay, .INTPARM⟩,
   ⟨['r', 'd', 'e', 'l', 'a', 'y'], [], .readDelay, .INTPARM⟩,
   ⟨['r', 'e', 'p', 'e', 'a', 't', 's'], [], .repeats, .INTPARM⟩]

/-- The option variables of lines 88-93: the file path and the numeric options. -/
structure Options where
  filePath : List Char
  config : Config
deriving DecidableEq

/-- The defaults of lines 55-60 and 87-93. -/
def defaultOptions : Options :=
  ⟨['m', 'y', 'f', 'i', 'l', 'e', '.', 'b', 'i', 'n'], defaultConfig⟩

/-- The error messages of `handlerInput`, each followed by `return 1`. -/
inductive ParseError
  | optionTooShort     -- line 413
  | optionTooLong      -- line 418
  | optionInvalid      -- line 434
  | notANumber         -- line 456
  | notABlockSize      -- line 498
  | valueInvalid       -- line 526
  | notRecognized      -- line 544
deriving DecidableEq

/-- How `handlerInput` ends: `return 0`, `return 1` after a message, or a copy past the
end of `cmdName` (undefined behaviour); the first two carry the option variables as
they are at the return. -/
inductive ParseResult
  | ok (o : Options)
  | error (e : ParseError) (o : Options)
  | overflow
deriving DecidableEq

/-- The C function `isdigit`. -/
def isdigit (c : Char) : Bool := decide (48 ≤ c.toNat) && decide (c.toNat ≤ 57)

/-- The C function `isspace` (space, and the characters 9 to 13). -/
def isspace (c : Char) : Bool :=
  decide (c.toNat = 32) || (decide (9 ≤ c.toNat) && decide (c.toNat ≤ 13))

/-- The digit loop of `atoi`: the value of the leading digits, continuing from `acc`. -/
def atoiDigits : Nat → List Char → Nat
  | acc, [] => acc
  | acc, c :: cs => if isdigit c then atoiDigits (acc * 10 + (c.toNat - 48)) cs else acc

/-- The C function `atoi`: leading white space, an optional sign, then digits. For a
value outside the range of `int` the C result is undefined; the model gives the
mathematical value. -/
def atoi (s : List Char) : Int :=
  match s.dropWhile isspace with
  | '-' :: cs => -((atoiDigits 0 cs : Nat) : Int)
  | '+' :: cs => ((atoiDigits 0 cs : Nat) : Int)
  | cs => ((atoiDigits 0 cs : Nat) : Int)

/-- The call `strtok( pName, "=" )` of line 425 on the copied option string `s`, whose
result is not used: returns the C string that `pName` (the start of the buffer) then
points to, and the part of the buffer after the NUL that `strtok` wrote (empty when no
delimiter followed the token). -/
def strtokName (s : List Char) : List Char × List Char :=
  let eqs := s.takeWhile (fun c => c = '=')
  let s1 := s.dropWhile (fun c => c = '=')
  let token := s1.takeWhile (fun c => c ≠ '=')
  let after := s1.dropWhile (fun c => c ≠ '=')
  (eqs ++ token, after.drop 1)

/-- The call `pValue = strtok( NULL, " " )` of line 426 on the rest of the buffer:
`none` is the NULL pointer. -/
def strtokValue (rest : List Char) : Option (List Char) :=
  let s1 := rest.dropWhile (fun c => c = ' ')
  if s1 = [] then none else some (s1.takeWhile (fun c => c ≠ ' '))

/-- The assignment `*pInt = k` through the `data` pointer of an entry. -/
def storeInt (t : Target) (k : Int) (o : Options) : Options :=
  match t with
  | .wsyncMode => { o with config := { o.config with wsyncMode := k } }
  | .writeDelay => { o with config := { o.config with writeDelay := k } }
  | .readDelay => { o with config := { o.config with readDelay := k } }
  | .repeats => { o with config := { o.config with repeats := k } }
  | _ => o

/-- The assignment `*pSize = kSize` through the `data` pointer of an entry. -/
def storeSize (t : Target) (kSize : Nat) (o : Options) : Options :=
  match t with
  | .fileSize => { o with config := { o.config with fileSize := kSize } }
  | _ => o

/-- The assignment `*pPatterns = ...` through the `data` pointer of an entry. -/
def storeString (t : Target) (s : List Char) (o : Options) : Options :=
  match t with
  | .filePath => { o with filePath := s }
  | _ => o

/-- The `INTPARM` case (lines 449-464): every character of the value must be a digit;
the result is the value of `atoi`, `none` for "NOT A NUMBER". -/
def intparm (pValue : List Char) : Option Int :=
  if (List.range pValue.length).all (fun k => isdigit (pValue.getD k ' ')) then
    some (atoi pValue)
  else none

/-- The unit `k1` and the number `k2` of characters to check that the `MEMPARM` case
takes from the last character `c` of a value of length `k2` (lines 467-487). -/
def memUnit (c : Char) (k2 : Nat) : Nat × Nat :=
  if isdigit c then (1, k2)
  else if c = 'K' then (1024, k2 - 1)
  else if c = 'M' then (1024 * 1024, k2 - 1)
  else if c = 'G' then (1024 * 1024 * 1024, k2 - 1)
  else (0, k2)

/-- The `MEMPARM` case (lines 465-507) on a value of length at least 1: the unit from
the last character, the digit check of the `k2` leading characters, then
`kSize = atoi( pValue ); kSize *= k1;` in `size_t` (64 bits). The result `none` is
"NOT A BLOCK SIZE". -/
def memparm (pValue : List Char) : Option Nat :=
  let unit := memUnit (pValue.getD (pValue.length - 1) ' ') pValue.length
  let k1 := (List.range unit.2).foldl
    (fun k1 k => if isdigit (pValue.getD k ' ') = false then 0 else k1) unit.1
  if k1 = 0 then none
  else
    let k := atoi pValue
    let kSize := (k % (2 ^ 64 : Int)).toNat
    some (kSize * k1 % 2 ^ 64)

/-- The `SELPARM` case (lines 508-530): the index of the value among the names of the
entry; `some none` when the entry has no names (nothing is stored, no error), `none`
for "VALUE INVALID". -/
def selparm (values : List (List Char)) (pValue : List Char) : Option (Option Int) :=
  if values = [] then some none
  else
    match values.indexOf? pValue with
    | some k => some (some (k : Int))
    | none => none

/-- The body of the loop of `handlerInput` for the option string `pAll` (lines
403-546). -/
def handleOption (o : Options) (pAll : List Char) : ParseResult :=
  let k := pAll.length
  if k < SMIN then .error .optionTooShort o
  else if k > SMAX then .error .optionTooLong o
  else if k + 1 > SMAX then .overflow    -- `strcpy( pName, pAll )` into `char cmdName[SMAX]`
  else
    let pName := (strtokName pAll).1
    let pValue := strtokValue (strtokName pAll).2
    let k1 := pName.length
    let k2 := match pValue with
      | none => 0
      | some v => v.length
    if k1 = 0 ∨ k2 = 0 then .error .optionInvalid o
    else
      let value := pValue.getD []
      match ipb_list.find? (fun e => decide (e.name = pName)) with
      | none => .error .notRecognized o
      | some e =>
        match e.routine with
        | .INTPARM =>
          match intparm value with
          | none => .error .notANumber o
          | some v => .ok (storeInt e.data v o)
        | .MEMPARM =>
          match memparm value with
          | none => .error .notABlockSize o
          | some v => .ok (storeSize e.data v o)
        | .SELPARM =>
          match selparm e.values value with
          | none => .error .valueInvalid o
          | some none => .ok o
          | some (some v) => .ok (storeInt e.data v o)
        | .STRPARM => .ok (storeString e.data (pAll.drop (k1 + 1)) o)
        | .NOOPT => .ok o

/-- The function `handlerInput` on the option strings `argv[1]`, `argv[2]`, ...: the
loop stops at the first option that does not end in `ok`. -/
def handlerInput : List (List Char) → Options → ParseResult
  | [], o => .ok o
  | pAll :: rest, o =>
    match handleOption o pAll with
    | .ok o1 => handlerInput rest o1
    | r => r

/-- The value a string of decimal digits denotes. -/
def decimalValue (digits : List Char) : Nat :=
  digits.foldl (fun acc c => acc * 10 + (c.toNat - 48)) 0

end MapFile

namespace MapFile

/-! ## Lemmas on `calculateStatistics` -/

theorem rd_append_length (pre : List ℚ) (x : ℚ) (rest : List ℚ) :
    rd (pre ++ x :: rest) pre.length = x := by
  induction pre with
  | nil => simp [rd]
  | cons p pre ih => simpa [rd] using ih

theorem rd_append_length_succ (pre : List ℚ) (x y : ℚ) (rest : List ℚ) :
    rd (pre ++ x :: y :: rest) (pre.length + 1) = y := by
  have h : pre ++ x :: y :: rest = (pre ++ [x]) ++ y :: rest := by simp
  have hl : pre.length + 1 = (pre ++ [x]).length := by simp
  rw [h, hl, rd_append_length]

theorem exchange_append (pre : List ℚ) (x y : ℚ) (rest : List ℚ) :
    exchange (pre ++ x :: y :: rest) pre.length = pre ++ y :: x :: rest := by
  simp only [exchange, rd_append_length, rd_append_length_succ]
  simp [List.set_append]

/-- The inner loop run over the segment `c :: t` that follows `pre` is the list pass
`bubbleAux`; what lies outside the segment is untouched. -/
theorem orderingPassFrom_eq (t : List ℚ) : ∀ (c : ℚ) (pre suf : List ℚ) (flag : Bool),
    orderingPassFrom (pre ++ c :: (t ++ suf)) flag pre.length t.length =
      (pre ++ ((bubbleAux c t).1 ++ suf), flag || (bubbleAux c t).2) := by
  induction t with
  | nil => intro c pre suf flag; simp [orderingPassFrom, bubbleAux]
  | cons y t ih =>
    intro c pre suf flag
    simp only [List.length_cons, orderingPassFrom, List.cons_append,
      rd_append_length, rd_append_length_succ, exchange_append]
    by_cases hc : c > y
    · have h := ih c (pre ++ [y]) suf true
      simp only [List.length_append, List.length_singleton, List.append_assoc,
        List.singleton_append] at h
      simp [hc, bubbleAux, h]
    · have h := ih y (pre ++ [c]) suf flag
      simp only [List.length_append, List.length_singleton, List.append_assoc,
        List.singleton_append] at h
      simp [hc, bubbleAux, h]

theorem bubbleAux_perm (t : List ℚ) : ∀ c : ℚ, (bubbleAux c t).1.Perm (c :: t) := by
  induction t with
  | nil => intro c; simp [bubbleAux]
  | cons y t ih =>
    intro c
    by_cases hc : c > y
    · simp only [bubbleAux, hc, if_true]
      exact ((ih c).cons y).trans (List.Perm.swap c y t)
    · simp only [bubbleAux, hc, if_false]
      exact (ih y).cons c

theorem bubbleAux_sorted (t : List ℚ) : ∀ c : ℚ, (bubbleAux c t).2 = false →
    (bubbleAux c t).1 = c :: t ∧ List.Sorted (· ≤ ·) (c :: t) := by
  induction t with
  | nil => intro c _; simp [bubbleAux]
  | cons y t ih =>
    intro c h
    by_cases hc : c > y
    · simp [bubbleAux, hc] at h
    · simp only [bubbleAux, hc, if_false] at h ⊢
      obtain ⟨e, s⟩ := ih y h
      refine ⟨by rw [e], ?_⟩
      have hcy : c ≤ y := not_lt.mp hc
      rw [List.Sorted, List.pairwise_cons] at s ⊢
      refine ⟨?_, List.pairwise_cons.mpr s⟩
      intro z hz
      rcases List.mem_cons.mp hz with rfl | hz
      · exact hcy
      · exact le_trans hcy (s.1 z hz)

theorem inversions_perm_head (x : ℚ) {l₁ l₂ : List ℚ} (h : l₁.Perm l₂) :
    l₁.countP (fun y => decide (y < x)) = l₂.countP (fun y => decide (y < x)) :=
  h.countP_eq _

/-- A pass never adds inversions, and removes at least one when it sets the flag. -/
theorem bubbleAux_inversions (t : List ℚ) : ∀ c : ℚ,
    inversions (bubbleAux c t).1 + (if (bubbleAux c t).2 then 1 else 0) ≤
      inversions (c :: t) := by
  induction t with
  | nil => intro c; simp [bubbleAux, inversions]
  | cons y t ih =>
    intro c
    by_cases hc : c > y
    · have hp := inversions_perm_head y (bubbleAux_perm t c)
      have hi := ih c
      have hyc : ¬ c < y := not_lt.mpr (le_of_lt hc)
      have hyc2 : y < c := hc
      simp only [bubbleAux, hc, if_true, inversions, hp, List.countP_cons, hyc, hyc2,
        decide_True, decide_False] at hi ⊢
      split_ifs at hi <;> simp at hi ⊢ <;> omega
    · have hp := inversions_perm_head c (bubbleAux_perm t y)
      have hi := ih y
      have hyc : ¬ y < c := hc
      simp only [bubbleAux, hc, if_false, inversions, hp, List.countP_cons, hyc,
        decide_False] at hi ⊢
      split_ifs at hi ⊢ <;> simp at hi ⊢ <;> omega

theorem inversions_le (l : List ℚ) : inversions l ≤ l.length * l.length := by
  induction l with
  | nil => simp [inversions]
  | cons x t ih =>
    have h := List.countP_le_length (fun y => decide (y < x)) (l := t)
    simp only [inversions, List.length_cons]
    nlinarith

theorem rd_lt (a : List ℚ) (i : Nat) (h : i < a.length) : rd a i = a[i] := by
  simp [rd, List.getD, List.getElem?_eq_getElem h]

theorem take_succ_rd (a : List ℚ) (k : Nat) (h : k < a.length) :
    a.take (k + 1) = a.take k ++ [rd a k] := by
  rw [rd_lt a k h, List.take_succ, List.getElem?_eq_getElem h]
  rfl

/-- Invariant of the first loop after `k` iterations. -/
theorem scan_invariant (a : List ℚ) (k : Nat) (hk : k ≤ a.length) :
    (scanLoop a k).statSum = (a.take k).sum ∧
    (∀ x ∈ a.take k, (scanLoop a k).statMin ≤ x ∧ x ≤ (scanLoop a k).statMax) ∧
    ((scanLoop a k).statMin = rd a 0 ∨ (scanLoop a k).statMin ∈ a.take k) ∧
    ((scanLoop a k).statMax = rd a 0 ∨ (scanLoop a k).statMax ∈ a.take k) := by
  induction k with
  | zero => simp [scanLoop]
  | succ k ih =>
    have hlt : k < a.length := hk
    obtain ⟨h1, h2, h3, h4⟩ := ih (Nat.le_of_lt hlt)
    have hstep : scanLoop a (k + 1) = scanStep a (scanLoop a k) k := by
      simp [scanLoop, List.range_succ, List.foldl_append]
    rw [hstep, take_succ_rd a k hlt]
    refine ⟨?_, ?_, ?_, ?_⟩
    · simp [scanStep, h1]
    · intro x hx
      rw [List.mem_append, List.mem_singleton] at hx
      simp only [scanStep]
      rcases hx with hx | hx
      · obtain ⟨p, q⟩ := h2 x hx
        constructor
        · split_ifs with c
          · exact le_trans (le_of_lt c) p
          · exact p
        · split_ifs with c
          · exact le_trans q (le_of_lt c)
          · exact q
      · subst hx
        constructor
        · split_ifs with c
          · exact le_refl _
          · exact not_lt.mp c
        · split_ifs with c
          · exact le_refl _
          · exact not_lt.mp c
    · simp only [scanStep]
      split_ifs with c
      · right; simp
      · rcases h3 with h3 | h3
        · left; exact h3
        · right; exact List.mem_append_left _ h3
    · simp only [scanStep]
      split_ifs with c
      · right; simp
      · rcases h4 with h4 | h4
        · left; exact h4
        · right; exact List.mem_append_left _ h4

theorem rd_zero_mem_take (a : List ℚ) (n : Nat) (h1 : 1 ≤ n) (hn : n ≤ a.length) :
    rd a 0 ∈ a.take n := by
  cases a with
  | nil => simp at hn; omega
  | cons x t =>
    obtain ⟨m, rfl⟩ : ∃ m, n = m + 1 := ⟨n - 1, by omega⟩
    simp [rd]


/-- One pass over the first `n` entries: a permutation of them, nothing else touched,
no more inversions than before, one fewer when the flag is set, and an ordered prefix
when the flag stays clear. -/
theorem orderingPass_spec (a : List ℚ) (n : Nat) (hn : n ≤ a.length) :
    ((orderingPass n a).1.take n).Perm (a.take n) ∧
    (orderingPass n a).1.drop n = a.drop n ∧
    (orderingPass n a).1.length = a.length ∧
    ((orderingPass n a).2 = false →
      (orderingPass n a).1 = a ∧ List.Sorted (· ≤ ·) (a.take n)) ∧
    inversions ((orderingPass n a).1.take n) + (if (orderingPass n a).2 then 1 else 0) ≤
      inversions (a.take n) := by
  cases n with
  | zero => simp [orderingPass, orderingPassFrom, inversions]
  | succ m =>
    have hsplit : a = a.take (m + 1) ++ a.drop (m + 1) := (List.take_append_drop _ _).symm
    have hlen : (a.take (m + 1)).length = m + 1 := by
      rw [List.length_take]; omega
    cases htk : a.take (m + 1) with
    | nil => rw [htk] at hlen; simp at hlen
    | cons c t =>
      rw [htk] at hlen hsplit
      have htl : t.length = m := by simpa using hlen
      have hpass : orderingPass (m + 1) a =
          ((bubbleAux c t).1 ++ a.drop (m + 1), (bubbleAux c t).2) := by
        have h := orderingPassFrom_eq t c [] (a.drop (m + 1)) false
        simp only [List.nil_append, List.length_nil, Bool.false_or] at h
        rw [htl] at h
        have h2 : c :: (t ++ a.drop (m + 1)) = a := by
          conv_rhs => rw [hsplit]
          rfl
        rw [h2] at h
        simpa [orderingPass] using h
      have hbl : (bubbleAux c t).1.length = m + 1 := by
        rw [(bubbleAux_perm t c).length_eq]; simp [htl]
      have htake : ((bubbleAux c t).1 ++ a.drop (m + 1)).take (m + 1) = (bubbleAux c t).1 := by
        rw [List.take_append_of_le_length (by omega), List.take_of_length_le (by omega)]
      have hdrop : ((bubbleAux c t).1 ++ a.drop (m + 1)).drop (m + 1) = a.drop (m + 1) := by
        rw [← hbl, List.drop_left]
      rw [hpass]
      simp only [htake, hdrop]
      refine ⟨bubbleAux_perm t c, trivial, ?_, ?_, bubbleAux_inversions t c⟩
      · rw [List.length_append, hbl, List.length_drop]; omega
      · intro hf
        obtain ⟨e, srt⟩ := bubbleAux_sorted t c hf
        refine ⟨?_, srt⟩
        rw [e]
        conv_rhs => rw [hsplit]

/-- With more fuel than inversions the ordering loop returns; the first `n` entries of
its result are the ordered permutation of the first `n` entries of the input, the other
entries are unchanged. -/
theorem orderingLoop_spec (n : Nat) : ∀ (fuel : Nat) (a : List ℚ), n ≤ a.length →
    inversions (a.take n) < fuel →
    ∃ a', orderingLoop n fuel a = some a' ∧ (a'.take n).Perm (a.take n) ∧
      List.Sorted (· ≤ ·) (a'.take n) ∧ a'.drop n = a.drop n ∧ a'.length = a.length := by
  intro fuel
  induction fuel with
  | zero => intro a _ h; omega
  | succ fuel ih =>
    intro a hn hf
    obtain ⟨hp, hd, hl, hs, hi⟩ := orderingPass_spec a n hn
    by_cases hflag : (orderingPass n a).2 = true
    · simp only [hflag, if_true] at hi
      obtain ⟨a', e, p', s', d', l'⟩ := ih (orderingPass n a).1 (by omega) (by omega)
      refine ⟨a', ?_, p'.trans hp, s', d'.trans hd, l'.trans hl⟩
      simp [orderingLoop, hflag, e]
    · have hff : (orderingPass n a).2 = false := by simpa using hflag
      obtain ⟨e, srt⟩ := hs hff
      refine ⟨a, ?_, List.Perm.refl _, srt, rfl, rfl⟩
      simp [orderingLoop, hff, e]


theorem rd_take (a : List ℚ) (n i : Nat) (h : i < n) : rd (a.take n) i = rd a i := by
  simp [rd, List.getD, List.getElem?_take, h]

theorem rd_mem_take (a : List ℚ) (n i : Nat) (h : i < n) (hn : n ≤ a.length) :
    rd a i ∈ a.take n := by
  rw [← rd_take a n i h]
  have hl : i < (a.take n).length := by rw [List.length_take]; omega
  rw [rd_lt _ _ hl]
  exact List.getElem_mem _

theorem medianOf_take (a : List ℚ) (n : Nat) (h1 : 1 ≤ n) :
    medianOf (a.take n) n = medianOf a n := by
  unfold medianOf
  have h2 : n / 2 < n := by omega
  have h3 : n / 2 - 1 < n := by omega
  simp only [rd_take a n _ h2, rd_take a n _ h3]

theorem medianOf_eq_referenceMedian (s : List ℚ) (hs : List.Sorted (· ≤ ·) s) :
    medianOf s s.length = referenceMedian s := by
  have e : s.insertionSort (· ≤ ·) = s := List.Sorted.insertionSort_eq hs
  unfold medianOf referenceMedian
  rw [e]
  rcases Nat.mod_two_eq_zero_or_one s.length with h | h <;> simp [h]

theorem referenceMedian_perm {s t : List ℚ} (h : s.Perm t) :
    referenceMedian s = referenceMedian t := by
  have e : s.insertionSort (· ≤ ·) = t.insertionSort (· ≤ ·) :=
    List.eq_of_perm_of_sorted
      (((List.perm_insertionSort _ s).trans h).trans (List.perm_insertionSort _ t).symm)
      (List.sorted_insertionSort _ s) (List.sorted_insertionSort _ t)
  unfold referenceMedian
  rw [e, h.length_eq]

/-- What `calculateStatistics` returns for a count within the array, given more fuel than
`statCount * statCount`. -/
theorem calculateStatistics_spec (a : List ℚ) (n fuel : Nat) (hn : n ≤ a.length)
    (hf : n * n < fuel) :
    ∃ a', calculateStatistics fuel a n =
        some (a', ⟨medianOf a' n, (a.take n).sum / (n : ℚ), (scanLoop a n).statMin,
          (scanLoop a n).statMax⟩) ∧
      (a'.take n).Perm (a.take n) ∧ List.Sorted (· ≤ ·) (a'.take n) ∧
      a'.drop n = a.drop n ∧ a'.length = a.length := by
  have hinv : inversions (a.take n) < fuel := by
    have h := inversions_le (a.take n)
    rw [List.length_take, Nat.min_eq_left hn] at h
    omega
  obtain ⟨a', e, p, s, d, l⟩ := orderingLoop_spec n fuel a hn hinv
  refine ⟨a', ?_, p, s, d, l⟩
  simp [calculateStatistics, e, (scan_invariant a n hn).1]

theorem medianOf_eq (a a' : List ℚ) (n : Nat) (h1 : 1 ≤ n) (hn : n ≤ a.length)
    (p : (a'.take n).Perm (a.take n)) (s : List.Sorted (· ≤ ·) (a'.take n)) :
    medianOf a' n = referenceMedian (a.take n) := by
  have hl : (a'.take n).length = n := by
    rw [p.length_eq, List.length_take]; omega
  rw [← medianOf_take a' n h1, ← referenceMedian_perm p]
  have h := medianOf_eq_referenceMedian (a'.take n) s
  rw [hl] at h
  exact h

theorem medianOf_between (a : List ℚ) (n : Nat) (lo hi : ℚ) (h1 : 1 ≤ n)
    (hb : ∀ i, i < n → lo ≤ rd a i ∧ rd a i ≤ hi) :
    lo ≤ medianOf a n ∧ medianOf a n ≤ hi := by
  have h2 : n / 2 < n := by omega
  have h3 : n / 2 - 1 < n := by omega
  obtain ⟨p1, p2⟩ := hb _ h2
  obtain ⟨q1, q2⟩ := hb _ h3
  unfold medianOf
  split_ifs with c
  · constructor <;> linarith
  · exact ⟨p1, p2⟩

theorem average_between (l : List ℚ) (lo hi : ℚ) (hpos : 0 < l.length)
    (hb : ∀ x ∈ l, lo ≤ x ∧ x ≤ hi) :
    lo ≤ l.sum / (l.length : ℚ) ∧ l.sum / (l.length : ℚ) ≤ hi := by
  have hq : (0 : ℚ) < (l.length : ℚ) := by exact_mod_cast hpos
  have hlo : (l.length : ℚ) * lo ≤ l.sum := by
    have h := List.card_nsmul_le_sum l lo (fun x hx => (hb x hx).1)
    simpa [nsmul_eq_mul] using h
  have hhi : l.sum ≤ (l.length : ℚ) * hi := by
    have h := List.sum_le_card_nsmul l hi (fun x hx => (hb x hx).2)
    simpa [nsmul_eq_mul] using h
  constructor
  · rw [le_div_iff₀ hq]; linarith
  · rw [div_le_iff₀ hq]; linarith

end MapFile

namespace MapFile

/-! ## Properties of `calculateStatistics` -/

/-- C1: for every array holding at least `n ≥ 1` samples, `calculateStatistics` returns
(given more fuel than `n * n` passes) results with
`statMin ≤ statMedian ≤ statMax` and `statMin ≤ statAverage ≤ statMax`. -/
theorem calculateStatistics_ordered_results (a : List ℚ) (n fuel : Nat) (h1 : 1 ≤ n)
    (hn : n ≤ a.length) (hf : n * n < fuel) :
    ∃ a' r, calculateStatistics fuel a n = some (a', r) ∧
      r.statMin ≤ r.statMedian ∧ r.statMedian ≤ r.statMax ∧
      r.statMin ≤ r.statAverage ∧ r.statAverage ≤ r.statMax := by
  obtain ⟨a', e, p, -, -, l⟩ := calculateStatistics_spec a n fuel hn hf
  obtain ⟨-, hb, -, -⟩ := scan_invariant a n hn
  have hmed := medianOf_between a' n (scanLoop a n).statMin (scanLoop a n).statMax h1
    (fun i hi => hb _ (p.subset (rd_mem_take a' n i hi (by omega))))
  have hlen : (a.take n).length = n := by rw [List.length_take]; omega
  have havg := average_between (a.take n) (scanLoop a n).statMin (scanLoop a n).statMax
    (by omega) hb
  rw [hlen] at havg
  exact ⟨a', _, e, hmed.1, hmed.2, havg.1, havg.2⟩

/-- Witness of C1 on the three samples `3, 1, 2`. -/
theorem calculateStatistics_ordered_results_witness :
    ∃ a' r, calculateStatistics 10 [3, 1, 2] 3 = some (a', r) ∧
      r.statMin ≤ r.statMedian ∧ r.statMedian ≤ r.statMax ∧
      r.statMin ≤ r.statAverage ∧ r.statAverage ≤ r.statMax :=
  calculateStatistics_ordered_results [3, 1, 2] 3 10 (by decide) (by decide) (by decide)

/-- C2: for every array holding at least `n ≥ 1` samples, the median returned by
`calculateStatistics` is the reference median of the first `n` samples (ascending order;
central element for odd `n`, mean of the two central elements for even `n`); hence an
array whose first `n` samples are a permutation of them gives the same median; the
samples `1, 2, 3, 4` give `5/2` and the samples `3, 1, 2` give `2`. -/
theorem calculateStatistics_median (a : List ℚ) (n fuel : Nat) (h1 : 1 ≤ n)
    (hn : n ≤ a.length) (hf : n * n < fuel) :
    (∃ a' r, calculateStatistics fuel a n = some (a', r) ∧
      r.statMedian = referenceMedian (a.take n) ∧
      (n % 2 = 1 → r.statMedian = rd ((a.take n).insertionSort (· ≤ ·)) (n / 2)) ∧
      (n % 2 = 0 → r.statMedian =
        (rd ((a.take n).insertionSort (· ≤ ·)) (n / 2 - 1) +
          rd ((a.take n).insertionSort (· ≤ ·)) (n / 2)) / 2) ∧
      ∀ b : List ℚ, n ≤ b.length → (b.take n).Perm (a.take n) →
        ∃ b' r', calculateStatistics fuel b n = some (b', r') ∧
          r'.statMedian = r.statMedian) ∧
    (∃ a' r, calculateStatistics 17 [1, 2, 3, 4] 4 = some (a', r) ∧ r.statMedian = 5 / 2) ∧
    (∃ a' r, calculateStatistics 10 [3, 1, 2] 3 = some (a', r) ∧ r.statMedian = 2) := by
  have hlen : (a.take n).length = n := by rw [List.length_take]; omega
  refine ⟨?_, ?_, ?_⟩
  · obtain ⟨a', e, p, s, -, -⟩ := calculateStatistics_spec a n fuel hn hf
    have hm := medianOf_eq a a' n h1 hn p s
    refine ⟨a', _, e, hm, ?_, ?_, ?_⟩
    · intro hodd
      show medianOf a' n = _
      rw [hm]
      simp [referenceMedian, hlen, hodd]
    · intro heven
      show medianOf a' n = _
      rw [hm]
      simp [referenceMedian, hlen, heven]
    · intro b hb hp
      obtain ⟨b', eb, pb, sb, -, -⟩ := calculateStatistics_spec b n fuel hb hf
      refine ⟨b', _, eb, ?_⟩
      show medianOf b' n = medianOf a' n
      rw [hm, medianOf_eq b b' n h1 hb pb sb, referenceMedian_perm hp]
  · refine ⟨[1, 2, 3, 4], ⟨5 / 2, 5 / 2, 1, 4⟩, ?_, rfl⟩
    norm_num [calculateStatistics, orderingLoop, orderingPass, orderingPassFrom, exchange,
      rd, scanLoop, scanStep, medianOf, List.range, List.range.loop]
  · refine ⟨[1, 2, 3], ⟨2, 2, 1, 3⟩, ?_, rfl⟩
    norm_num [calculateStatistics, orderingLoop, orderingPass, orderingPassFrom, exchange,
      rd, scanLoop, scanStep, medianOf, List.range, List.range.loop]

/-- Witness of C2 on the samples `4, 2, 3, 1` inside a longer array. -/
theorem calculateStatistics_median_witness :
    (∃ a' r, calculateStatistics 17 [4, 2, 3, 1, 9] 4 = some (a', r) ∧
      r.statMedian = referenceMedian (List.take 4 [4, 2, 3, 1, 9]) ∧
      (4 % 2 = 1 → r.statMedian =
        rd ((List.take 4 [4, 2, 3, 1, 9]).insertionSort (· ≤ ·)) (4 / 2)) ∧
      (4 % 2 = 0 → r.statMedian =
        (rd ((List.take 4 [4, 2, 3, 1, 9]).insertionSort (· ≤ ·)) (4 / 2 - 1) +
          rd ((List.take 4 [4, 2, 3, 1, 9]).insertionSort (· ≤ ·)) (4 / 2)) / 2) ∧
      ∀ b : List ℚ, 4 ≤ b.length → (b.take 4).Perm (List.take 4 [4, 2, 3, 1, 9]) →
        ∃ b' r', calculateStatistics 17 b 4 = some (b', r') ∧
          r'.statMedian = r.statMedian) ∧
    (∃ a' r, calculateStatistics 17 [1, 2, 3, 4] 4 = some (a', r) ∧ r.statMedian = 5 / 2) ∧
    (∃ a' r, calculateStatistics 10 [3, 1, 2] 3 = some (a', r) ∧ r.statMedian = 2) :=
  calculateStatistics_median [4, 2, 3, 1, 9] 4 17 (by decide) (by decide) (by decide)

/-- C3: for every array holding at least `n ≥ 1` samples, `calculateStatistics` sets
`statMin` to the least and `statMax` to the greatest of the first `n` entries and
`statAverage` to their sum divided by `n`; for the single sample `x` (`n = 1`) the
median, average, minimum and maximum all equal `x`. -/
theorem calculateStatistics_min_max_average (a : List ℚ) (n fuel : Nat) (h1 : 1 ≤ n)
    (hn : n ≤ a.length) (hf : n * n < fuel) :
    ∃ a' r, calculateStatistics fuel a n = some (a', r) ∧
      (r.statMin ∈ a.take n ∧ ∀ x ∈ a.take n, r.statMin ≤ x) ∧
      (r.statMax ∈ a.take n ∧ ∀ x ∈ a.take n, x ≤ r.statMax) ∧
      r.statAverage = (a.take n).sum / (n : ℚ) ∧
      (n = 1 → r = ⟨rd a 0, rd a 0, rd a 0, rd a 0⟩) := by
  obtain ⟨a', e, p, -, -, l⟩ := calculateStatistics_spec a n fuel hn hf
  obtain ⟨-, hb, hmin, hmax⟩ := scan_invariant a n hn
  have h0 := rd_zero_mem_take a n h1 hn
  have hminmem : (scanLoop a n).statMin ∈ a.take n := by
    rcases hmin with h | h
    · rw [h]; exact h0
    · exact h
  have hmaxmem : (scanLoop a n).statMax ∈ a.take n := by
    rcases hmax with h | h
    · rw [h]; exact h0
    · exact h
  refine ⟨a', _, e, ⟨hminmem, fun x hx => (hb x hx).1⟩, ⟨hmaxmem, fun x hx => (hb x hx).2⟩,
    rfl, ?_⟩
  intro hn1
  subst hn1
  have htk : a.take 1 = [rd a 0] := by
    have h := take_succ_rd a 0 (by omega)
    simpa using h
  have hall : ∀ x ∈ a.take 1, x = rd a 0 := by
    intro x hx
    rw [htk] at hx
    simpa using hx
  have hmed : medianOf a' 1 = rd a 0 :=
    hall _ (p.subset (rd_mem_take a' 1 0 (by omega) (by omega)))
  simp only [hmed, hall _ hminmem, hall _ hmaxmem, htk]
  simp

/-- Witness of C3 on the single sample `5`: all four results are `5`. -/
theorem calculateStatistics_min_max_average_witness :
    ∃ a', calculateStatistics 2 [5] 1 = some (a', ⟨5, 5, 5, 5⟩) := by
  obtain ⟨a', r, e, -, -, -, h⟩ :=
    calculateStatistics_min_max_average [5] 1 2 (by decide) (by decide) (by decide)
  refine ⟨a', ?_⟩
  rw [e, h rfl]
  simp [rd]

end MapFile

namespace MapFile

/-! ## The logs across repeats -/

theorem take_succ_set (log : List ℚ) (k : Nat) (v : ℚ) (hk : k < log.length) :
    (log.set k v).take (k + 1) = log.take k ++ [v] := by
  have hk' : k < (log.set k v).length := by simpa using hk
  rw [take_succ_rd _ k hk', rd_lt _ _ hk']
  have ht : (log.set k v).take k = log.take k := by
    rw [List.set_take]
    exact List.set_eq_of_length_le (by simp)
  simp [ht]

/-- The part of `calculateStatistics_spec` used for the logs. -/
theorem calculateStatistics_log (a : List ℚ) (n fuel : Nat) (hn : n ≤ a.length)
    (hf : n * n < fuel) :
    ∃ a' r, calculateStatistics fuel a n = some (a', r) ∧
      r.statAverage = (a.take n).sum / (n : ℚ) ∧
      (a'.take n).Perm (a.take n) ∧ a'.length = a.length := by
  obtain ⟨a', e, p, -, -, l⟩ := calculateStatistics_spec a n fuel hn hf
  exact ⟨a', _, e, rfl, p, l⟩

/-- After `k` repeats the first `k` log entries are a permutation of the `k` rates
recorded so far, and the log keeps its length. -/
theorem phaseLoop_spec (fuel : Nat) (mbps : Nat → ℚ) (st : List ℚ × Statistics) :
    ∀ k : Nat, k ≤ st.1.length → k * k < fuel →
    ∃ log res, phaseLoop fuel mbps k st = some (log, res) ∧ log.length = st.1.length ∧
      (log.take k).Perm ((List.range k).map mbps) := by
  intro k
  induction k with
  | zero => intro _ _; exact ⟨st.1, st.2, rfl, rfl, by simp⟩
  | succ k ih =>
    intro hk hf
    obtain ⟨log, res, e, hl, hp⟩ := ih (by omega) (by nlinarith)
    have hkl : k < log.length := by omega
    obtain ⟨a', r', e', -, p', l'⟩ :=
      calculateStatistics_log (log.set k (mbps k)) (k + 1) fuel (by simp; omega) hf
    have e2 : phaseLoop fuel mbps (k + 1) st = some (a', r') := by
      simp only [phaseLoop, e, handlerProgress]
      exact e'
    refine ⟨a', r', e2, ?_, ?_⟩
    · rw [l', List.length_set, hl]
    · rw [take_succ_set log k (mbps k) hkl] at p'
      rw [List.range_succ, List.map_append]
      exact p'.trans (hp.append_right _)

/-- C4: with `repeats = n`, `1 ≤ n ≤ REPEATS_MAX`, and the rates `w 0, ..., w (n-1)`
(write) and `r 0, ..., r (n-1)` (read) measured in the repeats, the final summary of each
phase has `resultAverage` equal to the sum of the phase's rates divided by `n`, although
`handlerProgress` re-runs `calculateStatistics` on the log after every repeat. -/
theorem mainStatistics_average (fuel : Nat) (w r : Nat → ℚ) (n : Nat) (h1 : 1 ≤ n)
    (hn : n ≤ REPEATS_MAX) (hf : n * n < fuel) :
    ∃ ws rs, mainStatistics fuel w r n = some (ws, rs) ∧
      ws.statAverage = ((List.range n).map w).sum / (n : ℚ) ∧
      rs.statAverage = ((List.range n).map r).sum / (n : ℚ) := by
  have _ := h1
  have hb : (List.replicate REPEATS_MAX (0 : ℚ)).length = REPEATS_MAX := by simp
  obtain ⟨wl, r1, ew, hwl, hwp⟩ :=
    phaseLoop_spec fuel w (List.replicate REPEATS_MAX 0, ⟨0, 0, 0, 0⟩) n (by simpa using hn) hf
  obtain ⟨rl, r2, er, hrl, hrp⟩ :=
    phaseLoop_spec fuel r (List.replicate REPEATS_MAX 0, r1) n (by simpa using hn) hf
  simp only [hb] at hwl hrl
  obtain ⟨wa, ws, ewa, hwa, -, -⟩ := calculateStatistics_log wl n fuel (by omega) hf
  obtain ⟨ra, rs, era, hra, -, -⟩ := calculateStatistics_log rl n fuel (by omega) hf
  have em : mainStatistics fuel w r n = some (ws, rs) := by
    simp only [mainStatistics, ew, er, ewa, era]
  refine ⟨ws, rs, em, ?_, ?_⟩
  · rw [hwa, hwp.sum_eq]
  · rw [hra, hrp.sum_eq]

/-- Witness of C4 with three repeats, write rates `1, 2, 3` and read rates `7, 6, 5`. -/
theorem mainStatistics_average_witness :
    ∃ ws rs, mainStatistics 10 (fun i => (i : ℚ) + 1) (fun i => 7 - (i : ℚ)) 3 = some (ws, rs) ∧
      ws.statAverage =
        ((List.range 3).map (fun i => (i : ℚ) + 1)).sum / ((3 : Nat) : ℚ) ∧
      rs.statAverage =
        ((List.range 3).map (fun i => 7 - (i : ℚ))).sum / ((3 : Nat) : ℚ) :=
  mainStatistics_average 10 (fun i => (i : ℚ) + 1) (fun i => 7 - (i : ℚ)) 3 (by decide)
    (by decide) (by decide)

end MapFile

namespace MapFile

/-! ## The file-fill write loop -/

/-- The count passed to `write` in a loop iteration entered with `addSize` and the
previous `count`. -/
theorem writeLoop_step (fileSize bufSize : Nat) (write : Nat → Nat → Int) (fuel addSize
    count : Nat) (calls : List WriteCall) (h : addSize < fileSize) :
    writeLoop fileSize bufSize write (fuel + 1) addSize count calls =
      (let count := if fileSize - addSize < bufSize then fileSize - addSize else count
       let outSize := write calls.length count
       let calls := calls ++ [⟨addSize, count, outSize⟩]
       if outSize > 0 then
         writeLoop fileSize bufSize write fuel (addSize + outSize.toNat) count calls
       else if outSize = 0 then ⟨.zeroWrite, addSize, calls⟩
       else ⟨.writeError, addSize, calls⟩) := by
  simp [writeLoop, h]

/-- Invariant of the loop for returns between 1 and the requested count: it ends by its
condition with `addSize = fileSize`, and every call asks for
`min bufSize (fileSize - addSize)` bytes and leaves `addSize` at most `fileSize`. -/
theorem writeLoop_invariant (fileSize bufSize : Nat) (write : Nat → Nat → Int)
    (hbuf : 0 < bufSize)
    (hw : ∀ k c : Nat, 1 ≤ c → 1 ≤ write k c ∧ write k c ≤ (c : Int)) :
    ∀ (fuel addSize count : Nat) (calls : List WriteCall),
      addSize ≤ fileSize → (count = bufSize ∨ fileSize - addSize < bufSize) →
      fileSize - addSize < fuel →
      (∀ c ∈ calls, c.addSize < fileSize ∧ c.count = min bufSize (fileSize - c.addSize) ∧
        1 ≤ c.outSize ∧ (c.addSize : Int) + c.outSize ≤ (fileSize : Int)) →
      (writeLoop fileSize bufSize write fuel addSize count calls).outcome = .completed ∧
      (writeLoop fileSize bufSize write fuel addSize count calls).addSize = fileSize ∧
      ∀ c ∈ (writeLoop fileSize bufSize write fuel addSize count calls).calls,
        c.addSize < fileSize ∧ c.count = min bufSize (fileSize - c.addSize) ∧
        1 ≤ c.outSize ∧ (c.addSize : Int) + c.outSize ≤ (fileSize : Int) := by
  intro fuel
  induction fuel with
  | zero => intro a count calls _ _ h; omega
  | succ fuel ih =>
    intro a count calls ha hinv hfuel hcalls
    by_cases hlt : a < fileSize
    · rw [writeLoop_step _ _ _ _ _ _ _ hlt]
      have hreq : (if fileSize - a < bufSize then fileSize - a else count) =
          min bufSize (fileSize - a) := by
        split_ifs with c
        · omega
        · rcases hinv with h | h
          · omega
          · omega
      simp only [hreq]
      have hpos : 1 ≤ min bufSize (fileSize - a) := by omega
      obtain ⟨w1, w2⟩ := hw calls.length (min bufSize (fileSize - a)) hpos
      have hgt : write calls.length (min bufSize (fileSize - a)) > 0 := by omega
      simp only [hgt, if_true]
      apply ih
      · omega
      · by_cases c : fileSize - a < bufSize
        · right; omega
        · left; omega
      · omega
      · intro c hc
        rcases List.mem_append.mp hc with hc | hc
        · exact hcalls c hc
        · rw [List.mem_singleton] at hc
          subst hc
          refine ⟨hlt, rfl, w1, ?_⟩
          show (a : Int) + write calls.length (min bufSize (fileSize - a)) ≤ (fileSize : Int)
          omega
    · have ha' : a = fileSize := by omega
      subst ha'
      simp only [writeLoop, lt_irrefl, if_false]
      exact ⟨trivial, trivial, hcalls⟩

/-- With writes that return the full request, the loop started at `addSize` makes
`ceil((fileSize - addSize) / 1048576)` further calls and ends with
`addSize = fileSize`. -/
theorem writeLoop_full (fileSize : Nat) :
    ∀ (fuel addSize count : Nat) (calls : List WriteCall),
      addSize ≤ fileSize → (count = 1048576 ∨ fileSize - addSize < 1048576) →
      fileSize - addSize < fuel →
      (writeLoop fileSize 1048576 (fun _ c => (c : Int)) fuel addSize count calls).outcome =
        .completed ∧
      (writeLoop fileSize 1048576 (fun _ c => (c : Int)) fuel addSize count calls).addSize =
        fileSize ∧
      (writeLoop fileSize 1048576 (fun _ c => (c : Int)) fuel addSize count calls).calls.length =
        calls.length + (fileSize - addSize + 1048575) / 1048576 := by
  intro fuel
  induction fuel with
  | zero => intro a count calls _ _ h; omega
  | succ fuel ih =>
    intro a count calls ha hinv hfuel
    by_cases hlt : a < fileSize
    · rw [writeLoop_step _ _ _ _ _ _ _ hlt]
      have hreq : (if fileSize - a < 1048576 then fileSize - a else count) =
          min 1048576 (fileSize - a) := by
        split_ifs with c
        · omega
        · rcases hinv with h | h
          · omega
          · omega
      simp only [hreq]
      have hgt : ((min 1048576 (fileSize - a) : Nat) : Int) > 0 := by omega
      simp only [hgt, if_true, Int.toNat_ofNat]
      obtain ⟨h1, h2, h3⟩ := ih (a + min 1048576 (fileSize - a)) (min 1048576 (fileSize - a))
        (calls ++ [⟨a, min 1048576 (fileSize - a), ((min 1048576 (fileSize - a) : Nat) : Int)⟩])
        (by omega) (by omega) (by omega)
      refine ⟨h1, h2, ?_⟩
      rw [h3, List.length_append, List.length_singleton]
      omega
    · have ha' : a = fileSize := by omega
      subst ha'
      simp [writeLoop]

/-- C5: for every file size `F ≥ 1`, if every `write` returns the full requested count,
the file-fill loop (buffer of 1,048,576 bytes) makes exactly `ceil(F / 1048576)` calls of
`write` and ends by its condition with `addSize = F`; for `F = 10,000,000` that is 10
calls. -/
theorem fileFill_full_writes (F fuel : Nat) (hF : 1 ≤ F) (hfuel : F < fuel) :
    (fileFill F (fun _ c => (c : Int)) fuel).outcome = .completed ∧
    (fileFill F (fun _ c => (c : Int)) fuel).addSize = F ∧
    (fileFill F (fun _ c => (c : Int)) fuel).calls.length = ⌈(F : ℚ) / 1048576⌉₊ ∧
    (fileFill F (fun _ c => (c : Int)) fuel).calls.length = (F + 1048575) / 1048576 ∧
    (fileFill 10000000 (fun _ c => (c : Int)) 11).calls.length = 10 ∧
    (fileFill 10000000 (fun _ c => (c : Int)) 11).addSize = 10000000 := by
  have hB : BUFFER_SIZE = 1048576 := by decide
  obtain ⟨h1, h2, h3⟩ := writeLoop_full F fuel 0 1048576 [] (by omega) (by omega) (by omega)
  simp only [List.length_nil, Nat.zero_add, Nat.sub_zero] at h3
  unfold fileFill
  rw [hB]
  refine ⟨h1, h2, ?_, h3, by decide, by decide⟩
  rw [h3]
  symm
  have hk : (F + 1048575) / 1048576 ≠ 0 := by omega
  rw [Nat.ceil_eq_iff hk]
  constructor
  · rw [lt_div_iff₀ (by norm_num)]
    have h : ((F + 1048575) / 1048576 - 1) * 1048576 < F := by omega
    exact_mod_cast h
  · rw [div_le_iff₀ (by norm_num)]
    have h : F ≤ (F + 1048575) / 1048576 * 1048576 := by omega
    exact_mod_cast h

/-- Witness of C5 at `F = 10,000,000`. -/
theorem fileFill_full_writes_witness :
    (fileFill 10000000 (fun _ c => (c : Int)) 10000001).outcome = .completed ∧
    (fileFill 10000000 (fun _ c => (c : Int)) 10000001).addSize = 10000000 ∧
    (fileFill 10000000 (fun _ c => (c : Int)) 10000001).calls.length = 10 := by
  obtain ⟨h1, h2, -, h4, -, -⟩ :=
    fileFill_full_writes 10000000 10000001 (by decide) (by decide)
  exact ⟨h1, h2, h4⟩

end MapFile

namespace MapFile

/-- In a run of the loop a call that returns 0 is the last call, and the run then ends
in the zero-size branch. -/
theorem writeLoop_zero_last (fileSize bufSize : Nat) (write : Nat → Nat → Int) :
    ∀ (fuel addSize count : Nat) (calls : List WriteCall),
      (∀ c ∈ calls, c.outSize ≠ 0) →
      ∀ c ∈ (writeLoop fileSize bufSize write fuel addSize count calls).calls,
        c.outSize = 0 →
        (writeLoop fileSize bufSize write fuel addSize count calls).outcome = .zeroWrite ∧
        (writeLoop fileSize bufSize write fuel addSize count calls).calls.getLast? =
          some c := by
  intro fuel
  induction fuel with
  | zero =>
    intro a count calls hc c hmem h0
    exact absurd h0 (hc c hmem)
  | succ fuel ih =>
    intro a count calls hc
    by_cases hlt : a < fileSize
    · rw [writeLoop_step _ _ _ _ _ _ _ hlt]
      dsimp only
      generalize (if fileSize - a < bufSize then fileSize - a else count) = cnt
      split_ifs with hpos hzero
      · apply ih
        intro c hmem
        rcases List.mem_append.mp hmem with h | h
        · exact hc c h
        · rw [List.mem_singleton] at h
          subst h
          exact ne_of_gt hpos
      · intro c hmem h0
        rcases List.mem_append.mp hmem with h | h
        · exact absurd h0 (hc c h)
        · rw [List.mem_singleton] at h
          subst h
          exact ⟨rfl, by simp⟩
      · intro c hmem h0
        rcases List.mem_append.mp hmem with h | h
        · exact absurd h0 (hc c h)
        · rw [List.mem_singleton] at h
          subst h
          exact absurd h0 hzero
    · intro c hmem h0
      simp only [writeLoop, hlt, if_false] at hmem
      exact absurd h0 (hc c hmem)

/-- C6: in any state of the file-fill loop with `addSize < fileSize`, a `write` that
returns 0 ends the run in that iteration through the zero-size branch (exit code 3),
this call being the last one made; a negative return ends it through the other error
branch, and the two branches are distinct. In a whole run, a call that returned 0 is
the last call and the run ended in the zero-size branch. -/
theorem writeLoop_zero_return (fileSize bufSize : Nat) (write : Nat → Nat → Int)
    (fuel addSize count : Nat) (calls : List WriteCall) (hlt : addSize < fileSize) :
    (write calls.length (if fileSize - addSize < bufSize then fileSize - addSize else count)
        = 0 →
      writeLoop fileSize bufSize write (fuel + 1) addSize count calls =
        ⟨.zeroWrite, addSize, calls ++
          [⟨addSize, if fileSize - addSize < bufSize then fileSize - addSize else count, 0⟩]⟩) ∧
    (write calls.length (if fileSize - addSize < bufSize then fileSize - addSize else count)
        < 0 →
      writeLoop fileSize bufSize write (fuel + 1) addSize count calls =
        ⟨.writeError, addSize, calls ++
          [⟨addSize, if fileSize - addSize < bufSize then fileSize - addSize else count,
            write calls.length
              (if fileSize - addSize < bufSize then fileSize - addSize else count)⟩]⟩) ∧
    (∀ c ∈ (fileFill fileSize write fuel).calls, c.outSize = 0 →
      (fileFill fileSize write fuel).outcome = .zeroWrite ∧
      (fileFill fileSize write fuel).calls.getLast? = some c) ∧
    WriteOutcome.exitCode .zeroWrite = some 3 ∧
    WriteOutcome.zeroWrite ≠ WriteOutcome.writeError := by
  refine ⟨?_, ?_, ?_, rfl, by decide⟩
  · intro h0
    rw [writeLoop_step _ _ _ _ _ _ _ hlt]
    simp [h0]
  · intro hneg
    rw [writeLoop_step _ _ _ _ _ _ _ hlt]
    have h1 : ¬ write calls.length
        (if fileSize - addSize < bufSize then fileSize - addSize else count) > 0 := by omega
    have h2 : ¬ write calls.length
        (if fileSize - addSize < bufSize then fileSize - addSize else count) = 0 := by omega
    simp [h1, h2]
  · exact writeLoop_zero_last fileSize BUFFER_SIZE write fuel 0 BUFFER_SIZE [] (by simp)

/-- Witness of C6: a 4096-byte file whose second `write` returns 0 after a first partial
write of 1000 bytes. -/
theorem writeLoop_zero_return_witness :
    fileFill 4096 (fun k _ => if k = 0 then 1000 else 0) 3 =
      ⟨.zeroWrite, 1000, [⟨0, 4096, 1000⟩, ⟨1000, 3096, 0⟩]⟩ := by
  have h := (writeLoop_zero_return 4096 BUFFER_SIZE (fun k _ => if k = 0 then 1000 else 0) 1
    1000 4096 [⟨0, 4096, 1000⟩] (by decide)).1 (by decide)
  have e : fileFill 4096 (fun k _ => if k = 0 then 1000 else 0) 3 =
      writeLoop 4096 BUFFER_SIZE (fun k _ => if k = 0 then 1000 else 0) 2 1000 4096
        [⟨0, 4096, 1000⟩] := by decide
  rw [e, h]
  decide

/-- C7: for every behaviour of `write` whose returns lie between 1 and the requested
count, the file-fill loop ends by its condition with `addSize = fileSize`, and every call
is made with `addSize < fileSize`, asks for `min(bufSize, fileSize - addSize)` bytes and
leaves `addSize` at most `fileSize`. -/
theorem fileFill_request_counts (fileSize fuel : Nat) (write : Nat → Nat → Int)
    (hw : ∀ k c : Nat, 1 ≤ c → 1 ≤ write k c ∧ write k c ≤ (c : Int))
    (hfuel : fileSize < fuel) :
    (fileFill fileSize write fuel).outcome = .completed ∧
    (fileFill fileSize write fuel).addSize = fileSize ∧
    ∀ c ∈ (fileFill fileSize write fuel).calls,
      c.addSize < fileSize ∧ c.count = min BUFFER_SIZE (fileSize - c.addSize) ∧
      (c.addSize : Int) + c.outSize ≤ (fileSize : Int) := by
  obtain ⟨h1, h2, h3⟩ := writeLoop_invariant fileSize BUFFER_SIZE write (by decide) hw fuel 0
    BUFFER_SIZE [] (by omega) (Or.inl rfl) (by omega) (by simp)
  exact ⟨h1, h2, fun c hc => ⟨(h3 c hc).1, (h3 c hc).2.1, (h3 c hc).2.2.2⟩⟩

/-- Witness of C7: a 10,000,000-byte file and writes that transfer half of the request,
rounded up. -/
theorem fileFill_request_counts_witness :
    (fileFill 10000000 (fun _ c => (((c + 1) / 2 : Nat) : Int)) 10000001).outcome
      = .completed ∧
    (fileFill 10000000 (fun _ c => (((c + 1) / 2 : Nat) : Int)) 10000001).addSize
      = 10000000 ∧
    ∀ c ∈ (fileFill 10000000 (fun _ c => (((c + 1) / 2 : Nat) : Int)) 10000001).calls,
      c.addSize < 10000000 ∧ c.count = min BUFFER_SIZE (10000000 - c.addSize) ∧
      (c.addSize : Int) + c.outSize ≤ ((10000000 : Nat) : Int) :=
  fileFill_request_counts 10000000 10000001 (fun _ c => (((c + 1) / 2 : Nat) : Int))
    (fun _ c hc => by dsimp only; constructor <;> omega) (by decide)

end MapFile

namespace BlockBench

/-! ## The read loop of `blockbench.c` -/

/-- No run of the read loop ends in the "BLOCK READ ERROR" branch: the test `status < 0`
on the `size_t` variable `status` never holds. -/
theorem readLoop_outcome_ne_blockReadError (varSize block : Nat) (read : Nat → Nat → Int) :
    ∀ fuel accum calls : Nat,
      (readLoop varSize block read fuel accum calls).outcome ≠ .blockReadError := by
  intro fuel
  induction fuel with
  | zero => intro accum calls; simp [readLoop]
  | succ fuel ih =>
    intro accum calls
    simp only [readLoop, Nat.not_lt_zero, if_false]
    split_ifs
    · simp
    · exact ih _ _
    · simp

/-- C8 (the code at the failing input): when the first `read` of the report line of the
default range (0 to 11 MiB, `block` = 1,310,720) returns -1, the loop does not end in the
"BLOCK READ ERROR" branch; the return is stored in `status` as 2^64 - 1, added to
`accum`, and the loop ends by its condition after this single call. No run ever takes
the "BLOCK READ ERROR" branch. -/
theorem readLine_negative_return :
    readLine (lineSize 11534336 0) 1310720 (fun _ _ => -1) 2 =
      ⟨.finished, 18446744073709551615, 1⟩ ∧
    toSizeT (-1) = 18446744073709551615 ∧
    ∀ (varSize block : Nat) (read : Nat → Nat → Int) (fuel : Nat),
      (readLine varSize block read fuel).outcome = .blockReadError → False := by
  refine ⟨by decide, by decide, ?_⟩
  intro varSize block read fuel h
  exact readLoop_outcome_ne_blockReadError varSize block read fuel 0 0 h

/-- C9 (the code at the failing input): for the report line of the default range
(0 to 11 MiB), with `block` = 1,310,720 (2560 sectors of 512 bytes) and every `read`
returning the full block, the line size `varSize` is 11,534,336 and the loop ends
without error after 9 calls with `accum` = 11,796,480, which is not `varSize`. -/
theorem readLine_overshoot :
    lineSize 11534336 0 = 11534336 ∧
    readLine (lineSize 11534336 0) 1310720 (fun _ c => (c : Int)) 10 =
      ⟨.finished, 11796480, 9⟩ := by
  refine ⟨by decide, by decide⟩

end BlockBench

namespace MapFile

/-! ## The recorded rate -/

/-- C10: for start and stop samples with a non-zero elapsed time, the rate recorded for
a repeat is `(fileSize / 1048576) / ((ts2.tv_sec - ts1.tv_sec) +
(ts2.tv_nsec - ts1.tv_nsec) / 10^9)`; with `fileSize` = 1,048,576 and an elapsed time of
exactly one second the recorded rate is 1. -/
theorem measuredMbps_eq (fileSize : Nat) (ts1 ts2 : Timespec)
    (h : ((ts2.tv_sec - ts1.tv_sec : Int) : ℚ) +
      ((ts2.tv_nsec - ts1.tv_nsec : Int) : ℚ) / 10 ^ 9 ≠ 0) :
    measuredMbps fileSize ts1 ts2 =
      some (((fileSize : ℚ) / 1048576) /
        (((ts2.tv_sec - ts1.tv_sec : Int) : ℚ) +
          ((ts2.tv_nsec - ts1.tv_nsec : Int) : ℚ) / 10 ^ 9)) ∧
    (((ts2.tv_sec - ts1.tv_sec : Int) : ℚ) +
        ((ts2.tv_nsec - ts1.tv_nsec : Int) : ℚ) / 10 ^ 9 = 1 →
      measuredMbps 1048576 ts1 ts2 = some 1) := by
  have he : elapsedSeconds ts1 ts2 = ((ts2.tv_sec - ts1.tv_sec : Int) : ℚ) +
      ((ts2.tv_nsec - ts1.tv_nsec : Int) : ℚ) / 10 ^ 9 := by
    simp only [elapsedSeconds, TIME_TO_SECONDS]
    ring
  constructor
  · simp only [measuredMbps, he, h, if_false]
  · intro h1
    simp only [measuredMbps, he, h1]
    norm_num

/-- Witness of C10: 1,048,576 bytes between the samples (5 s, 700 ns) and
(6 s, 700 ns). -/
theorem measuredMbps_eq_witness :
    measuredMbps 1048576 ⟨5, 700⟩ ⟨6, 700⟩ = some 1 :=
  (measuredMbps_eq 1048576 ⟨5, 700⟩ ⟨6, 700⟩ (by norm_num)).2 (by norm_num)

end MapFile

namespace Timers

open MapFile (Timespec)

/-! ## Lemmas on the clock loops -/

theorem probeStep_apply (getres : Nat → ClockResult) (ts : Nat → Timespec) (n i : Nat) :
    probeStep getres ts n i =
      if i = n then (if (getres n).status = 0 then (getres n).value else ⟨-1, -1⟩)
      else ts i := by
  unfold probeStep
  by_cases h : i = n
  · subst h
    by_cases hs : (getres i).status = 0 <;> simp [hs]
  · by_cases hs : (getres n).status = 0 <;> simp [hs, h, Function.update_noteq]

theorem probeFold_apply (getres : Nat → ClockResult) (ts : Nat → Timespec) (n i : Nat) :
    (List.range n).foldl (probeStep getres) ts i =
      if i < n then (if (getres i).status = 0 then (getres i).value else ⟨-1, -1⟩)
      else ts i := by
  induction n with
  | zero => simp
  | succ n ih =>
    rw [List.range_succ, List.foldl_append, List.foldl_cons, List.foldl_nil, probeStep_apply]
    by_cases h : i = n
    · subst h; simp
    · rw [if_neg h, ih]
      by_cases hlt : i < n
      · simp [hlt, Nat.lt_succ_of_lt hlt]
      · have : ¬ i < n + 1 := by omega
        simp [hlt, this]

/-- After the probe, entry `i < TCNT` of `ts` is the resolution when `clock_getres`
succeeded and the marker (-1, -1) when it failed. -/
theorem probeLoop_apply (getres : Nat → ClockResult) (ts : Nat → Timespec) (i : Nat)
    (hi : i < TCNT) :
    probeLoop getres ts i =
      if (getres i).status = 0 then (getres i).value else ⟨-1, -1⟩ := by
  unfold probeLoop
  rw [probeFold_apply, if_pos hi]

theorem sampleStep_samples (gettime : Nat → ClockResult) (guard : Nat → Timespec)
    (st : Samples) (n i : Nat) :
    (sampleStep gettime guard st n).samples i =
      if i = n then
        (if 0 ≤ (guard n).tv_sec ∧ (gettime n).status = 0 then (gettime n).value
          else ⟨-1, -1⟩)
      else st.samples i := by
  unfold sampleStep
  by_cases hg : 0 ≤ (guard n).tv_sec
  · by_cases hs : (gettime n).status = 0
    · by_cases h : i = n
      · subst h; simp [hg, hs]
      · simp [hg, hs, h, Function.update_noteq]
    · by_cases h : i = n
      · subst h; simp [hg, hs]
      · simp [hg, hs, h, Function.update_noteq]
  · by_cases h : i = n
    · subst h; simp [hg]
    · simp [hg, h, Function.update_noteq]

theorem sampleStep_calls (gettime : Nat → ClockResult) (guard : Nat → Timespec)
    (st : Samples) (n : Nat) :
    (sampleStep gettime guard st n).calls =
      if 0 ≤ (guard n).tv_sec then st.calls ++ [n] else st.calls := by
  unfold sampleStep
  by_cases hg : 0 ≤ (guard n).tv_sec <;> simp [hg]

theorem sampleFold_spec (gettime : Nat → ClockResult) (guard : Nat → Timespec)
    (st : Samples) (n : Nat) :
    (∀ i, ((List.range n).foldl (sampleStep gettime guard) st).samples i =
      if i < n then
        (if 0 ≤ (guard i).tv_sec ∧ (gettime i).status = 0 then (gettime i).value
          else ⟨-1, -1⟩)
      else st.samples i) ∧
    (∀ i, i ∈ ((List.range n).foldl (sampleStep gettime guard) st).calls ↔
      (i ∈ st.calls ∨ (i < n ∧ 0 ≤ (guard i).tv_sec))) := by
  induction n with
  | zero => simp
  | succ n ih =>
    obtain ⟨ih1, ih2⟩ := ih
    rw [List.range_succ, List.foldl_append, List.foldl_cons, List.foldl_nil]
    constructor
    · intro i
      rw [sampleStep_samples]
      by_cases h : i = n
      · subst h; simp
      · rw [if_neg h, ih1]
        by_cases hlt : i < n
        · simp [hlt, Nat.lt_succ_of_lt hlt]
        · have : ¬ i < n + 1 := by omega
          simp [hlt, this]
    · intro i
      rw [sampleStep_calls]
      by_cases hg : 0 ≤ (guard n).tv_sec
      · rw [if_pos hg, List.mem_append, List.mem_singleton, ih2]
        constructor
        · rintro (h | h)
          · rcases h with h | ⟨h1, h2⟩
            · exact Or.inl h
            · exact Or.inr ⟨by omega, h2⟩
          · subst h; exact Or.inr ⟨by omega, hg⟩
        · rintro (h | ⟨h1, h2⟩)
          · exact Or.inl (Or.inl h)
          · by_cases e : i = n
            · exact Or.inr e
            · exact Or.inl (Or.inr ⟨by omega, h2⟩)
      · rw [if_neg hg, ih2]
        constructor
        · rintro (h | ⟨h1, h2⟩)
          · exact Or.inl h
          · exact Or.inr ⟨by omega, h2⟩
        · rintro (h | ⟨h1, h2⟩)
          · exact Or.inl h
          · by_cases e : i = n
            · subst e; exact absurd h2 hg
            · exact Or.inr ⟨by omega, h2⟩

/-- After a sampling loop, entry `i < TCNT` holds the value read when the guard entry was
valid and `clock_gettime` succeeded, and the marker (-1, -1) otherwise; the clock was
read exactly when the guard entry was valid. -/
theorem sampleLoop_spec (gettime : Nat → ClockResult) (guard samples : Nat → Timespec)
    (i : Nat) (hi : i < TCNT) :
    (sampleLoop gettime guard samples).samples i =
      (if 0 ≤ (guard i).tv_sec ∧ (gettime i).status = 0 then (gettime i).value
        else ⟨-1, -1⟩) ∧
    (i ∈ (sampleLoop gettime guard samples).calls ↔ 0 ≤ (guard i).tv_sec) := by
  obtain ⟨h1, h2⟩ := sampleFold_spec gettime guard ⟨samples, []⟩ TCNT
  unfold sampleLoop
  constructor
  · rw [h1, if_pos hi]
  · rw [h2]; simp [hi]

/-- The whole protocol for one clock: probe, then a start and a stop with any results of
`clock_gettime` and any previous contents of the arrays. -/
theorem protocol_spec (getres g1 g2 : Nat → ClockResult) (ts0 a1 a2 : Nat → Timespec)
    (i : Nat) (hi : i < TCNT) :
    ((getres i).status ≠ 0 →
      i ∉ (sampleLoop g1 (probeLoop getres ts0) a1).calls ∧
      i ∉ (sampleLoop g2 (sampleLoop g1 (probeLoop getres ts0) a1).samples a2).calls ∧
      (sampleLoop g1 (probeLoop getres ts0) a1).samples i = ⟨-1, -1⟩ ∧
      (sampleLoop g2 (sampleLoop g1 (probeLoop getres ts0) a1).samples a2).samples i =
        ⟨-1, -1⟩) ∧
    (i ∈ (sampleLoop g2 (sampleLoop g1 (probeLoop getres ts0) a1).samples a2).calls ↔
      0 ≤ ((sampleLoop g1 (probeLoop getres ts0) a1).samples i).tv_sec) ∧
    (0 ≤ ((sampleLoop g2 (sampleLoop g1 (probeLoop getres ts0) a1).samples a2).samples
        i).tv_sec →
      (getres i).status = 0 ∧ (g1 i).status = 0 ∧ (g2 i).status = 0 ∧
      i ∈ (sampleLoop g1 (probeLoop getres ts0) a1).calls ∧
      i ∈ (sampleLoop g2 (sampleLoop g1 (probeLoop getres ts0) a1).samples a2).calls) := by
  have hp := probeLoop_apply getres ts0 i hi
  obtain ⟨s1, c1⟩ := sampleLoop_spec g1 (probeLoop getres ts0) a1 i hi
  obtain ⟨s2, c2⟩ :=
    sampleLoop_spec g2 (sampleLoop g1 (probeLoop getres ts0) a1).samples a2 i hi
  refine ⟨?_, c2, ?_⟩
  · intro hfail
    have hts : probeLoop getres ts0 i = ⟨-1, -1⟩ := by rw [hp, if_neg hfail]
    have hg : ¬ (0 ≤ (probeLoop getres ts0 i).tv_sec) := by rw [hts]; decide
    have h1 : (sampleLoop g1 (probeLoop getres ts0) a1).samples i = ⟨-1, -1⟩ := by
      rw [s1, if_neg (fun h => hg h.1)]
    have hg1 : ¬ (0 ≤ ((sampleLoop g1 (probeLoop getres ts0) a1).samples i).tv_sec) := by
      rw [h1]; decide
    refine ⟨fun h => hg (c1.mp h), fun h => hg1 (c2.mp h), h1, ?_⟩
    rw [s2, if_neg (fun h => hg1 h.1)]
  · intro hvalid
    rw [s2] at hvalid
    by_cases hc2 : 0 ≤ ((sampleLoop g1 (probeLoop getres ts0) a1).samples i).tv_sec ∧
        (g2 i).status = 0
    · obtain ⟨hv1, hs2⟩ := hc2
      have hv1' := hv1
      rw [s1] at hv1'
      by_cases hc1 : 0 ≤ (probeLoop getres ts0 i).tv_sec ∧ (g1 i).status = 0
      · obtain ⟨hv0, hs1⟩ := hc1
        have hv0' := hv0
        rw [hp] at hv0'
        by_cases hs0 : (getres i).status = 0
        · exact ⟨hs0, hs1, hs2, c1.mpr hv0, c2.mpr hv1⟩
        · rw [if_neg hs0] at hv0'
          exact absurd hv0' (by decide)
      · rw [if_neg hc1] at hv1'
        exact absurd hv1' (by decide)
    · rw [if_neg hc2] at hvalid
      exact absurd hvalid (by decide)

end Timers

namespace FileBench

open MapFile (Timespec doubleDiv)
open Timers

/-! ## Rate computations of the sample programs -/

/-- The loop of `benchmarksCalculation` unrolled: the values of all reference
parameters after the call. -/
theorem benchmarksCalculation_eq (x : Nat) (r : Results) (ts1 ts2 : Nat → Timespec) :
    benchmarksCalculation x r ts1 ts2 =
      ⟨(x : ℚ) / 1000000, doubleDiv ((x : ℚ) / 1000000) (clockSeconds ts1 ts2 0),
        clockSeconds ts1 ts2 0, clockSeconds ts1 ts2 2,
        doubleDiv (clockSeconds ts1 ts2 2) (clockSeconds ts1 ts2 0)⟩ := by
  simp [benchmarksCalculation, calculationStep, TCNT, List.range, List.range.loop]

end FileBench

namespace BlockBenchAlt

open MapFile (Timespec doubleDiv)
open Timers

theorem resultsCalculation_eq (reqCount : Nat) (r : FileBench.Results)
    (ts1 ts2 : Nat → Timespec) :
    resultsCalculation reqCount r ts1 ts2 =
      ⟨((reqCount * SECTOR % 2 ^ 64 : Nat) : ℚ) / 1000000,
        doubleDiv (((reqCount * SECTOR % 2 ^ 64 : Nat) : ℚ) / 1000000)
          (clockSeconds ts1 ts2 0),
        clockSeconds ts1 ts2 0, clockSeconds ts1 ts2 2,
        doubleDiv (clockSeconds ts1 ts2 2) (clockSeconds ts1 ts2 0)⟩ := by
  simp [resultsCalculation, FileBench.calculationStep, TCNT, List.range, List.range.loop]

end BlockBenchAlt

namespace FileBench

open MapFile (Timespec doubleDiv)
open Timers

/-- C11 (counterexample): for `x` = 1,048,576 bytes and clock 0 advancing from 5 s to
6 s, `benchmarksCalculation` sets `mbps` to 1.048576, not to
`(x / 1048576) / elapsed` = 1. -/
theorem benchmarksCalculation_mbps_counterexample :
    (benchmarksCalculation 1048576 ⟨0, some 0, 0, 0, some 0⟩ (fun _ => ⟨5, 0⟩)
      (fun _ => ⟨6, 0⟩)).mbps = some (1048576 / 1000000) ∧
    (benchmarksCalculation 1048576 ⟨0, some 0, 0, 0, some 0⟩ (fun _ => ⟨5, 0⟩)
      (fun _ => ⟨6, 0⟩)).mbps ≠
      some (((1048576 : ℚ) / 1048576) /
        clockSeconds (fun _ => ⟨5, 0⟩) (fun _ => ⟨6, 0⟩) 0) := by
  rw [benchmarksCalculation_eq]
  norm_num [clockSeconds, doubleDiv]

/-- C11 (amended): for every byte count `x` and all clock samples, `benchmarksCalculation`
sets `mbps` to the `double` quotient of `x / 1000000` by the elapsed seconds of clock 0,
that is to `(x / 1000000) / elapsed` when the elapsed time is not zero; the results
calculation of blockbench.cpp does the same with `x = reqCount * SECTOR`. -/
theorem benchmarksCalculation_mbps (x reqCount : Nat) (r : Results)
    (ts1 ts2 : Nat → Timespec) :
    (benchmarksCalculation x r ts1 ts2).mbps =
      doubleDiv ((x : ℚ) / 1000000) (clockSeconds ts1 ts2 0) ∧
    (clockSeconds ts1 ts2 0 ≠ 0 →
      (benchmarksCalculation x r ts1 ts2).mbps =
        some (((x : ℚ) / 1000000) / clockSeconds ts1 ts2 0)) ∧
    (BlockBenchAlt.resultsCalculation reqCount r ts1 ts2).mbps =
      doubleDiv (((reqCount * BlockBenchAlt.SECTOR % 2 ^ 64 : Nat) : ℚ) / 1000000)
        (clockSeconds ts1 ts2 0) ∧
    (clockSeconds ts1 ts2 0 ≠ 0 →
      (BlockBenchAlt.resultsCalculation reqCount r ts1 ts2).mbps =
        some ((((reqCount * BlockBenchAlt.SECTOR % 2 ^ 64 : Nat) : ℚ) / 1000000) /
          clockSeconds ts1 ts2 0)) := by
  rw [benchmarksCalculation_eq, BlockBenchAlt.resultsCalculation_eq]
  refine ⟨rfl, ?_, rfl, ?_⟩
  · intro h; simp [doubleDiv, h]
  · intro h; simp [doubleDiv, h]

end FileBench

namespace MapFile

open Timers

/-- C12 (counterexample): with `fileSize` = 1,048,576 and a stop sample one second
before the start sample, the rate computed and stored in the log is -1; with equal
samples the division by zero is made and its non-finite result is stored; in both cases
the log entry is written and nothing else happens. `benchmarksCalculation` likewise
yields a non-finite `mbps` for equal samples of clock 0. -/
theorem storeRate_counterexample :
    (storeRate [some 0, some 0] 0 1048576 ⟨5, 0⟩ ⟨4, 0⟩) = [some (-1), some 0] ∧
    (storeRate [some 0, some 0] 0 1048576 ⟨5, 0⟩ ⟨5, 0⟩) = [none, some 0] ∧
    (FileBench.benchmarksCalculation 1048576 ⟨0, some 0, 0, 0, some 0⟩ (fun _ => ⟨5, 0⟩)
      (fun _ => ⟨5, 0⟩)).mbps = none := by
  refine ⟨?_, ?_, ?_⟩
  · norm_num [storeRate, measuredMbps, elapsedSeconds, TIME_TO_SECONDS]
  · norm_num [storeRate, measuredMbps, elapsedSeconds, TIME_TO_SECONDS]
  · rw [FileBench.benchmarksCalculation_eq]
    norm_num [clockSeconds, doubleDiv]

/-- C12 (amended): when the elapsed wall-clock time of a repeat is zero or negative, the
rate computation has no separate outcome: for a zero elapsed time it makes the division
by zero and stores the non-finite result in the log, for a negative elapsed time it
stores the quotient `(fileSize / 1048576) / elapsed`, which is not positive;
`benchmarksCalculation` does the same with `x / 1000000`. -/
theorem storeRate_nonpositive_elapsed (log : List (Option ℚ)) (rep fileSize : Nat)
    (ts1 ts2 : Timespec) (hrep : rep < log.length) (h : elapsedSeconds ts1 ts2 ≤ 0) :
    (storeRate log rep fileSize ts1 ts2)[rep]? = some (measuredMbps fileSize ts1 ts2) ∧
    (elapsedSeconds ts1 ts2 = 0 → measuredMbps fileSize ts1 ts2 = none) ∧
    (elapsedSeconds ts1 ts2 < 0 →
      measuredMbps fileSize ts1 ts2 =
        some (((fileSize : ℚ) / 1048576) / elapsedSeconds ts1 ts2) ∧
      ((fileSize : ℚ) / 1048576) / elapsedSeconds ts1 ts2 ≤ 0) ∧
    (∀ (x : Nat) (r : FileBench.Results) (a1 a2 : Nat → Timespec),
      (clockSeconds a1 a2 0 = 0 → (FileBench.benchmarksCalculation x r a1 a2).mbps = none) ∧
      (clockSeconds a1 a2 0 < 0 →
        (FileBench.benchmarksCalculation x r a1 a2).mbps =
          some (((x : ℚ) / 1000000) / clockSeconds a1 a2 0) ∧
        ((x : ℚ) / 1000000) / clockSeconds a1 a2 0 ≤ 0)) := by
  have _ := h
  refine ⟨?_, ?_, ?_, ?_⟩
  · simp [storeRate, hrep]
  · intro h0
    simp [measuredMbps, h0]
  · intro hneg
    refine ⟨by simp [measuredMbps, ne_of_lt hneg], ?_⟩
    apply div_nonpos_of_nonneg_of_nonpos
    · positivity
    · exact le_of_lt hneg
  · intro x r a1 a2
    rw [FileBench.benchmarksCalculation_eq]
    refine ⟨fun h0 => by simp [doubleDiv, h0], fun hneg => ⟨?_, ?_⟩⟩
    · simp [doubleDiv, ne_of_lt hneg]
    · apply div_nonpos_of_nonneg_of_nonpos
      · positivity
      · exact le_of_lt hneg

/-- Witness of C12 (amended): 1,048,576 bytes, stop sample one second before the start
sample. -/
theorem storeRate_nonpositive_elapsed_witness :
    (storeRate [some 0, some 0] 0 1048576 ⟨5, 0⟩ ⟨4, 0⟩)[0]? =
      some (measuredMbps 1048576 ⟨5, 0⟩ ⟨4, 0⟩) :=
  (storeRate_nonpositive_elapsed [some 0, some 0] 0 1048576 ⟨5, 0⟩ ⟨4, 0⟩ (by decide)
    (by norm_num [elapsedSeconds, TIME_TO_SECONDS])).1

end MapFile

namespace BlockBench

open MapFile (Timespec doubleDiv)
open Timers

/-- C13: in blockbench.c and in filebench.cpp, for every clock `i < TCNT`, every result
of the probe and of the later calls, and every previous content of the arrays: if
`clock_getres` failed for clock `i`, the start and stop routines do not call
`clock_gettime` for it and leave (-1, -1) in both samples; the stop routine reads clock
`i` exactly when its start sample has `tv_sec ≥ 0`; and a stop sample with `tv_sec ≥ 0`
means that the probe, the start call and the stop call were all made and succeeded. -/
theorem invalid_clock_propagates (getres g1 g2 : Nat → ClockResult)
    (ts0 a1 a2 : Nat → Timespec) (i : Nat) (hi : i < TCNT) :
    (((getres i).status ≠ 0 →
        i ∉ (startTimeDelta g1 (detectAndPrintTimers getres ts0) a1).calls ∧
        i ∉ (stopTimeDelta g2
          (startTimeDelta g1 (detectAndPrintTimers getres ts0) a1).samples a2).calls ∧
        (startTimeDelta g1 (detectAndPrintTimers getres ts0) a1).samples i = ⟨-1, -1⟩ ∧
        (stopTimeDelta g2
          (startTimeDelta g1 (detectAndPrintTimers getres ts0) a1).samples a2).samples i =
          ⟨-1, -1⟩) ∧
      (i ∈ (stopTimeDelta g2
          (startTimeDelta g1 (detectAndPrintTimers getres ts0) a1).samples a2).calls ↔
        0 ≤ ((startTimeDelta g1 (detectAndPrintTimers getres ts0) a1).samples i).tv_sec) ∧
      (0 ≤ ((stopTimeDelta g2
          (startTimeDelta g1 (detectAndPrintTimers getres ts0) a1).samples a2).samples
            i).tv_sec →
        (getres i).status = 0 ∧ (g1 i).status = 0 ∧ (g2 i).status = 0 ∧
        i ∈ (startTimeDelta g1 (detectAndPrintTimers getres ts0) a1).calls ∧
        i ∈ (stopTimeDelta g2
          (startTimeDelta g1 (detectAndPrintTimers getres ts0) a1).samples a2).calls)) ∧
    (((getres i).status ≠ 0 →
        i ∉ (FileBench.timerStart g1 (FileBench.probeTimers getres ts0) a1).calls ∧
        i ∉ (FileBench.timerStop g2
          (FileBench.timerStart g1 (FileBench.probeTimers getres ts0) a1).samples a2).calls ∧
        (FileBench.timerStart g1 (FileBench.probeTimers getres ts0) a1).samples i =
          ⟨-1, -1⟩ ∧
        (FileBench.timerStop g2
          (FileBench.timerStart g1 (FileBench.probeTimers getres ts0) a1).samples a2).samples
            i = ⟨-1, -1⟩) ∧
      (i ∈ (FileBench.timerStop g2
          (FileBench.timerStart g1 (FileBench.probeTimers getres ts0) a1).samples a2).calls ↔
        0 ≤ ((FileBench.timerStart g1 (FileBench.probeTimers getres ts0) a1).samples
          i).tv_sec) ∧
      (0 ≤ ((FileBench.timerStop g2
          (FileBench.timerStart g1 (FileBench.probeTimers getres ts0) a1).samples a2).samples
            i).tv_sec →
        (getres i).status = 0 ∧ (g1 i).status = 0 ∧ (g2 i).status = 0 ∧
        i ∈ (FileBench.timerStart g1 (FileBench.probeTimers getres ts0) a1).calls ∧
        i ∈ (FileBench.timerStop g2
          (FileBench.timerStart g1 (FileBench.probeTimers getres ts0) a1).samples
            a2).calls)) :=
  ⟨protocol_spec getres g1 g2 ts0 a1 a2 i hi, protocol_spec getres g1 g2 ts0 a1 a2 i hi⟩

/-- Witness of C13: the probe of clock 3 fails, every other call succeeds; clock 3 is
never read and both its samples are (-1, -1). -/
theorem invalid_clock_propagates_witness :
    3 ∉ (startTimeDelta (fun _ => ⟨0, ⟨7, 0⟩⟩)
      (detectAndPrintTimers (fun i => ⟨if i = 3 then -1 else 0, ⟨0, 1⟩⟩) (fun _ => ⟨0, 0⟩))
      (fun _ => ⟨0, 0⟩)).calls ∧
    (stopTimeDelta (fun _ => ⟨0, ⟨8, 0⟩⟩)
      (startTimeDelta (fun _ => ⟨0, ⟨7, 0⟩⟩)
        (detectAndPrintTimers (fun i => ⟨if i = 3 then -1 else 0, ⟨0, 1⟩⟩)
          (fun _ => ⟨0, 0⟩))
        (fun _ => ⟨0, 0⟩)).samples (fun _ => ⟨0, 0⟩)).samples 3 = ⟨-1, -1⟩ := by
  have h := (invalid_clock_propagates (fun i => ⟨if i = 3 then -1 else 0, ⟨0, 1⟩⟩)
    (fun _ => ⟨0, ⟨7, 0⟩⟩) (fun _ => ⟨0, ⟨8, 0⟩⟩) (fun _ => ⟨0, 0⟩) (fun _ => ⟨0, 0⟩)
    (fun _ => ⟨0, 0⟩) 3 (by decide)).1.1 (by decide)
  exact ⟨h.1, h.2.2.2⟩

/-- C14 (counterexample): with both samples of clock 0 equal to the marker (-1, -1), the
rate computations of blockbench.c and filebench.cpp take the elapsed time of the
interval to be exactly 0 seconds and divide by it. -/
theorem lineRates_invalid_counterexample :
    (lineRates 104857600 (fun _ => ⟨-1, -1⟩) (fun _ => ⟨-1, -1⟩)).timeTotal = 0 ∧
    (lineRates 104857600 (fun _ => ⟨-1, -1⟩) (fun _ => ⟨-1, -1⟩)).mbps = none ∧
    (FileBench.benchmarksCalculation 1280000 ⟨0, some 0, 0, 0, some 0⟩ (fun _ => ⟨-1, -1⟩)
      (fun _ => ⟨-1, -1⟩)).timeTotal = 0 ∧
    (FileBench.benchmarksCalculation 1280000 ⟨0, some 0, 0, 0, some 0⟩ (fun _ => ⟨-1, -1⟩)
      (fun _ => ⟨-1, -1⟩)).mbps = none := by
  rw [FileBench.benchmarksCalculation_eq]
  norm_num [lineRates, clockSeconds, doubleDiv]

/-- C14 (amended): when both samples of clock 0 are the marker (-1, -1), the rate
computations of blockbench.c and filebench.cpp make no validity test: the markers cancel,
the elapsed time of the interval is computed as 0 seconds, and the rate and the
utilization are the non-finite results of a division by it. -/
theorem lineRates_invalid (varSize x : Nat) (r : FileBench.Results)
    (ts1 ts2 : Nat → Timespec) (h1 : ts1 0 = ⟨-1, -1⟩) (h2 : ts2 0 = ⟨-1, -1⟩) :
    (lineRates varSize ts1 ts2).timeTotal = 0 ∧
    (lineRates varSize ts1 ts2).mbps = none ∧
    (lineRates varSize ts1 ts2).utilization = none ∧
    (FileBench.benchmarksCalculation x r ts1 ts2).timeTotal = 0 ∧
    (FileBench.benchmarksCalculation x r ts1 ts2).mbps = none ∧
    (FileBench.benchmarksCalculation x r ts1 ts2).timeRatio = none := by
  have h0 : clockSeconds ts1 ts2 0 = 0 := by
    simp [clockSeconds, h1, h2]
  rw [FileBench.benchmarksCalculation_eq]
  simp [lineRates, doubleDiv, h0]

/-- Witness of C14 (amended): clock 0 invalid, the other clocks advancing by one
second. -/
theorem lineRates_invalid_witness :
    (lineRates 104857600 (fun i => if i = 0 then ⟨-1, -1⟩ else ⟨5, 0⟩)
      (fun i => if i = 0 then ⟨-1, -1⟩ else ⟨6, 0⟩)).timeTotal = 0 ∧
    (lineRates 104857600 (fun i => if i = 0 then ⟨-1, -1⟩ else ⟨5, 0⟩)
      (fun i => if i = 0 then ⟨-1, -1⟩ else ⟨6, 0⟩)).mbps = none := by
  have h := lineRates_invalid 104857600 0 ⟨0, some 0, 0, 0, some 0⟩
    (fun i => if i = 0 then ⟨-1, -1⟩ else ⟨5, 0⟩)
    (fun i => if i = 0 then ⟨-1, -1⟩ else ⟨6, 0⟩) (by simp) (by simp)
  exact ⟨h.1, h.2.1⟩

end BlockBench

namespace MapFile

/-! ## An empty sample set, and the control flow of `main` -/

/-- C15 (counterexample): called with `statCount = 0` on the array `7, 8` the function
returns a summary (minimum and maximum 7) instead of failing, and the summary depends
on `statArray[0]`, which it therefore reads: on the array `9, 8` it returns 9. -/
theorem calculateStatistics_zero_counterexample :
    (∃ r, calculateStatistics 1 [7, 8] 0 = some ([7, 8], r) ∧ r.statMin = 7 ∧
      r.statMax = 7) ∧
    (∃ r, calculateStatistics 1 [9, 8] 0 = some ([9, 8], r) ∧ r.statMin = 9 ∧
      r.statMax = 9) := by
  constructor
  · refine ⟨⟨medianOf [7, 8] 0, 0 / ((0 : Nat) : ℚ), 7, 7⟩, ?_, rfl, rfl⟩
    simp [calculateStatistics, orderingLoop, orderingPass, orderingPassFrom, scanLoop, rd]
  · refine ⟨⟨medianOf [9, 8] 0, 0 / ((0 : Nat) : ℚ), 9, 9⟩, ?_, rfl, rfl⟩
    simp [calculateStatistics, orderingLoop, orderingPass, orderingPassFrom, scanLoop, rd]

/-- C15 (amended): `calculateStatistics` has no failure outcome; called with
`statCount = 0` it runs neither loop body, returns normally, leaves the array unchanged
and sets `statMin` and `statMax` to `statArray[0]`. -/
theorem calculateStatistics_zero (a : List ℚ) (fuel : Nat) :
    ∃ r, calculateStatistics (fuel + 1) a 0 = some (a, r) ∧
      r.statMin = rd a 0 ∧ r.statMax = rd a 0 := by
  refine ⟨⟨medianOf a 0, 0 / ((0 : Nat) : ℚ), rd a 0, rd a 0⟩, ?_, rfl, rfl⟩
  simp [calculateStatistics, orderingLoop, orderingPass, orderingPassFrom, scanLoop]

theorem getLast?_cons_of_some {α : Type} (x a : α) (l : List α)
    (h : l.getLast? = some a) : (x :: l).getLast? = some a := by
  cases l with
  | nil => simp at h
  | cons y t => simpa [List.getLast?_cons_cons] using h

theorem getLast?_append_of_some {α : Type} (a : α) (l₁ l₂ : List α)
    (h : l₂.getLast? = some a) : (l₁ ++ l₂).getLast? = some a := by
  induction l₁ with
  | nil => simpa using h
  | cons x t ih => exact getLast?_cons_of_some x a _ ih

/-- A run of the steps of one repeat: every action is a step of this repeat; without a
return no checked step failed; a checked step that failed is the last action and gives
the returned value. -/
theorem runSteps_spec (env : Env) (phase : Phase) (rep : Nat) : ∀ L : List Step,
    (∀ a ∈ (runSteps env phase rep L).1, ∃ s, a = .step phase rep s ∧ s ∈ L) ∧
    ((runSteps env phase rep L).2 = none →
      ∀ s ∈ L, ∀ code, s.returns = some code → env.fails phase rep s = false) ∧
    (∀ s code, Action.step phase rep s ∈ (runSteps env phase rep L).1 →
      s.returns = some code → env.fails phase rep s = true →
      (runSteps env phase rep L).2 = some code ∧
      (runSteps env phase rep L).1.getLast? = some (.step phase rep s)) := by
  intro L
  induction L with
  | nil => simp [runSteps]
  | cons s0 rest ih =>
    obtain ⟨ih1, ih2, ih3⟩ := ih
    cases hr : s0.returns with
    | none =>
      simp only [runSteps, hr]
      refine ⟨?_, ?_, ?_⟩
      · intro a ha
        rcases List.mem_cons.mp ha with h | h
        · exact ⟨s0, h, List.mem_cons_self _ _⟩
        · obtain ⟨s, e, hs⟩ := ih1 a h
          exact ⟨s, e, List.mem_cons_of_mem _ hs⟩
      · intro hnone s hs code hc
        rcases List.mem_cons.mp hs with h | h
        · subst h; rw [hr] at hc; cases hc
        · exact ih2 hnone s h code hc
      · intro s code hmem hc hf
        rcases List.mem_cons.mp hmem with h | h
        · injection h with _ _ h3
          subst h3; rw [hr] at hc; cases hc
        · obtain ⟨e1, e2⟩ := ih3 s code h hc hf
          exact ⟨e1, getLast?_cons_of_some _ _ _ e2⟩
    | some c =>
      by_cases hfail : env.fails phase rep s0 = true
      · simp only [runSteps, hr, hfail, if_true]
        refine ⟨?_, ?_, ?_⟩
        · intro a ha
          rw [List.mem_singleton] at ha
          exact ⟨s0, ha, List.mem_cons_self _ _⟩
        · intro h; cases h
        · intro s code hmem hc hf
          rw [List.mem_singleton] at hmem
          injection hmem with _ _ h3
          subst h3
          rw [hr] at hc
          injection hc with hc
          subst hc
          exact ⟨rfl, rfl⟩
      · have hfalse : env.fails phase rep s0 = false := by simpa using hfail
        simp only [runSteps, hr, hfalse]
        refine ⟨?_, ?_, ?_⟩
        · intro a ha
          rcases List.mem_cons.mp ha with h | h
          · exact ⟨s0, h, List.mem_cons_self _ _⟩
          · obtain ⟨s, e, hs⟩ := ih1 a h
            exact ⟨s, e, List.mem_cons_of_mem _ hs⟩
        · intro hnone s hs code hc
          rcases List.mem_cons.mp hs with h | h
          · subst h; exact hfalse
          · exact ih2 hnone s h code hc
        · intro s code hmem hc hf
          rcases List.mem_cons.mp hmem with h | h
          · injection h with _ _ h3
            subst h3; rw [hfalse] at hf; cases hf
          · obtain ⟨e1, e2⟩ := ih3 s code h hc hf
            exact ⟨e1, getLast?_cons_of_some _ _ _ e2⟩

/-- A run of the repeats of one cycle: every action is a step; a checked step that
failed is the last action and gives the returned value. -/
theorem runPhase_spec (env : Env) (wsyncMode : Int) (phase : Phase) :
    ∀ (count rep0 : Nat),
    (∀ a ∈ (runPhase env wsyncMode phase rep0 count).1, ∃ rep s, a = .step phase rep s) ∧
    (∀ rep s code, Action.step phase rep s ∈ (runPhase env wsyncMode phase rep0 count).1 →
      s.returns = some code → env.fails phase rep s = true →
      (runPhase env wsyncMode phase rep0 count).2 = some code ∧
      (runPhase env wsyncMode phase rep0 count).1.getLast? = some (.step phase rep s)) := by
  intro count
  induction count with
  | zero => intro rep0; simp [runPhase]
  | succ count ih =>
    intro rep0
    obtain ⟨s1, s2, s3⟩ := runSteps_spec env phase rep0 (repeatSteps phase wsyncMode)
    obtain ⟨p1, p3⟩ := ih (rep0 + 1)
    cases hr : (runSteps env phase rep0 (repeatSteps phase wsyncMode)).2 with
    | some c =>
      simp only [runPhase, hr]
      refine ⟨?_, ?_⟩
      · intro a ha
        obtain ⟨s, e, -⟩ := s1 a ha
        exact ⟨rep0, s, e⟩
      · intro rep s code hmem hc hf
        obtain ⟨s', e, -⟩ := s1 _ hmem
        injection e with _ e2 e3
        subst e2
        obtain ⟨q1, q2⟩ := s3 s code hmem hc hf
        rw [hr] at q1
        exact ⟨q1, q2⟩
    | none =>
      simp only [runPhase, hr]
      refine ⟨?_, ?_⟩
      · intro a ha
        rcases List.mem_append.mp ha with h | h
        · obtain ⟨s, e, -⟩ := s1 a h
          exact ⟨rep0, s, e⟩
        · exact p1 a h
      · intro rep s code hmem hc hf
        rcases List.mem_append.mp hmem with h | h
        · obtain ⟨s', e, hs'⟩ := s1 _ h
          injection e with _ e2 e3
          subst e2
          subst e3
          have := s2 hr s hs' code hc
          rw [this] at hf
          cases hf
        · obtain ⟨q1, q2⟩ := p3 rep s code h hc hf
          exact ⟨q1, getLast?_append_of_some _ _ _ q2⟩

/-- In a run of `main`, a step whose failure branch is taken is the last action, and
`main` returns the value of that branch. -/
theorem main_failed_step (c : Config) (env : Env) (phase : Phase) (rep : Nat) (s : Step)
    (code : Nat) (hmem : Action.step phase rep s ∈ (main c env).trace)
    (hc : s.returns = some code) (hf : env.fails phase rep s = true) :
    (main c env).exitCode = code ∧
    (main c env).trace.getLast? = some (.step phase rep s) := by
  unfold main at hmem ⊢
  by_cases hp : env.parseStatus ≠ 0
  · simp [hp] at hmem
  · simp only [hp, if_false] at hmem ⊢
    cases hv : checkParameters c with
    | some b => simp [hv] at hmem
    | none =>
      simp only [hv] at hmem ⊢
      by_cases hk : tolower env.key ≠ 121
      · simp [hk] at hmem
      · simp only [hk, if_false] at hmem ⊢
        have hw := runPhase_spec env c.wsyncMode .write c.repeats.toNat 0
        have hr := runPhase_spec env c.wsyncMode .read c.repeats.toNat 0
        cases hw2 : (runPhase env c.wsyncMode .write 0 c.repeats.toNat).2 with
        | some cw =>
          simp only [hw2] at hmem ⊢
          rcases List.mem_cons.mp hmem with h | h
          · cases h
          · obtain ⟨rep1, st1, e⟩ := hw.1 _ h
            injection e with e1 e2 e3
            subst e1
            obtain ⟨q1, q2⟩ := hw.2 rep s code h hc hf
            rw [hw2] at q1
            injection q1 with q1
            exact ⟨q1, getLast?_cons_of_some _ _ _ q2⟩
        | none =>
          simp only [hw2] at hmem ⊢
          have notw : Action.step phase rep s ∉
              (runPhase env c.wsyncMode .write 0 c.repeats.toNat).1 := by
            intro h
            obtain ⟨rep1, st1, e⟩ := hw.1 _ h
            injection e with e1 e2 e3
            subst e1
            obtain ⟨q1, -⟩ := hw.2 rep s code h hc hf
            rw [hw2] at q1
            cases q1
          cases hr2 : (runPhase env c.wsyncMode .read 0 c.repeats.toNat).2 with
          | some cr =>
            simp only [hr2] at hmem ⊢
            rcases List.mem_cons.mp hmem with h | h
            · cases h
            · rcases List.mem_append.mp h with h | h
              · exact absurd h notw
              · obtain ⟨rep1, st1, e⟩ := hr.1 _ h
                injection e with e1 e2 e3
                subst e1
                obtain ⟨q1, q2⟩ := hr.2 rep s code h hc hf
                rw [hr2] at q1
                injection q1 with q1
                exact ⟨q1, getLast?_cons_of_some _ _ _
                  (getLast?_append_of_some _ _ _ q2)⟩
          | none =>
            simp only [hr2] at hmem ⊢
            exfalso
            rcases List.mem_cons.mp hmem with h | h
            · cases h
            · rcases List.mem_append.mp h with h | h
              · rcases List.mem_append.mp h with h | h
                · exact notw h
                · obtain ⟨rep1, st1, e⟩ := hr.1 _ h
                  injection e with e1 e2 e3
                  subst e1
                  obtain ⟨q1, -⟩ := hr.2 rep s code h hc hf
                  rw [hr2] at q1
                  cases q1
              · simp at h

end MapFile

namespace MapFile

/-- The actions of a run of `main`: the prompt, steps of repeats, the two summaries with
`statCount = repeats`, and the resource statistics. -/
theorem main_trace_actions (c : Config) (env : Env) :
    ∀ a ∈ (main c env).trace,
      a = .prompt ∨ (∃ p rep s, a = .step p rep s) ∨ (∃ p, a = .summary p c.repeats) ∨
        a = .resourceStatistics := by
  intro a ha
  have hw := (runPhase_spec env c.wsyncMode .write c.repeats.toNat 0).1
  have hr := (runPhase_spec env c.wsyncMode .read c.repeats.toNat 0).1
  unfold main at ha
  by_cases hp : env.parseStatus ≠ 0
  · simp [hp] at ha
  · simp only [hp, if_false] at ha
    cases hv : checkParameters c with
    | some b => simp [hv] at ha
    | none =>
      simp only [hv] at ha
      by_cases hk : tolower env.key ≠ 121
      · rw [if_pos hk, List.mem_singleton] at ha
        exact Or.inl ha
      · simp only [hk, if_false] at ha
        cases hw2 : (runPhase env c.wsyncMode .write 0 c.repeats.toNat).2 with
        | some cw =>
          simp only [hw2] at ha
          rcases List.mem_cons.mp ha with h | h
          · exact Or.inl h
          · obtain ⟨rep, s, e⟩ := hw a h
            exact Or.inr (Or.inl ⟨_, rep, s, e⟩)
        | none =>
          simp only [hw2] at ha
          cases hr2 : (runPhase env c.wsyncMode .read 0 c.repeats.toNat).2 with
          | some cr =>
            simp only [hr2] at ha
            rcases List.mem_cons.mp ha with h | h
            · exact Or.inl h
            · rcases List.mem_append.mp h with h | h
              · obtain ⟨rep, s, e⟩ := hw a h
                exact Or.inr (Or.inl ⟨_, rep, s, e⟩)
              · obtain ⟨rep, s, e⟩ := hr a h
                exact Or.inr (Or.inl ⟨_, rep, s, e⟩)
          | none =>
            simp only [hr2] at ha
            rcases List.mem_cons.mp ha with h | h
            · exact Or.inl h
            · rcases List.mem_append.mp h with h | h
              · rcases List.mem_append.mp h with h | h
                · obtain ⟨rep, s, e⟩ := hw a h
                  exact Or.inr (Or.inl ⟨_, rep, s, e⟩)
                · obtain ⟨rep, s, e⟩ := hr a h
                  exact Or.inr (Or.inl ⟨_, rep, s, e⟩)
              · simp only [List.mem_cons, List.mem_singleton, List.not_mem_nil, or_false] at h
                rcases h with h | h | h
                · exact Or.inr (Or.inr (Or.inl ⟨_, h⟩))
                · exact Or.inr (Or.inr (Or.inl ⟨_, h⟩))
                · exact Or.inr (Or.inr (Or.inr h))

/-- C16 (counterexample): the configuration with `repeats = 0` (other options at their
defaults) passes validation; in the run where the user answers `y` and nothing fails,
no repeat runs and the two final calls of `calculateStatistics` are made with
`statCount = 0`. -/
theorem main_statCount_counterexample :
    checkParameters { defaultConfig with repeats := 0 } = none ∧
    (main { defaultConfig with repeats := 0 } quietEnv).trace =
      [.prompt, .summary .write 0, .summary .read 0, .resourceStatistics] ∧
    (main { defaultConfig with repeats := 0 } quietEnv).trace.filterMap Action.statCount =
      [0, 0] := by
  refine ⟨by decide, by decide, by decide⟩

/-- C16 (amended): in every run of `main` with `repeats ≥ 1`, every call of
`calculateStatistics` (from `handlerProgress` and from the final summaries) is made with
`statCount ≥ 1`; the calls from `handlerProgress` have `statCount ≥ 1` in every run. -/
theorem main_statCount (c : Config) (env : Env) (a : Action) (n : Int)
    (ha : a ∈ (main c env).trace) (hn : a.statCount = some n) :
    (1 ≤ c.repeats → 1 ≤ n) ∧ ((∃ p rep, a = .step p rep .record) → 1 ≤ n) := by
  have hstep : ∀ p rep s, a = .step p rep s → 1 ≤ n := by
    intro p rep s e
    subst e
    cases s <;> simp [Action.statCount] at hn
    omega
  refine ⟨?_, fun ⟨p, rep, e⟩ => hstep p rep _ e⟩
  intro hrep
  rcases main_trace_actions c env a ha with h | ⟨p, rep, s, h⟩ | ⟨p, h⟩ | h
  · subst h; simp [Action.statCount] at hn
  · exact hstep p rep s h
  · subst h
    simp only [Action.statCount, Option.some.injEq] at hn
    omega
  · subst h; simp [Action.statCount] at hn

/-- Witness of C16 (amended): two repeats, nothing fails; the final write summary is
called with `statCount = 2`. -/
theorem main_statCount_witness :
    Action.summary .write 2 ∈ (main { defaultConfig with repeats := 2 } quietEnv).trace ∧
    (1 : Int) ≤ 2 :=
  ⟨by decide,
    (main_statCount { defaultConfig with repeats := 2 } quietEnv (.summary .write 2) 2
      (by decide) rfl).1 (by decide)⟩

/-- C17 (the code at the failing input): with the default configuration, a successful
parse and the answer `y`, a failure of `munmap` in the first write repeat makes `main`
return 1, the value it also returns for parse and validation errors; the step is the
last action of the run. -/
theorem main_munmap_failure :
    defaultConfig.repeats = 5 ∧ checkParameters defaultConfig = none ∧
    Step.returns .munmap = some 1 ∧
    (main defaultConfig
      { quietEnv with fails := fun p r s => decide (p = .write ∧ r = 0 ∧ s = .munmap) }
      ).exitCode = 1 ∧
    (main defaultConfig
      { quietEnv with fails := fun p r s => decide (p = .write ∧ r = 0 ∧ s = .munmap) }
      ).trace.getLast? = some (.step .write 0 .munmap) ∧
    (main defaultConfig { quietEnv with parseStatus := 1 }).exitCode = 1 := by
  refine ⟨rfl, by decide, rfl, by decide, by decide, by decide⟩

/-- C18 (counterexample): with two repeats, a failure of the deletion of the temporary
file in the first write repeat makes `main` return 3; the second write repeat, the read
cycle and the final statistics do not run. -/
theorem main_teardown_counterexample :
    (main { defaultConfig with repeats := 2 }
      { quietEnv with fails := fun p r s => decide (p = .write ∧ r = 0 ∧ s = .remove) }
      ).exitCode = 3 ∧
    (main { defaultConfig with repeats := 2 }
      { quietEnv with fails := fun p r s => decide (p = .write ∧ r = 0 ∧ s = .remove) }
      ).trace.getLast? = some (.step .write 0 .remove) ∧
    Action.step .write 1 .memalign ∉ (main { defaultConfig with repeats := 2 }
      { quietEnv with fails := fun p r s => decide (p = .write ∧ r = 0 ∧ s = .remove) }
      ).trace ∧
    Action.summary .write 2 ∉ (main { defaultConfig with repeats := 2 }
      { quietEnv with fails := fun p r s => decide (p = .write ∧ r = 0 ∧ s = .remove) }
      ).trace := by
  refine ⟨by decide, by decide, by decide, by decide⟩

/-- C18 (amended): a failure of a teardown step of a repeat (`munmap`, `close` or the
deletion of the temporary file) is fatal: it is the last action of the run, so no later
repeat and no final statistics run, and `main` returns a non-zero exit code, 3 for
`close` and for the deletion. -/
theorem main_teardown_failure (c : Config) (env : Env) (phase : Phase) (rep : Nat)
    (s : Step) (hs : s = .munmap ∨ s = .close ∨ s = .remove)
    (hmem : Action.step phase rep s ∈ (main c env).trace)
    (hf : env.fails phase rep s = true) :
    (main c env).exitCode ≠ 0 ∧
    (s = .close ∨ s = .remove → (main c env).exitCode = 3) ∧
    (main c env).trace.getLast? = some (.step phase rep s) := by
  rcases hs with h | h | h
  · subst h
    obtain ⟨e1, e2⟩ := main_failed_step c env phase rep .munmap 1 hmem rfl hf
    refine ⟨by rw [e1]; decide, ?_, e2⟩
    rintro (h | h) <;> cases h
  · subst h
    obtain ⟨e1, e2⟩ := main_failed_step c env phase rep .close 3 hmem rfl hf
    exact ⟨by rw [e1]; decide, fun _ => e1, e2⟩
  · subst h
    obtain ⟨e1, e2⟩ := main_failed_step c env phase rep .remove 3 hmem rfl hf
    exact ⟨by rw [e1]; decide, fun _ => e1, e2⟩

/-- Witness of C18 (amended): `close` fails in the first read repeat of a run with one
repeat. -/
theorem main_teardown_failure_witness :
    (main { defaultConfig with repeats := 1 }
      { quietEnv with fails := fun p r s => decide (p = .read ∧ r = 0 ∧ s = .close) }
      ).exitCode = 3 ∧
    (main { defaultConfig with repeats := 1 }
      { quietEnv with fails := fun p r s => decide (p = .read ∧ r = 0 ∧ s = .close) }
      ).trace.getLast? = some (.step .read 0 .close) := by
  have h := main_teardown_failure { defaultConfig with repeats := 1 }
    { quietEnv with fails := fun p r s => decide (p = .read ∧ r = 0 ∧ s = .close) }
    .read 0 .close (Or.inr (Or.inl rfl)) (by decide) (by decide)
  exact ⟨h.2.1 (Or.inl rfl), h.2.2⟩

theorem checkParameters_eq_none_iff (c : Config) :
    checkParameters c = none ↔
      (4096 ≤ c.fileSize ∧ c.fileSize ≤ 1610612736 ∧ (c.wsyncMode = 0 ∨ c.wsyncMode = 1) ∧
        0 ≤ c.writeDelay ∧ c.writeDelay ≤ 100000 ∧ 0 ≤ c.readDelay ∧
        c.readDelay ≤ 100000 ∧ 0 ≤ c.repeats ∧ c.repeats ≤ 100) := by
  have h1 : FILE_SIZE_MIN = 4096 := rfl
  have h2 : FILE_SIZE_MAX = 1610612736 := by decide
  have h3 : ((REPEATS_MAX : Nat) : Int) = 100 := by decide
  simp only [checkParameters, h1, h2, h3, WSYNC_NO, WSYNC_YES, DELAY_MIN, DELAY_MAX,
    REPEATS_MIN, Bool.or_eq_true, Bool.and_eq_true, decide_eq_true_eq]
  constructor
  · intro h
    split_ifs at h with a1 a2 a3 a4 a5
    refine ⟨by omega, by omega, by omega, by omega, by omega, by omega, by omega, by omega,
      by omega⟩
  · rintro ⟨b1, b2, b3, b4, b5, b6, b7, b8, b9⟩
    rw [if_neg (by omega), if_neg (by omega), if_neg (by omega), if_neg (by omega),
      if_neg (by omega)]

/-- C19: after a successful parse, `main` gets past the parameter validation (reaches
the start prompt) if and only if 4096 ≤ fileSize ≤ 1,610,612,736, wsyncMode is 0 or 1,
0 ≤ writeDelay ≤ 100000, 0 ≤ readDelay ≤ 100000 and 0 ≤ repeats ≤ 100; otherwise it
returns 1 without having performed any action (no file created or opened). -/
theorem main_validation (c : Config) (env : Env) (hparse : env.parseStatus = 0) :
    (Action.prompt ∈ (main c env).trace ↔
      (4096 ≤ c.fileSize ∧ c.fileSize ≤ 1610612736 ∧ (c.wsyncMode = 0 ∨ c.wsyncMode = 1) ∧
        0 ≤ c.writeDelay ∧ c.writeDelay ≤ 100000 ∧ 0 ≤ c.readDelay ∧
        c.readDelay ≤ 100000 ∧ 0 ≤ c.repeats ∧ c.repeats ≤ 100)) ∧
    (¬ (4096 ≤ c.fileSize ∧ c.fileSize ≤ 1610612736 ∧ (c.wsyncMode = 0 ∨ c.wsyncMode = 1) ∧
        0 ≤ c.writeDelay ∧ c.writeDelay ≤ 100000 ∧ 0 ≤ c.readDelay ∧
        c.readDelay ≤ 100000 ∧ 0 ≤ c.repeats ∧ c.repeats ≤ 100) →
      main c env = ⟨[], 1⟩) := by
  rw [← checkParameters_eq_none_iff]
  cases hv : checkParameters c with
  | some b =>
    have hm : main c env = ⟨[], 1⟩ := by simp [main, hparse, hv]
    rw [hm]
    simp
  | none =>
    refine ⟨?_, fun h => absurd rfl h⟩
    refine ⟨fun _ => rfl, fun _ => ?_⟩
    simp only [main, hparse, hv]
    by_cases hk : tolower env.key ≠ 121
    · simp [hk]
    · simp only [ne_eq, not_true_eq_false, if_false, hk]
      cases (runPhase env c.wsyncMode .write 0 c.repeats.toNat).2 with
      | some cw => simp
      | none =>
        cases (runPhase env c.wsyncMode .read 0 c.repeats.toNat).2 with
        | some cr => simp
        | none => simp

/-- Witness of C19: the default configuration passes; a file size of 4095 bytes does
not. -/
theorem main_validation_witness :
    Action.prompt ∈ (main defaultConfig quietEnv).trace ∧
    main { defaultConfig with fileSize := 4095 } quietEnv = ⟨[], 1⟩ :=
  ⟨(main_validation defaultConfig quietEnv rfl).1.mpr (by decide),
    (main_validation { defaultConfig with fileSize := 4095 } quietEnv rfl).2 (by decide)⟩

end MapFile

namespace BlockBench

/-- C20 (counterexample): the parameters `start` = 2 MiB, `stop` = 1 MiB, `block` = 4096
(the others at the only accepted values) pass the validation although `start > stop`. -/
theorem checkParams_counterexample :
    checkParams ⟨0, 0, 0, 1, 2097152, 1048576, 4096, 512, 1, 1, 0, 0⟩ = true ∧
    (⟨0, 0, 0, 1, 2097152, 1048576, 4096, 512, 1, 1, 0, 0⟩ : Params).stop <
      (⟨0, 0, 0, 1, 2097152, 1048576, 4096, 512, 1, 1, 0, 0⟩ : Params).start := by
  refine ⟨by decide, by decide⟩

/-- C20 (amended): every configuration that passes the start-parameter validation of
blockbench.c has `block ≥ 4096`, and `start`, `stop` and `block` at most 10 GiB, when
the benchmark loop begins; the order of `start` and `stop` is not checked. -/
theorem checkParams_bounds (p : Params) (h : checkParams p = true) :
    4096 ≤ p.block ∧ p.block ≤ 10737418240 ∧ p.start ≤ 10737418240 ∧
    p.stop ≤ 10737418240 := by
  have h1 : limitmax = 10737418240 := by decide
  have h2 : limblk = 4096 := rfl
  unfold checkParams at h
  by_cases a5 : (decide (p.start > limitmax) || decide (p.stop > limitmax) ||
      decide (p.block > limitmax) || decide (p.start < limitmin) ||
      decide (p.stop < limitmin) || decide (p.block < limblk)) = true
  · rw [if_pos a5] at h
    simp at h
  · simp only [Bool.or_eq_true, decide_eq_true_eq, not_or, not_lt, h1, h2] at a5
    omega

/-- Witness of C20 (amended): the default range with a request size of 2560 sectors. -/
theorem checkParams_bounds_witness :
    checkParams ⟨0, 0, 0, 1, 0, 11534336, 1310720, 512, 1, 1, 0, 0⟩ = true ∧
    4096 ≤ (⟨0, 0, 0, 1, 0, 11534336, 1310720, 512, 1, 1, 0, 0⟩ : Params).block :=
  ⟨by decide,
    (checkParams_bounds ⟨0, 0, 0, 1, 0, 11534336, 1310720, 512, 1, 1, 0, 0⟩ (by decide)).1⟩

end BlockBench

namespace FileBench

open MapFile (Timespec doubleDiv)
open Timers

/-! ## Which clocks the results depend on -/

/-- C22: in `benchmarksCalculation`, `timeRatio` is the `double` quotient of the elapsed
time of clock 2 (process CPU time) by the elapsed time of clock 0 (realtime), and two
calls whose samples agree on clocks 0 and 2 give the same results (`mbps`, `timeTotal`,
`timeUtilized`, `timeRatio`), whatever the samples of clocks 1 and 3 and the previous
values of the reference parameters; the same holds for the rate and utilization of
blockbench.c. -/
theorem benchmarksCalculation_two_clocks (x : Nat) (r r' : Results)
    (ts1 ts2 ts1' ts2' : Nat → Timespec)
    (h10 : ts1 0 = ts1' 0) (h12 : ts1 2 = ts1' 2) (h20 : ts2 0 = ts2' 0)
    (h22 : ts2 2 = ts2' 2) :
    (benchmarksCalculation x r ts1 ts2).timeRatio =
      doubleDiv (clockSeconds ts1 ts2 2) (clockSeconds ts1 ts2 0) ∧
    (benchmarksCalculation x r ts1 ts2).timeUtilized = clockSeconds ts1 ts2 2 ∧
    (benchmarksCalculation x r ts1 ts2).timeTotal = clockSeconds ts1 ts2 0 ∧
    (benchmarksCalculation x r ts1 ts2).mbps = (benchmarksCalculation x r' ts1' ts2').mbps ∧
    (benchmarksCalculation x r ts1 ts2).timeTotal =
      (benchmarksCalculation x r' ts1' ts2').timeTotal ∧
    (benchmarksCalculation x r ts1 ts2).timeUtilized =
      (benchmarksCalculation x r' ts1' ts2').timeUtilized ∧
    (benchmarksCalculation x r ts1 ts2).timeRatio =
      (benchmarksCalculation x r' ts1' ts2').timeRatio ∧
    BlockBench.lineRates x ts1 ts2 = BlockBench.lineRates x ts1' ts2' := by
  have e0 : clockSeconds ts1 ts2 0 = clockSeconds ts1' ts2' 0 := by
    simp only [clockSeconds, h10, h20]
  have e2 : clockSeconds ts1 ts2 2 = clockSeconds ts1' ts2' 2 := by
    simp only [clockSeconds, h12, h22]
  rw [benchmarksCalculation_eq, benchmarksCalculation_eq]
  refine ⟨rfl, rfl, rfl, ?_, e0, e2, ?_, ?_⟩
  · simp only [e0]
  · simp only [e0, e2]
  · simp only [BlockBench.lineRates, e0, e2]

/-- Witness of C22: two calls that differ in the samples of clocks 1 and 3 only. -/
theorem benchmarksCalculation_two_clocks_witness :
    (benchmarksCalculation 1000000 ⟨0, some 0, 0, 0, some 0⟩
      (fun i => if i = 1 then ⟨3, 0⟩ else ⟨5, 0⟩)
      (fun i => if i = 3 then ⟨9, 0⟩ else ⟨6, 0⟩)).timeRatio =
    (benchmarksCalculation 1000000 ⟨0, some 0, 0, 0, some 0⟩
      (fun _ => ⟨5, 0⟩) (fun _ => ⟨6, 0⟩)).timeRatio :=
  (benchmarksCalculation_two_clocks 1000000 ⟨0, some 0, 0, 0, some 0⟩
    ⟨0, some 0, 0, 0, some 0⟩ (fun i => if i = 1 then ⟨3, 0⟩ else ⟨5, 0⟩)
    (fun i => if i = 3 then ⟨9, 0⟩ else ⟨6, 0⟩) (fun _ => ⟨5, 0⟩) (fun _ => ⟨6, 0⟩)
    (by simp) (by simp) (by simp) (by simp)).2.2.2.2.2.2.1

end FileBench

namespace MapFile

/-! ## The array after `calculateStatistics` -/

/-- C26: for every array holding at least `n ≥ 1` entries, `calculateStatistics` returns
and leaves the first `n` entries in ascending order and a permutation of what they
were, and every entry at an index `≥ n` as it was. -/
theorem calculateStatistics_array (a : List ℚ) (n fuel : Nat) (h1 : 1 ≤ n)
    (hn : n ≤ a.length) (hf : n * n < fuel) :
    ∃ a' r, calculateStatistics fuel a n = some (a', r) ∧
      List.Sorted (· ≤ ·) (a'.take n) ∧ (a'.take n).Perm (a.take n) ∧
      a'.length = a.length ∧ ∀ i, n ≤ i → a'[i]? = a[i]? := by
  have _ := h1
  obtain ⟨a', e, p, s, d, l⟩ := calculateStatistics_spec a n fuel hn hf
  refine ⟨a', _, e, s, p, l, ?_⟩
  intro i hi
  have h := congrArg (fun t : List ℚ => t[i - n]?) d
  simp only [List.getElem?_drop] at h
  rwa [Nat.add_sub_cancel' hi] at h

/-- Witness of C26 on the array `3, 1, 2, 9` with `n = 3`. -/
theorem calculateStatistics_array_witness :
    ∃ a' r, calculateStatistics 10 [3, 1, 2, 9] 3 = some (a', r) ∧
      List.Sorted (· ≤ ·) (a'.take 3) ∧ (a'.take 3).Perm (List.take 3 [3, 1, 2, 9]) ∧
      a'.length = ([3, 1, 2, 9] : List ℚ).length ∧
      ∀ i, 3 ≤ i → a'[i]? = ([3, 1, 2, 9] : List ℚ)[i]? :=
  calculateStatistics_array [3, 1, 2, 9] 3 10 (by decide) (by decide) (by decide)

/-- C27: for every array holding at least `n ≥ 0` entries, the exchange loop of
`calculateStatistics` terminates: it returns for every fuel above the number of
inversions of the first `n` entries (at most `n * n`), because a pass never adds
inversions and a pass that sets the flag removes at least one. -/
theorem orderingLoop_terminates (a : List ℚ) (n : Nat) (hn : n ≤ a.length) :
    (∀ fuel, inversions (a.take n) < fuel → ∃ a', orderingLoop n fuel a = some a') ∧
    inversions (a.take n) ≤ n * n ∧
    inversions ((orderingPass n a).1.take n) ≤ inversions (a.take n) ∧
    ((orderingPass n a).2 = true →
      inversions ((orderingPass n a).1.take n) < inversions (a.take n)) := by
  obtain ⟨-, -, -, -, hi⟩ := orderingPass_spec a n hn
  refine ⟨?_, ?_, ?_, ?_⟩
  · intro fuel hf
    obtain ⟨a', e, -⟩ := orderingLoop_spec n fuel a hn hf
    exact ⟨a', e⟩
  · have h := inversions_le (a.take n)
    rw [List.length_take, Nat.min_eq_left hn] at h
    exact h
  · omega
  · intro hflag
    simp only [hflag, if_true] at hi
    omega

/-- Witness of C27 on the array `3, 2, 1` (three inversions). -/
theorem orderingLoop_terminates_witness :
    ∃ a', orderingLoop 3 (inversions (List.take 3 [3, 2, 1]) + 1) [3, 2, 1] = some a' :=
  (orderingLoop_terminates [3, 2, 1] 3 (by decide)).1 _ (Nat.lt_succ_self _)

/-! ## The order of the log -/

/-- After `k` repeats the first `k` log entries are the ascending permutation of the
`k` rates recorded so far. -/
theorem phaseLoop_sorted (fuel : Nat) (mbps : Nat → ℚ) (st : List ℚ × Statistics)
    (k : Nat) (hk : k ≤ st.1.length) (hf : k * k < fuel) :
    ∃ log res, phaseLoop fuel mbps k st = some (log, res) ∧ log.length = st.1.length ∧
      (log.take k).Perm ((List.range k).map mbps) ∧ List.Sorted (· ≤ ·) (log.take k) := by
  cases k with
  | zero => exact ⟨st.1, st.2, rfl, rfl, by simp, by simp⟩
  | succ k =>
    obtain ⟨log, res, e, hl, hp⟩ := phaseLoop_spec fuel mbps st k (by omega) (by nlinarith)
    have hkl : k < log.length := by omega
    obtain ⟨a', e', p', s', -, l'⟩ :=
      calculateStatistics_spec (log.set k (mbps k)) (k + 1) fuel (by simp; omega) hf
    have e2 : phaseLoop fuel mbps (k + 1) st =
        calculateStatistics fuel (log.set k (mbps k)) (k + 1) := by
      simp only [phaseLoop, e, handlerProgress]
    rw [e'] at e2
    refine ⟨a', _, e2, ?_, ?_, s'⟩
    · rw [l', List.length_set, hl]
    · rw [take_succ_set log k (mbps k) hkl] at p'
      rw [List.range_succ, List.map_append]
      exact p'.trans (hp.append_right _)

/-- C25 (counterexample): with the rates 3 (repeat 0) and 1 (repeat 1), after the two
repeats entry 0 of the log is 1 and entry 1 is 3: entry 0 is not the rate of
repeat 0. -/
theorem phaseLoop_order_counterexample :
    ∃ log res, phaseLoop 5 (fun i => if i = 0 then 3 else 1) 2
        (List.replicate REPEATS_MAX 0, ⟨0, 0, 0, 0⟩) = some (log, res) ∧
      rd log 0 = 1 ∧ rd log 1 = 3 ∧ (fun i => if i = 0 then (3 : ℚ) else 1) 0 = 3 := by
  refine ⟨1 :: 3 :: List.replicate 98 0, ⟨2, 2, 1, 3⟩, ?_, by simp [rd], by simp [rd],
    by simp⟩
  norm_num [phaseLoop, handlerProgress, calculateStatistics, orderingLoop, orderingPass,
    orderingPassFrom, exchange, rd, scanLoop, scanStep, medianOf, List.range,
    List.range.loop, REPEATS_MAX, List.replicate]

/-- C25 (amended): after `k` completed repeats of a phase the first `k` entries of the
phase's log hold the `k` measured rates in ascending order: they are the sorted
permutation of the rates of repeats `0 .. k-1`, the in-place ordering of
`calculateStatistics` having replaced the repeat order. -/
theorem phaseLoop_log (fuel : Nat) (mbps : Nat → ℚ) (k : Nat) (hk : k ≤ REPEATS_MAX)
    (hf : k * k < fuel) :
    ∃ log res, phaseLoop fuel mbps k (List.replicate REPEATS_MAX 0, ⟨0, 0, 0, 0⟩) =
        some (log, res) ∧
      log.length = REPEATS_MAX ∧ (log.take k).Perm ((List.range k).map mbps) ∧
      List.Sorted (· ≤ ·) (log.take k) ∧
      log.take k = ((List.range k).map mbps).insertionSort (· ≤ ·) := by
  obtain ⟨log, res, e, l, p, s⟩ :=
    phaseLoop_sorted fuel mbps (List.replicate REPEATS_MAX 0, ⟨0, 0, 0, 0⟩) k
      (by simpa using hk) hf
  refine ⟨log, res, e, by simpa using l, p, s, ?_⟩
  exact List.eq_of_perm_of_sorted (p.trans (List.perm_insertionSort _ _).symm) s
    (List.sorted_insertionSort _ _)

/-- Witness of C25 (amended): three repeats with the rates 3, 1, 2. -/
theorem phaseLoop_log_witness :
    ∃ log res, phaseLoop 10 (fun i => if i = 0 then 3 else if i = 1 then 1 else 2) 3
        (List.replicate REPEATS_MAX 0, ⟨0, 0, 0, 0⟩) = some (log, res) ∧
      log.take 3 = [1, 2, 3] := by
  obtain ⟨log, res, e, -, -, -, h⟩ :=
    phaseLoop_log 10 (fun i => if i = 0 then 3 else if i = 1 then 1 else 2) 3
      (by decide) (by decide)
  refine ⟨log, res, e, ?_⟩
  rw [h]
  norm_num [List.range, List.range.loop, List.insertionSort, List.orderedInsert]

end MapFile

namespace MapFile

/-! ## The page walk -/

/-- The walk started at the multiple `j * 4096` touches the multiples of 4096 from there
up to the last one below `mapLength`. -/
theorem walkLoop_spec (mapLength : Nat) : ∀ (fuel j : Nat),
    (mapLength + 4095) / 4096 - j < fuel →
    walkLoop mapLength 4096 fuel (j * 4096) =
      some ((List.range' j ((mapLength + 4095) / 4096 - j)).map (fun k => k * 4096)) := by
  intro fuel
  induction fuel with
  | zero => intro j h; omega
  | succ fuel ih =>
    intro j h
    by_cases hlt : j * 4096 < mapLength
    · have hj : j < (mapLength + 4095) / 4096 := by omega
      have hstep : j * 4096 + 4096 = (j + 1) * 4096 := by ring
      have hlen : (mapLength + 4095) / 4096 - j =
          ((mapLength + 4095) / 4096 - (j + 1)) + 1 := by omega
      simp only [walkLoop, hlt, if_true, hstep]
      rw [ih (j + 1) (by omega), hlen, List.range'_succ]
      simp
    · have hj : (mapLength + 4095) / 4096 - j = 0 := by omega
      simp [walkLoop, hlt, hj]

/-- C23: for every mapped length `L` with 4096 ≤ L ≤ 1,610,612,736 the page walk
terminates (for every fuel above the number of pages) and touches exactly the offsets
`k * 4096` for `0 ≤ k < ceil(L / 4096)`, once each and in increasing order; every
touched offset is below `L`. -/
theorem pageWalk_offsets (L fuel : Nat) (hmin : 4096 ≤ L) (hmax : L ≤ 1610612736)
    (hfuel : (L + 4095) / 4096 < fuel) :
    pageWalk L fuel = some ((List.range ((L + 4095) / 4096)).map (fun k => k * 4096)) ∧
    (L + 4095) / 4096 = ⌈(L : ℚ) / 4096⌉₊ ∧
    (∀ o ∈ (List.range ((L + 4095) / 4096)).map (fun k => k * 4096), o < L) ∧
    List.Sorted (· < ·) ((List.range ((L + 4095) / 4096)).map (fun k => k * 4096)) := by
  have _ := hmax
  refine ⟨?_, ?_, ?_, ?_⟩
  · have h := walkLoop_spec L fuel 0 (by omega)
    simp only [Nat.zero_mul, Nat.sub_zero] at h
    rw [pageWalk, PAGE_WALK_STEP, h, List.range_eq_range']
  · symm
    have hk : (L + 4095) / 4096 ≠ 0 := by omega
    rw [Nat.ceil_eq_iff hk]
    constructor
    · rw [lt_div_iff₀ (by norm_num)]
      have h : ((L + 4095) / 4096 - 1) * 4096 < L := by omega
      exact_mod_cast h
    · rw [div_le_iff₀ (by norm_num)]
      have h : L ≤ (L + 4095) / 4096 * 4096 := by omega
      exact_mod_cast h
  · intro o ho
    obtain ⟨k, hk, rfl⟩ := List.mem_map.mp ho
    have := List.mem_range.mp hk
    omega
  · rw [List.Sorted, List.pairwise_map]
    exact (List.pairwise_lt_range _).imp (fun h => by omega)

/-- Witness of C23: a mapping of 10,000 bytes is touched at offsets 0, 4096, 8192. -/
theorem pageWalk_offsets_witness :
    pageWalk 10000 4 = some [0, 4096, 8192] := by
  have h := (pageWalk_offsets 10000 4 (by decide) (by decide) (by decide)).1
  rw [h]
  decide

end MapFile

namespace BlockBench

/-! ## The zone loop -/

/-- The zone loop from `varOffset` with `statCount` samples recorded records one sample
per line of at most 100 MiB up to `stop`. -/
theorem zoneLoop_spec (stop : Nat) : ∀ (fuel varOffset statCount : Nat),
    (stop - varOffset + 104857599) / 104857600 < fuel →
    zoneLoop stop fuel varOffset statCount =
      some (List.range' statCount ((stop - varOffset + 104857599) / 104857600),
        statCount + (stop - varOffset + 104857599) / 104857600) := by
  intro fuel
  induction fuel with
  | zero => intro o c h; omega
  | succ fuel ih =>
    intro o c h
    have hls : lineSize stop o = if 104857600 > stop - o then stop - o else 104857600 := by
      simp [lineSize, OPERATION_PER_LINE]
    by_cases hlt : o < stop
    · simp only [zoneLoop, hlt, if_true]
      have hm : (stop - o + 104857599) / 104857600 =
          (stop - (o + lineSize stop o) + 104857599) / 104857600 + 1 := by
        rw [hls]; split_ifs <;> omega
      rw [ih (o + lineSize stop o) (c + 1) (by omega), hm, List.range'_succ]
      simp only [Option.some.injEq, Prod.mk.injEq, true_and]
      omega
    · have hz : (stop - o + 104857599) / 104857600 = 0 := by omega
      simp [zoneLoop, hlt, hz]

/-- C28: for `start` and `stop` at most 10 GiB (as the validation requires) and every
read loop finishing, the zone loop ends with `statCount` equal to
`ceil((stop - start) / 104857600)` when `start < stop` (and 0 otherwise), which is at
most 103; the indices written in `statArray` are `0 .. statCount - 1`, all inside the
100000-entry array. -/
theorem zones_statCount (start stop fuel : Nat) (hstart : start ≤ limitmax)
    (hstop : stop ≤ limitmax) (hfuel : 103 < fuel) :
    zones start stop fuel =
      some (List.range ((stop - start + 104857599) / 104857600),
        (stop - start + 104857599) / 104857600) ∧
    (start < stop →
      (stop - start + 104857599) / 104857600 = ⌈((stop - start : Nat) : ℚ) / 104857600⌉₊) ∧
    (stop - start + 104857599) / 104857600 ≤ 103 ∧
    ∀ i ∈ List.range ((stop - start + 104857599) / 104857600), i < STAT_ARRAY_SIZE := by
  have _ := hstart
  have hl : limitmax = 10737418240 := by decide
  rw [hl] at hstop
  have hc : (stop - start + 104857599) / 104857600 ≤ 103 := by omega
  refine ⟨?_, ?_, hc, ?_⟩
  · have h := zoneLoop_spec stop fuel start 0 (by omega)
    rw [zones, h, List.range_eq_range']
    simp
  · intro hlt
    symm
    have hk : (stop - start + 104857599) / 104857600 ≠ 0 := by omega
    rw [Nat.ceil_eq_iff hk]
    constructor
    · rw [lt_div_iff₀ (by norm_num)]
      have h : ((stop - start + 104857599) / 104857600 - 1) * 104857600 < stop - start := by
        omega
      exact_mod_cast h
    · rw [div_le_iff₀ (by norm_num)]
      have h : stop - start ≤ (stop - start + 104857599) / 104857600 * 104857600 := by
        omega
      exact_mod_cast h
  · intro i hi
    have := List.mem_range.mp hi
    have hs : STAT_ARRAY_SIZE = 100000 := rfl
    omega

/-- Witness of C28: the whole range 0 to 10 GiB gives 103 samples. -/
theorem zones_statCount_witness :
    zones 0 10737418240 104 = some (List.range 103, 103) := by
  have h := (zones_statCount 0 10737418240 104 (by decide) (by decide) (by decide)).1
  rw [h]

end BlockBench

namespace MapFile

/-! ## The place of `fsync` in a run -/

theorem prefix_past {α : Type} (T X Y : List α) (a : α) (hT : T <+: X ++ a :: Y)
    (ha : a ∈ T) (hX : a ∉ X) : X ++ [a] <+: T := by
  have hXp : X <+: X ++ a :: Y := List.prefix_append _ _
  have hXa : X ++ [a] <+: X ++ a :: Y := ⟨Y, by simp⟩
  have hlen : X.length < T.length := by
    by_contra hcon
    have hTX : T <+: X := List.prefix_of_prefix_length_le hT hXp (by omega)
    exact hX (hTX.subset ha)
  exact List.prefix_of_prefix_length_le hXa hT (by simp; omega)

theorem infix_of_prefix_append {α : Type} (A W T : List α) (h : A ++ W <+: T) :
    W <:+: T := by
  obtain ⟨t, ht⟩ := h
  exact ⟨A, t, by rw [← ht]⟩

/-- The actions of one repeat are an initial part of its steps, in program order. -/
theorem runSteps_prefix (env : Env) (phase : Phase) (rep : Nat) : ∀ L : List Step,
    (runSteps env phase rep L).1 <+: L.map (Action.step phase rep) := by
  intro L
  induction L with
  | nil => simp [runSteps]
  | cons s rest ih =>
    cases hr : s.returns with
    | none =>
      simp only [runSteps, hr, List.map_cons]
      exact (List.prefix_cons_inj _).mpr ih
    | some c =>
      by_cases hf : env.fails phase rep s = true
      · simp only [runSteps, hr, hf, if_true, List.map_cons]
        exact ⟨rest.map (Action.step phase rep), rfl⟩
      · have hf' : env.fails phase rep s = false := by simpa using hf
        simp only [runSteps, hr, hf', List.map_cons]
        exact (List.prefix_cons_inj _).mpr ih

/-- A repeat either performs all its steps or ends with a step that has a failure
branch. -/
theorem runSteps_last (env : Env) (phase : Phase) (rep : Nat) : ∀ L : List Step,
    (runSteps env phase rep L).1 = L.map (Action.step phase rep) ∨
    ∃ s c, (runSteps env phase rep L).1.getLast? = some (.step phase rep s) ∧
      s.returns = some c := by
  intro L
  induction L with
  | nil => left; simp [runSteps]
  | cons s rest ih =>
    cases hr : s.returns with
    | none =>
      simp only [runSteps, hr, List.map_cons]
      rcases ih with h | ⟨s', c, h1, h2⟩
      · left; rw [h]
      · right; exact ⟨s', c, getLast?_cons_of_some _ _ _ h1, h2⟩
    | some c =>
      by_cases hf : env.fails phase rep s = true
      · simp only [runSteps, hr, hf, if_true]
        right; exact ⟨s, c, rfl, hr⟩
      · have hf' : env.fails phase rep s = false := by simpa using hf
        simp only [runSteps, hr, hf', Bool.false_eq_true, if_false, List.map_cons]
        rcases ih with h | ⟨s', c', h1, h2⟩
        · left; rw [h]
        · right; exact ⟨s', c', getLast?_cons_of_some _ _ _ h1, h2⟩

/-- The actions of a repeat that appears in a cycle are a contiguous part of the
actions of the cycle. -/
theorem runPhase_infix (env : Env) (wsyncMode : Int) (phase : Phase) :
    ∀ (count rep0 rep : Nat) (s : Step),
    Action.step phase rep s ∈ (runPhase env wsyncMode phase rep0 count).1 →
    Action.step phase rep s ∈ (runSteps env phase rep (repeatSteps phase wsyncMode)).1 ∧
    (runSteps env phase rep (repeatSteps phase wsyncMode)).1 <:+:
      (runPhase env wsyncMode phase rep0 count).1 := by
  intro count
  induction count with
  | zero => intro rep0 rep s h; simp [runPhase] at h
  | succ count ih =>
    intro rep0 rep s h
    obtain ⟨s1, -, -⟩ := runSteps_spec env phase rep0 (repeatSteps phase wsyncMode)
    cases hr : (runSteps env phase rep0 (repeatSteps phase wsyncMode)).2 with
    | some c =>
      simp only [runPhase, hr] at h ⊢
      obtain ⟨s', e, -⟩ := s1 _ h
      injection e with _ e2 e3
      subst e2
      exact ⟨h, List.infix_refl _⟩
    | none =>
      simp only [runPhase, hr] at h ⊢
      rcases List.mem_append.mp h with h | h
      · obtain ⟨s', e, -⟩ := s1 _ h
        injection e with _ e2 e3
        subst e2
        exact ⟨h, (List.prefix_append _ _).isInfix⟩
      · obtain ⟨q1, ⟨a, b, q2⟩⟩ := ih (rep0 + 1) rep s h
        refine ⟨q1, ⟨(runSteps env phase rep0 (repeatSteps phase wsyncMode)).1 ++ a, b, ?_⟩⟩
        rw [← q2]
        simp [List.append_assoc]

/-- The actions of a repeat that appears in a run of `main` are a contiguous part of
the run. -/
theorem main_infix (c : Config) (env : Env) (phase : Phase) (rep : Nat) (s : Step)
    (hmem : Action.step phase rep s ∈ (main c env).trace) :
    Action.step phase rep s ∈ (runSteps env phase rep (repeatSteps phase c.wsyncMode)).1 ∧
    (runSteps env phase rep (repeatSteps phase c.wsyncMode)).1 <:+: (main c env).trace := by
  have hw := (runPhase_spec env c.wsyncMode .write c.repeats.toNat 0).1
  have hr := (runPhase_spec env c.wsyncMode .read c.repeats.toNat 0).1
  have key : ∀ (pre post : List Action) (p : Phase),
      Action.step phase rep s ∈ (runPhase env c.wsyncMode p 0 c.repeats.toNat).1 →
      (∀ a ∈ (runPhase env c.wsyncMode p 0 c.repeats.toNat).1, ∃ rep s, a = .step p rep s) →
      Action.step phase rep s ∈
        (runSteps env phase rep (repeatSteps phase c.wsyncMode)).1 ∧
      (runSteps env phase rep (repeatSteps phase c.wsyncMode)).1 <:+:
        pre ++ (runPhase env c.wsyncMode p 0 c.repeats.toNat).1 ++ post := by
    intro pre post p h hall
    obtain ⟨rep1, st1, e⟩ := hall _ h
    injection e with e1 e2 e3
    subst e1
    obtain ⟨q1, ⟨a, b, q2⟩⟩ := runPhase_infix env c.wsyncMode phase c.repeats.toNat 0 rep s h
    refine ⟨q1, ⟨pre ++ a, b ++ post, ?_⟩⟩
    rw [← q2]
    simp [List.append_assoc]
  unfold main at hmem ⊢
  by_cases hp : env.parseStatus ≠ 0
  · simp [hp] at hmem
  · simp only [hp, if_false] at hmem ⊢
    cases hv : checkParameters c with
    | some b => simp [hv] at hmem
    | none =>
      simp only [hv] at hmem ⊢
      by_cases hk : tolower env.key ≠ 121
      · simp [hk] at hmem
      · simp only [hk, if_false] at hmem ⊢
        cases hw2 : (runPhase env c.wsyncMode .write 0 c.repeats.toNat).2 with
        | some cw =>
          simp only [hw2] at hmem ⊢
          rcases List.mem_cons.mp hmem with h | h
          · cases h
          · have := key [.prompt] [] .write h hw
            simpa using this
        | none =>
          simp only [hw2] at hmem ⊢
          cases hr2 : (runPhase env c.wsyncMode .read 0 c.repeats.toNat).2 with
          | some cr =>
            simp only [hr2] at hmem ⊢
            rcases List.mem_cons.mp hmem with h | h
            · cases h
            · rcases List.mem_append.mp h with h | h
              · have := key [.prompt]
                  (runPhase env c.wsyncMode .read 0 c.repeats.toNat).1 .write h hw
                simpa using this
              · have := key
                  (.prompt :: (runPhase env c.wsyncMode .write 0 c.repeats.toNat).1) []
                  .read h hr
                simpa using this
          | none =>
            simp only [hr2] at hmem ⊢
            rcases List.mem_cons.mp hmem with h | h
            · cases h
            · rcases List.mem_append.mp h with h | h
              · rcases List.mem_append.mp h with h | h
                · have := key [.prompt]
                    ((runPhase env c.wsyncMode .read 0 c.repeats.toNat).1 ++
                      [.summary .write c.repeats, .summary .read c.repeats,
                        .resourceStatistics]) .write h hw
                  simpa [List.append_assoc] using this
                · have := key
                    (.prompt :: (runPhase env c.wsyncMode .write 0 c.repeats.toNat).1)
                    [.summary .write c.repeats, .summary .read c.repeats,
                      .resourceStatistics] .read h hr
                  simpa [List.append_assoc] using this
              · simp at h

end MapFile

namespace MapFile

/-- The steps of a write repeat with `wsyncMode = 1`, as actions. -/
theorem repeatSteps_write_sync (rep : Nat) :
    (repeatSteps .write 1).map (Action.step .write rep) =
      [.step .write rep .memalign, .step .write rep .create, .step .write rep .fill,
        .step .write rep .closeFilled, .step .write rep .openFile, .step .write rep .mmap,
        .step .write rep .usleep] ++
      [.step .write rep .clockStart, .step .write rep .pageWalk] ++
      .step .write rep .fsync ::
      .step .write rep .clockStop ::
      [.step .write rep .record, .step .write rep .munmap, .step .write rep .close,
        .step .write rep .remove] := by
  simp [repeatSteps]

/-- The steps of a repeat without `fsync`, as actions. -/
theorem repeatSteps_no_sync (phase : Phase) (w : Int) (rep : Nat)
    (h : ¬ (phase = .write ∧ w = 1)) :
    (repeatSteps phase w).map (Action.step phase rep) =
      [.step phase rep .memalign, .step phase rep .create, .step phase rep .fill,
        .step phase rep .closeFilled, .step phase rep .openFile, .step phase rep .mmap,
        .step phase rep .usleep] ++
      [.step phase rep .clockStart, .step phase rep .pageWalk] ++
      .step phase rep .clockStop ::
      [.step phase rep .record, .step phase rep .munmap, .step phase rep .close,
        .step phase rep .remove] := by
  simp [repeatSteps, h]

/-- In one repeat: `fsync` is called only in the write cycle with `wsyncMode = 1`, and
then directly after the start clock sample and the page walk. -/
theorem repeat_fsync (env : Env) (phase : Phase) (w : Int) (rep : Nat)
    (h : Action.step phase rep .fsync ∈ (runSteps env phase rep (repeatSteps phase w)).1) :
    phase = .write ∧ w = 1 ∧
    [Action.step phase rep .clockStart, .step phase rep .pageWalk,
      .step phase rep .fsync] <:+: (runSteps env phase rep (repeatSteps phase w)).1 := by
  have hpre := runSteps_prefix env phase rep (repeatSteps phase w)
  by_cases hc : phase = .write ∧ w = 1
  · obtain ⟨h1, h2⟩ := hc
    subst h1; subst h2
    refine ⟨rfl, rfl, ?_⟩
    rw [repeatSteps_write_sync] at hpre
    have hp := prefix_past _ _ _ _ hpre h (by simp)
    rw [List.append_assoc] at hp
    exact infix_of_prefix_append _ _ _ hp
  · exfalso
    have hm := hpre.subset h
    rw [repeatSteps_no_sync phase w rep hc] at hm
    simp at hm

/-- In one write repeat with `wsyncMode = 1`, a page walk is followed by the call of
`fsync`. -/
theorem repeat_walk_fsync (env : Env) (rep : Nat)
    (h : Action.step .write rep .pageWalk ∈
      (runSteps env .write rep (repeatSteps .write 1)).1) :
    Action.step .write rep .fsync ∈ (runSteps env .write rep (repeatSteps .write 1)).1 := by
  have hpre := runSteps_prefix env .write rep (repeatSteps .write 1)
  rcases runSteps_last env .write rep (repeatSteps .write 1) with hall | ⟨s, c, hl, hs⟩
  · rw [hall, repeatSteps_write_sync]
    simp
  · rw [repeatSteps_write_sync] at hpre
    have hXY : [Action.step .write rep .memalign, .step .write rep .create,
          .step .write rep .fill, .step .write rep .closeFilled,
          .step .write rep .openFile, .step .write rep .mmap, .step .write rep .usleep] ++
        [.step .write rep .clockStart, .step .write rep .pageWalk] ++
        .step .write rep .fsync :: .step .write rep .clockStop ::
          [.step .write rep .record, .step .write rep .munmap, .step .write rep .close,
            .step .write rep .remove] =
        [Action.step .write rep .memalign, .step .write rep .create,
          .step .write rep .fill, .step .write rep .closeFilled,
          .step .write rep .openFile, .step .write rep .mmap, .step .write rep .usleep,
          .step .write rep .clockStart] ++
        .step .write rep .pageWalk :: [.step .write rep .fsync, .step .write rep .clockStop,
          .step .write rep .record, .step .write rep .munmap, .step .write rep .close,
          .step .write rep .remove] := by simp
    have hp := prefix_past _ _ _ _ (hXY ▸ hpre) h (by simp)
    -- the repeat did not stop at the page walk, which has no failure branch
    have hlen : 9 < (runSteps env .write rep (repeatSteps .write 1)).1.length := by
      by_contra hcon
      have h9 : (runSteps env .write rep (repeatSteps .write 1)).1.length = 9 := by
        have := hp.length_le
        simp at this
        omega
      obtain ⟨t, ht⟩ := hp
      have ht0 : t = [] := by
        have := congrArg List.length ht
        simp [h9] at this
        exact this
      rw [← ht, ht0] at hl
      simp at hl
      subst hl
      simp [Step.returns] at hs
    have hfs : ([Action.step .write rep .memalign, .step .write rep .create,
          .step .write rep .fill, .step .write rep .closeFilled,
          .step .write rep .openFile, .step .write rep .mmap, .step .write rep .usleep] ++
        [.step .write rep .clockStart, .step .write rep .pageWalk]) ++
        [.step .write rep .fsync] <+: (runSteps env .write rep (repeatSteps .write 1)).1 :=
      List.prefix_of_prefix_length_le
        ⟨[.step .write rep .clockStop, .step .write rep .record, .step .write rep .munmap,
          .step .write rep .close, .step .write rep .remove], by simp⟩ hpre
        (by simp; omega)
    exact hfs.subset (by simp)

/-- In one repeat that takes its stop clock sample: with `fsync` (write cycle,
`wsyncMode = 1`) the call lies between the page walk and the stop sample; without it the
stop sample follows the page walk directly. -/
theorem repeat_clockStop (env : Env) (phase : Phase) (w : Int) (rep : Nat)
    (h : Action.step phase rep .clockStop ∈
      (runSteps env phase rep (repeatSteps phase w)).1) :
    (phase = .write ∧ w = 1 →
      [Action.step phase rep .clockStart, .step phase rep .pageWalk,
        .step phase rep .fsync, .step phase rep .clockStop] <:+:
        (runSteps env phase rep (repeatSteps phase w)).1) ∧
    (¬ (phase = .write ∧ w = 1) →
      [Action.step phase rep .clockStart, .step phase rep .pageWalk,
        .step phase rep .clockStop] <:+:
        (runSteps env phase rep (repeatSteps phase w)).1) := by
  have hpre := runSteps_prefix env phase rep (repeatSteps phase w)
  constructor
  · rintro ⟨h1, h2⟩
    subst h1; subst h2
    rw [repeatSteps_write_sync] at hpre
    have hXY : [Action.step .write rep .memalign, .step .write rep .create,
          .step .write rep .fill, .step .write rep .closeFilled,
          .step .write rep .openFile, .step .write rep .mmap, .step .write rep .usleep] ++
        [.step .write rep .clockStart, .step .write rep .pageWalk] ++
        .step .write rep .fsync :: .step .write rep .clockStop ::
          [.step .write rep .record, .step .write rep .munmap, .step .write rep .close,
            .step .write rep .remove] =
        ([Action.step .write rep .memalign, .step .write rep .create,
          .step .write rep .fill, .step .write rep .closeFilled,
          .step .write rep .openFile, .step .write rep .mmap, .step .write rep .usleep] ++
        [.step .write rep .clockStart, .step .write rep .pageWalk,
          .step .write rep .fsync]) ++
        .step .write rep .clockStop :: [.step .write rep .record,
          .step .write rep .munmap, .step .write rep .close,
          .step .write rep .remove] := by simp
    have hp := prefix_past _ _ _ _ (hXY ▸ hpre) h (by simp)
    rw [List.append_assoc] at hp
    exact infix_of_prefix_append _ _ _ hp
  · intro hc
    rw [repeatSteps_no_sync phase w rep hc] at hpre
    have hp := prefix_past _ _ _ _ hpre h (by simp)
    rw [List.append_assoc] at hp
    exact infix_of_prefix_append _ _ _ hp

end MapFile

namespace MapFile

/-- C24: in every run of `main` and every write repeat `rep`: `fsync` is called only when
`wsyncMode = 1`, and then directly after the start clock sample and the page walk; once
the page walk of the repeat has been made, `fsync` is called if and only if
`wsyncMode = 1`; when the stop clock sample is taken, the call of `fsync` lies between
the page walk and the stop sample (for `wsyncMode = 1`) or the stop sample follows the
page walk directly (otherwise). No read repeat calls `fsync`: there the stop sample
follows the page walk directly. -/
theorem main_fsync_order (c : Config) (env : Env) (rep : Nat) :
    (∀ r, Action.step .read r .fsync ∉ (main c env).trace) ∧
    (Action.step .write rep .fsync ∈ (main c env).trace →
      c.wsyncMode = 1 ∧
      [Action.step .write rep .clockStart, .step .write rep .pageWalk,
        .step .write rep .fsync] <:+: (main c env).trace) ∧
    (Action.step .write rep .pageWalk ∈ (main c env).trace →
      (Action.step .write rep .fsync ∈ (main c env).trace ↔ c.wsyncMode = 1)) ∧
    (Action.step .write rep .clockStop ∈ (main c env).trace →
      (c.wsyncMode = 1 →
        [Action.step .write rep .clockStart, .step .write rep .pageWalk,
          .step .write rep .fsync, .step .write rep .clockStop] <:+: (main c env).trace) ∧
      (c.wsyncMode ≠ 1 →
        [Action.step .write rep .clockStart, .step .write rep .pageWalk,
          .step .write rep .clockStop] <:+: (main c env).trace)) ∧
    (∀ r, Action.step .read r .clockStop ∈ (main c env).trace →
      [Action.step .read r .clockStart, .step .read r .pageWalk,
        .step .read r .clockStop] <:+: (main c env).trace) := by
  refine ⟨?_, ?_, ?_, ?_, ?_⟩
  · intro r h
    obtain ⟨hm, -⟩ := main_infix c env .read r .fsync h
    obtain ⟨h1, -, -⟩ := repeat_fsync env .read c.wsyncMode r hm
    cases h1
  · intro h
    obtain ⟨hm, hin⟩ := main_infix c env .write rep .fsync h
    obtain ⟨-, h2, h3⟩ := repeat_fsync env .write c.wsyncMode rep hm
    exact ⟨h2, h3.trans hin⟩
  · intro h
    constructor
    · intro hf
      obtain ⟨hm, -⟩ := main_infix c env .write rep .fsync hf
      exact (repeat_fsync env .write c.wsyncMode rep hm).2.1
    · intro hw
      obtain ⟨hm, hin⟩ := main_infix c env .write rep .pageWalk h
      rw [hw] at hm hin
      exact hin.subset (repeat_walk_fsync env rep hm)
  · intro h
    obtain ⟨hm, hin⟩ := main_infix c env .write rep .clockStop h
    obtain ⟨h1, h2⟩ := repeat_clockStop env .write c.wsyncMode rep hm
    exact ⟨fun hw => (h1 ⟨rfl, hw⟩).trans hin, fun hw => (h2 (fun hc => hw hc.2)).trans hin⟩
  · intro r h
    obtain ⟨hm, hin⟩ := main_infix c env .read r .clockStop h
    obtain ⟨-, h2⟩ := repeat_clockStop env .read c.wsyncMode r hm
    exact (h2 (fun hc => by cases hc.1)).trans hin

/-- Witness of C24: one repeat with the default `wsyncMode = 1`, nothing fails; the run
calls `fsync` between the page walk and the stop clock sample of the write repeat. -/
theorem main_fsync_order_witness :
    [Action.step .write 0 .clockStart, .step .write 0 .pageWalk, .step .write 0 .fsync,
      .step .write 0 .clockStop] <:+:
      (main { defaultConfig with repeats := 1 } quietEnv).trace :=
  ((main_fsync_order { defaultConfig with repeats := 1 } quietEnv 0).2.2.2.1
    (by decide)).1 rfl

end MapFile

namespace MapFile

/-! ## Lemmas on `handlerInput` -/

/-- The digit check loop of the `MEMPARM` case keeps the unit exactly when the first
`m` characters are digits. -/
theorem digitLoop_spec (v : List Char) (init : Nat) (m : Nat) :
    (List.range m).foldl
        (fun k1 k => if isdigit (v.getD k ' ') = false then 0 else k1) init
      = if ∀ k, k < m → isdigit (v.getD k ' ') = true then init else 0 := by
  induction m with
  | zero => simp
  | succ m ih =>
    rw [List.range_succ, List.foldl_append, ih]
    simp only [List.foldl_cons, List.foldl_nil]
    by_cases hm : isdigit (v.getD m ' ') = true
    · by_cases hall : ∀ k, k < m → isdigit (v.getD k ' ') = true
      · have hall2 : ∀ k, k < m + 1 → isdigit (v.getD k ' ') = true := by
          intro k hk
          rcases Nat.lt_succ_iff_lt_or_eq.mp hk with h | h
          · exact hall k h
          · rw [h]; exact hm
        rw [if_pos hall, if_pos hall2]
        simp only [hm, Bool.true_eq_false, if_false]
      · have hall2 : ¬ ∀ k, k < m + 1 → isdigit (v.getD k ' ') = true :=
          fun h => hall (fun k hk => h k (Nat.lt_succ_of_lt hk))
        rw [if_neg hall, if_neg hall2]
        simp
    · have hall2 : ¬ ∀ k, k < m + 1 → isdigit (v.getD k ' ') = true :=
        fun h => hm (h m (Nat.lt_succ_self m))
      rw [if_neg hall2]
      simp only [Bool.not_eq_true] at hm
      simp only [hm, if_true]

/-- Reading the first characters of a list by index. -/
theorem digits_index_iff (d s : List Char) :
    (∀ k, k < d.length → isdigit ((d ++ s).getD k ' ') = true)
      ↔ ∀ x, x ∈ d → isdigit x = true := by
  constructor
  · intro h x hx
    obtain ⟨k, hk, rfl⟩ := List.mem_iff_getElem.mp hx
    have := h k hk
    rw [List.getD_append _ _ _ _ hk, List.getD_eq_getElem _ _ hk] at this
    exact this
  · intro h k hk
    rw [List.getD_append _ _ _ _ hk, List.getD_eq_getElem _ _ hk]
    exact h _ (List.getElem_mem _)

/-- The digit loop of `atoi` on a string of digits followed by nothing or by a
character that is not a digit. -/
theorem atoiDigits_spec (suf : List Char)
    (hsuf : ∀ c, suf.head? = some c → isdigit c = false) :
    ∀ (digits : List Char) (acc : Nat), (∀ x, x ∈ digits → isdigit x = true) →
      atoiDigits acc (digits ++ suf)
        = digits.foldl (fun acc c => acc * 10 + (c.toNat - 48)) acc := by
  intro digits
  induction digits with
  | nil =>
    intro acc _
    cases suf with
    | nil => rfl
    | cons c cs =>
      have := hsuf c rfl
      simp [atoiDigits, this]
  | cons x xs ih =>
    intro acc h
    have hx : isdigit x = true := h x (List.mem_cons_self _ _)
    have hxs : ∀ y, y ∈ xs → isdigit y = true := fun y hy => h y (List.mem_cons_of_mem _ hy)
    simp only [List.cons_append, atoiDigits, hx, if_true, List.foldl_cons]
    exact ih _ hxs

/-- A digit is neither white space nor a sign. -/
theorem isdigit_facts (c : Char) (h : isdigit c = true) :
    isspace c = false ∧ c ≠ '-' ∧ c ≠ '+' ∧ c ≠ ' ' ∧ c ≠ '=' := by
  simp only [isdigit, Bool.and_eq_true, decide_eq_true_eq] at h
  refine ⟨?_, ?_, ?_, ?_, ?_⟩
  · simp only [isspace, Bool.or_eq_false_iff, Bool.and_eq_false_iff, decide_eq_false_iff_not]
    omega
  all_goals
    intro e
    rw [e] at h
    revert h
    decide

/-- The value of `atoi` on a non-empty string of digits followed by nothing or by a
character that is not a digit. -/
theorem atoi_spec (digits suf : List Char) (hne : digits ≠ [])
    (hd : ∀ x, x ∈ digits → isdigit x = true)
    (hsuf : ∀ c, suf.head? = some c → isdigit c = false) :
    atoi (digits ++ suf) = (decimalValue digits : Int) := by
  cases digits with
  | nil => exact absurd rfl hne
  | cons x xs =>
    have hx : isdigit x = true := hd x (List.mem_cons_self _ _)
    obtain ⟨h1, h2, h3, -, -⟩ := isdigit_facts x hx
    have hdrop : (x :: xs ++ suf).dropWhile isspace = x :: (xs ++ suf) := by
      simp [List.dropWhile, h1]
    have hval := atoiDigits_spec suf hsuf (x :: xs) 0 hd
    unfold atoi
    rw [hdrop]
    split
    · rename_i cs heq
      exact absurd (List.cons.inj heq).1 h2
    · rename_i cs heq
      exact absurd (List.cons.inj heq).1 h3
    · rw [← List.cons_append, hval]
      rfl

end MapFile

namespace MapFile

/-- The unit the `MEMPARM` case takes from the last character of an accepted value. -/
theorem memUnit_cases (c : Char) (k2 : Nat) :
    (isdigit c = true ∧ memUnit c k2 = (1, k2))
    ∨ (isdigit c = false ∧ c = 'K' ∧ memUnit c k2 = (1024, k2 - 1))
    ∨ (isdigit c = false ∧ c = 'M' ∧ memUnit c k2 = (1048576, k2 - 1))
    ∨ (isdigit c = false ∧ c = 'G' ∧ memUnit c k2 = (1073741824, k2 - 1))
    ∨ (isdigit c = false ∧ c ≠ 'K' ∧ c ≠ 'M' ∧ c ≠ 'G' ∧ memUnit c k2 = (0, k2)) := by
  unfold memUnit
  by_cases hc : isdigit c = true
  · left
    exact ⟨hc, by rw [if_pos hc]⟩
  · right
    have hc2 : isdigit c = false := by simpa using hc
    rw [if_neg hc]
    by_cases h1 : c = 'K'
    · left
      exact ⟨hc2, h1, by rw [if_pos h1]⟩
    · right
      rw [if_neg h1]
      by_cases h2 : c = 'M'
      · left
        exact ⟨hc2, h2, by rw [if_pos h2]⟩
      · right
        rw [if_neg h2]
        by_cases h3 : c = 'G'
        · left
          exact ⟨hc2, h3, by rw [if_pos h3]⟩
        · right
          rw [if_neg h3]
          exact ⟨hc2, h1, h2, h3, rfl⟩

/-- The `MEMPARM` case with the digit check loop in closed form. -/
theorem memparm_eq (v : List Char) (u1 u2 : Nat)
    (hu : memUnit (v.getD (v.length - 1) ' ') v.length = (u1, u2)) :
    memparm v =
      if (∀ k, k < u2 → isdigit (v.getD k ' ') = true) ∧ u1 ≠ 0 then
        some ((atoi v % (2 ^ 64 : Int)).toNat * u1 % 2 ^ 64)
      else none := by
  unfold memparm
  simp only [hu, digitLoop_spec]
  by_cases hP : ∀ k, k < u2 → isdigit (v.getD k ' ') = true
  · rw [if_pos hP]
    by_cases h0 : u1 = 0
    · rw [if_pos h0, if_neg (fun h => h.2 h0)]
    · rw [if_neg h0, if_pos ⟨hP, h0⟩]
  · rw [if_neg hP, if_pos rfl, if_neg (fun h => hP h.1)]

/-- The `MEMPARM` case on a value with last character `c`: it is accepted exactly when
the characters before `c` are digits and `c` is a digit or one of `K`, `M`, `G`. -/
theorem memparm_concat (d : List Char) (c : Char) :
    memparm (d ++ [c]) =
      if (∀ x, x ∈ d → isdigit x = true)
          ∧ (isdigit c = true ∨ c = 'K' ∨ c = 'M' ∨ c = 'G') then
        some ((atoi (d ++ [c]) % (2 ^ 64 : Int)).toNat * (memUnit c 0).1 % 2 ^ 64)
      else none := by
  have hlen : (d ++ [c]).length = d.length + 1 := by simp
  have hlast : (d ++ [c]).getD ((d ++ [c]).length - 1) ' ' = c := by
    rw [hlen, Nat.add_sub_cancel, List.getD_append_right _ _ _ _ (le_refl _)]
    simp
  have hfull : (∀ k, k < d.length + 1 → isdigit ((d ++ [c]).getD k ' ') = true)
      ↔ (∀ x, x ∈ d → isdigit x = true) ∧ isdigit c = true := by
    have h := digits_index_iff (d ++ [c]) []
    rw [List.append_nil, hlen] at h
    rw [h]
    constructor
    · intro hx
      exact ⟨fun x hm => hx x (List.mem_append_left _ hm),
        hx c (List.mem_append_right _ (List.mem_singleton_self c))⟩
    · rintro ⟨h1, h2⟩ x hm
      rcases List.mem_append.mp hm with h3 | h3
      · exact h1 x h3
      · rw [List.mem_singleton.mp h3]; exact h2
  have hpre := digits_index_iff d [c]
  have hsub : d.length + 1 - 1 = d.length := Nat.add_sub_cancel _ _
  rcases memUnit_cases c (d.length + 1) with ⟨hc, hu⟩ | ⟨hc, hk, hu⟩ | ⟨hc, hk, hu⟩
      | ⟨hc, hk, hu⟩ | ⟨hc, h1, h2, h3, hu⟩
  · rw [memparm_eq _ 1 (d.length + 1) (by rw [hlast, hlen]; exact hu)]
    have hu0 : (memUnit c 0).1 = 1 := by
      rcases memUnit_cases c 0 with ⟨-, e⟩ | ⟨e, -⟩ | ⟨e, -⟩ | ⟨e, -⟩ | ⟨e, -⟩
      · rw [e]
      all_goals rw [hc] at e; exact absurd e (by decide)
    rw [hu0]
    by_cases hd : ∀ x, x ∈ d → isdigit x = true
    · rw [if_pos ⟨hfull.mpr ⟨hd, hc⟩, by decide⟩, if_pos ⟨hd, Or.inl hc⟩]
    · rw [if_neg (fun h => hd (hfull.mp h.1).1), if_neg (fun h => hd h.1)]
  · rw [memparm_eq _ 1024 d.length (by rw [hlast, hlen, hu, hsub])]
    have hu0 : (memUnit c 0).1 = 1024 := by rw [hk]; decide
    rw [hu0]
    by_cases hd : ∀ x, x ∈ d → isdigit x = true
    · rw [if_pos ⟨hpre.mpr hd, by decide⟩, if_pos ⟨hd, Or.inr (Or.inl hk)⟩]
    · rw [if_neg (fun h => hd (hpre.mp h.1)), if_neg (fun h => hd h.1)]
  · rw [memparm_eq _ 1048576 d.length (by rw [hlast, hlen, hu, hsub])]
    have hu0 : (memUnit c 0).1 = 1048576 := by rw [hk]; decide
    rw [hu0]
    by_cases hd : ∀ x, x ∈ d → isdigit x = true
    · rw [if_pos ⟨hpre.mpr hd, by decide⟩, if_pos ⟨hd, Or.inr (Or.inr (Or.inl hk))⟩]
    · rw [if_neg (fun h => hd (hpre.mp h.1)), if_neg (fun h => hd h.1)]
  · rw [memparm_eq _ 1073741824 d.length (by rw [hlast, hlen, hu, hsub])]
    have hu0 : (memUnit c 0).1 = 1073741824 := by rw [hk]; decide
    rw [hu0]
    by_cases hd : ∀ x, x ∈ d → isdigit x = true
    · rw [if_pos ⟨hpre.mpr hd, by decide⟩, if_pos ⟨hd, Or.inr (Or.inr (Or.inr hk))⟩]
    · rw [if_neg (fun h => hd (hpre.mp h.1)), if_neg (fun h => hd h.1)]
  · rw [memparm_eq _ 0 (d.length + 1) (by rw [hlast, hlen]; exact hu)]
    rw [if_neg (fun h => h.2 rfl), if_neg]
    rintro ⟨-, h | h | h | h⟩
    · rw [hc] at h; exact absurd h (by decide)
    · exact h1 h
    · exact h2 h
    · exact h3 h

end MapFile

namespace MapFile

/-- The two `strtok` calls on an option string `size=v`: the name is `size` and the
rest of the buffer is `v`. -/
theorem strtokName_size (v : List Char) :
    strtokName ('s' :: 'i' :: 'z' :: 'e' :: '=' :: v) = (['s', 'i', 'z', 'e'], v) := by
  simp [strtokName, List.takeWhile, List.dropWhile]

/-- The call `strtok( NULL, " " )` on a non-empty value without spaces gives the
value. -/
theorem strtokValue_self (v : List Char) (hv : v ≠ []) (hsp : ∀ c, c ∈ v → c ≠ ' ') :
    strtokValue v = some v := by
  cases v with
  | nil => exact absurd rfl hv
  | cons x xs =>
    have hx : x ≠ ' ' := hsp x (List.mem_cons_self _ _)
    have h1 : (x :: xs).dropWhile (fun c => decide (c = ' ')) = x :: xs := by
      simp [List.dropWhile, hx]
    have h2 : (x :: xs).takeWhile (fun c => decide (c ≠ ' ')) = x :: xs := by
      rw [List.takeWhile_eq_self_iff]
      intro c hc
      simpa using hsp c hc
    unfold strtokValue
    simp only [h1, h2]
    rfl

/-- The option `size=v` for a non-empty value without spaces, the whole option string
at most 80 characters long: `handlerInput` reaches the `MEMPARM` case with value `v`. -/
theorem handleOption_size (o : Options) (v : List Char) (hv : v ≠ [])
    (hsp : ∀ c, c ∈ v → c ≠ ' ') (hlen : v.length + 5 ≤ 80) :
    handleOption o ('s' :: 'i' :: 'z' :: 'e' :: '=' :: v) =
      match memparm v with
      | none => .error .notABlockSize o
      | some n => .ok { o with config := { o.config with fileSize := n } } := by
  have hpos : 0 < v.length := List.length_pos.mpr hv
  have hfind : ipb_list.find? (fun e => decide (e.name = ['s', 'i', 'z', 'e']))
      = some ⟨['s', 'i', 'z', 'e'], [], .fileSize, .MEMPARM⟩ := by decide
  unfold handleOption
  simp only [List.length_cons, SMIN, SMAX, strtokName_size, strtokValue_self v hv hsp]
  rw [if_neg (by omega), if_neg (by omega), if_neg (by omega)]
  rw [if_neg (by simp only [List.length_nil]; omega)]
  simp only [hfind, Option.getD_some]
  cases memparm v with
  | none => rfl
  | some n => rfl

end MapFile

namespace MapFile

/-- The option `size=v` for an accepted value `v = d ++ [c]` whose `atoi` value is
`n < 2 ^ 31`: `handlerInput` returns 0 and stores `n` times the unit of `c`. -/
theorem sizeOption_value (o : Options) (d : List Char) (c : Char) (n : Nat)
    (hat : atoi (d ++ [c]) = (n : Int)) (hn : n < 2 ^ 31)
    (hd : ∀ x, x ∈ d → isdigit x = true)
    (hc : isdigit c = true ∨ c = 'K' ∨ c = 'M' ∨ c = 'G')
    (hlen : (d ++ [c]).length + 5 ≤ 80) :
    handlerInput ['s' :: 'i' :: 'z' :: 'e' :: '=' :: (d ++ [c])] o
      = .ok { o with config := { o.config with fileSize := n * (memUnit c 0).1 } } := by
  have hsp : ∀ x, x ∈ d ++ [c] → x ≠ ' ' := by
    intro x hx
    rcases List.mem_append.mp hx with h | h
    · exact (isdigit_facts x (hd x h)).2.2.2.1
    · rw [List.mem_singleton.mp h]
      rcases hc with h1 | h1 | h1 | h1
      · exact (isdigit_facts c h1).2.2.2.1
      all_goals rw [h1]; decide
  have hu : (memUnit c 0).1 ≤ 2 ^ 30 := by
    rcases memUnit_cases c 0 with ⟨-, e⟩ | ⟨-, -, e⟩ | ⟨-, -, e⟩ | ⟨-, -, e⟩ | ⟨-, -, -, -, e⟩
    all_goals rw [e]; decide
  have hmul : n * (memUnit c 0).1 < 2 ^ 64 :=
    calc n * (memUnit c 0).1 ≤ n * 2 ^ 30 := Nat.mul_le_mul_left _ hu
      _ < 2 ^ 31 * 2 ^ 30 := Nat.mul_lt_mul_of_pos_right hn (by decide)
      _ < 2 ^ 64 := by decide
  have hmod : ((n : Int) % (2 ^ 64 : Int)).toNat = n := by
    have h64 : ((2 : Int) ^ 64) = ((2 ^ 64 : Nat) : Int) := by norm_num
    rw [h64, ← Int.natCast_mod, Int.toNat_natCast]
    exact Nat.mod_eq_of_lt (lt_trans hn (by decide))
  have hmem : memparm (d ++ [c]) = some (n * (memUnit c 0).1) := by
    rw [memparm_concat, if_pos ⟨hd, hc⟩, hat, hmod, Nat.mod_eq_of_lt hmul]
  unfold handlerInput
  rw [handleOption_size o _ (by simp) hsp hlen, hmem]
  rfl

end MapFile

namespace MapFile

/-! ## The `size=` option and the length checks of `handlerInput` -/

/-- Leading zeros do not change the value of a string of digits. -/
theorem foldl_zeros (n : Nat) :
    (List.replicate n '0').foldl (fun acc c => acc * 10 + (c.toNat - 48)) 0 = 0 := by
  induction n with
  | zero => rfl
  | succ n ih =>
    rw [List.replicate_succ, List.foldl_cons]
    exact ih

/-- C21 (counterexample): the value made of 76 zeros and a final `1` consists of
decimal digits and denotes 1, but the option string `size=0...01` has 82 characters
and `handlerInput` returns 1 with "OPTION TOO LONG", storing nothing in `fileSize`. -/
theorem handlerInput_size_counterexample :
    (∀ c, c ∈ List.replicate 76 '0' ++ ['1'] → isdigit c = true)
    ∧ decimalValue (List.replicate 76 '0' ++ ['1']) = 1
    ∧ handlerInput [['s', 'i', 'z', 'e', '='] ++ (List.replicate 76 '0' ++ ['1'])]
          defaultOptions
        = .error .optionTooLong defaultOptions := by
  refine ⟨?_, ?_, by decide⟩
  · intro c hc
    rcases List.mem_append.mp hc with h | h
    · rw [List.eq_of_mem_replicate h]
      decide
    · rw [List.mem_singleton.mp h]
      decide
  · unfold decimalValue
    rw [List.foldl_append, foldl_zeros]
    decide

/-- C21 (amended): for every `size=` value made of one or more decimal digits denoting
`n < 2 ^ 31`, optionally followed by one of `K`, `M`, `G`, such that the whole option
string has at most 80 characters, `handlerInput` returns 0 and stores `n` times 1, 1024,
1048576 or 1073741824 respectively in `fileSize`, leaving the other option variables as
they were. -/
theorem handlerInput_size (o : Options) (digits suf : List Char) (mult : Nat)
    (hne : digits ≠ []) (hd : ∀ c, c ∈ digits → isdigit c = true)
    (hn : decimalValue digits < 2 ^ 31)
    (hs : (suf, mult) ∈
      [([], 1), (['K'], 1024), (['M'], 1048576), (['G'], 1073741824)])
    (hlen : 5 + digits.length + suf.length ≤ 80) :
    handlerInput [['s', 'i', 'z', 'e', '='] ++ digits ++ suf] o
      = .ok { o with
          config := { o.config with fileSize := decimalValue digits * mult } } := by
  have hshape : ['s', 'i', 'z', 'e', '='] ++ digits ++ suf
      = 's' :: 'i' :: 'z' :: 'e' :: '=' :: (digits ++ suf) := by simp
  rw [hshape]
  simp only [List.mem_cons, Prod.mk.injEq, List.mem_singleton, List.not_mem_nil,
    or_false] at hs
  rcases hs with ⟨rfl, rfl⟩ | ⟨rfl, rfl⟩ | ⟨rfl, rfl⟩ | ⟨rfl, rfl⟩
  · rcases List.eq_nil_or_concat digits with h | ⟨d, c, h⟩
    · exact absurd h hne
    · rw [List.concat_eq_append] at h
      subst h
      have hc : isdigit c = true := hd c (by simp)
      have hd2 : ∀ x, x ∈ d → isdigit x = true := fun x hx => hd x (by simp [hx])
      have hat : atoi (d ++ [c]) = ((decimalValue (d ++ [c]) : Nat) : Int) := by
        have := atoi_spec (d ++ [c]) [] hne hd (by simp)
        rwa [List.append_nil] at this
      have hu : (memUnit c 0).1 = 1 := by
        unfold memUnit
        rw [if_pos hc]
      have h := sizeOption_value o d c _ hat hn hd2 (Or.inl hc)
        (by simp only [List.length_append, List.length_nil, List.length_singleton,
              List.length_cons] at hlen ⊢; omega)
      rw [hu] at h
      rw [List.append_nil]
      exact h
  · have hat : atoi (digits ++ ['K']) = ((decimalValue digits : Nat) : Int) :=
      atoi_spec digits ['K'] hne hd (by simp; decide)
    have h := sizeOption_value o digits 'K' _ hat hn hd (Or.inr (Or.inl rfl))
      (by simp only [List.length_append, List.length_nil, List.length_singleton,
            List.length_cons] at hlen ⊢; omega)
    exact h
  · have hat : atoi (digits ++ ['M']) = ((decimalValue digits : Nat) : Int) :=
      atoi_spec digits ['M'] hne hd (by simp; decide)
    have h := sizeOption_value o digits 'M' _ hat hn hd
      (Or.inr (Or.inr (Or.inl rfl)))
      (by simp only [List.length_append, List.length_nil, List.length_singleton,
            List.length_cons] at hlen ⊢; omega)
    exact h
  · have hat : atoi (digits ++ ['G']) = ((decimalValue digits : Nat) : Int) :=
      atoi_spec digits ['G'] hne hd (by simp; decide)
    have h := sizeOption_value o digits 'G' _ hat hn hd
      (Or.inr (Or.inr (Or.inr rfl)))
      (by simp only [List.length_append, List.length_nil, List.length_singleton,
            List.length_cons] at hlen ⊢; omega)
    exact h

/-- The documented examples: `size=10240` stores 10240, `size=16K` stores 16384,
`size=20M` stores 20971520 and `size=1G` stores 1073741824. -/
theorem handlerInput_size_witness :
    handlerInput [['s', 'i', 'z', 'e', '='] ++ ['1', '0', '2', '4', '0'] ++ []]
        defaultOptions
      = .ok { defaultOptions with config := { defaultConfig with fileSize := 10240 } }
    ∧ handlerInput [['s', 'i', 'z', 'e', '='] ++ ['1', '6'] ++ ['K']] defaultOptions
      = .ok { defaultOptions with config := { defaultConfig with fileSize := 16384 } }
    ∧ handlerInput [['s', 'i', 'z', 'e', '='] ++ ['2', '0'] ++ ['M']] defaultOptions
      = .ok { defaultOptions with config := { defaultConfig with fileSize := 20971520 } }
    ∧ handlerInput [['s', 'i', 'z', 'e', '='] ++ ['1'] ++ ['G']] defaultOptions
      = .ok { defaultOptions with
          config := { defaultConfig with fileSize := 1073741824 } } :=
  ⟨handlerInput_size defaultOptions ['1', '0', '2', '4', '0'] [] 1 (by decide) (by decide)
      (by decide) (by decide) (by decide),
   handlerInput_size defaultOptions ['1', '6'] ['K'] 1024 (by decide) (by decide)
      (by decide) (by decide) (by decide),
   handlerInput_size defaultOptions ['2', '0'] ['M'] 1048576 (by decide) (by decide)
      (by decide) (by decide) (by decide),
   handlerInput_size defaultOptions ['1'] ['G'] 1073741824 (by decide) (by decide)
      (by decide) (by decide) (by decide)⟩

/-- C29: an option string of exactly `SMAX` = 81 characters passes both length checks
of `handlerInput` (it is neither shorter than `SMIN` nor longer than `SMAX`), and with
its terminating NUL it needs 82 bytes, one more than the 81-byte buffer `cmdName`:
`strcpy` writes past the end of the buffer, for every state of the option
variables. -/
theorem handleOption_strcpy_overflow (o : Options) :
    (['p', 'a', 't', 'h', '='] ++ List.replicate 76 'a').length = SMAX
    ∧ ¬ (['p', 'a', 't', 'h', '='] ++ List.replicate 76 'a').length < SMIN
    ∧ ¬ (['p', 'a', 't', 'h', '='] ++ List.replicate 76 'a').length > SMAX
    ∧ (['p', 'a', 't', 'h', '='] ++ List.replicate 76 'a').length + 1 = 82
    ∧ handleOption o (['p', 'a', 't', 'h', '='] ++ List.replicate 76 'a') = .overflow
    ∧ handlerInput [['p', 'a', 't', 'h', '='] ++ List.replicate 76 'a'] o
        = .overflow := by
  have h : handleOption o (['p', 'a', 't', 'h', '='] ++ List.replicate 76 'a')
      = .overflow := by
    unfold handleOption
    rw [if_neg (by decide), if_neg (by decide), if_pos (by decide)]
  refine ⟨by decide, by decide, by decide, by decide, h, ?_⟩
  unfold handlerInput
  rw [h]

/-- C30: the `MEMPARM` case accepts a value with last character `c` exactly when the
characters before `c` are digits and `c` is a digit or one of `K`, `M`, `G`; the
characters before a letter may be none at all, so the lone letter `K` (no digit) is
accepted: `size=K` makes `handlerInput` return 0 and store 0 in `fileSize`. -/
theorem memparm_accepts_lone_unit :
    (∀ (d : List Char) (c : Char), (memparm (d ++ [c])).isSome = true ↔
        ((∀ x, x ∈ d → isdigit x = true)
          ∧ (isdigit c = true ∨ c = 'K' ∨ c = 'M' ∨ c = 'G')))
    ∧ memparm ['K'] = some 0
    ∧ handlerInput [['s', 'i', 'z', 'e', '=', 'K']] defaultOptions
        = .ok { defaultOptions with config := { defaultConfig with fileSize := 0 } }
    ∧ (∀ o : Options, handlerInput [['s', 'i', 'z', 'e', '=', 'K', '1']] o
        = .error .notABlockSize o) := by
  refine ⟨?_, by decide, by decide, ?_⟩
  · intro d c
    rw [memparm_concat]
    by_cases h : (∀ x, x ∈ d → isdigit x = true)
        ∧ (isdigit c = true ∨ c = 'K' ∨ c = 'M' ∨ c = 'G')
    · rw [if_pos h]
      simp only [Option.isSome_some, true_iff]
      exact h
    · rw [if_neg h]
      simp only [Option.isSome_none, Bool.false_eq_true, false_iff]
      exact h
  · intro o
    unfold handlerInput
    rw [handleOption_size o ['K', '1'] (by decide) (by decide) (by decide)]
    have : memparm ['K', '1'] = none := by decide
    rw [this]

end MapFile
